import Mathlib

/-!
# AttributeSystem: a shallow embedding of `UAttributeComponent`

The development follows `Source/AttributeSystem/Private/AttributeComponent.cpp`
and the headers under `Source/AttributeSystem/Public`.

Modelling conventions.

* `float` is modelled by exact rational arithmetic (`ℚ`); rounding, infinities
  and NaN are outside the model.  The sum of the regen tick, which is repeated
  tick after tick, is rendered a second time with rounding: next to the exact
  `RegenerateAttributes` the file has `RegenerateAttributesBinary32`, which rounds
  that sum to the nearest binary32 number as the `float` addition does.
* `TMap` is an association list in insertion order.  `Add` on a key that is
  already present overwrites the stored value in place, which is also how a
  write through the pointer returned by `Find` is rendered.
* Multicast delegates are modelled by a log: every `Broadcast` appends one
  `Event` to the field `Broadcasts` of the component.
* The engine timer manager is modelled by the handle itself: an
  `FTimerHandle` is `none` while it is invalid (never set, or cleared) and
  `some rate` while a looping timer with period `rate` runs for it.  A firing
  regen timer is a call of `RegenerateAttributes`; a one-shot modifier timer
  that has been scheduled is an entry of `ModifierTimers`.
* The engine functions `FMath::Clamp`, `FTimerManager::SetTimer`,
  `FTimerManager::ClearTimer` and `FTimerManager::IsTimerActive` are not part of
  the plugin; they are rendered after the engine's documented behaviour.
* A `TMap` that has seen removals may iterate in another order than the
  insertion order used here; only the order of broadcasts within one
  `RegenerateAttributes` pass depends on it.
-/

namespace AttributeSystem

/-! ## Data model (`AttributeData.h`, `AttributeComponent.h`, `AttributeSaveGame.h`) -/

/-- Gameplay tags are compared by name only; the empty string is the empty tag. -/
abbrev FGameplayTag := String

/-- The record `FAttribute` of `AttributeData.h`. -/
structure FAttribute where
  AttributeTag : FGameplayTag
  Value : ℚ
  MinValue : ℚ
  MaxValue : ℚ
  bUseRegen : Bool
  RegenRate : ℚ
  RegenValue : ℚ
deriving DecidableEq

/-- The default constructor `FAttribute()`. -/
def FAttribute.ctor : FAttribute :=
  { AttributeTag := "", Value := 0, MinValue := 0, MaxValue := 100,
    bUseRegen := false, RegenRate := 0, RegenValue := 0 }

/-- The enumeration `EAttributeOperation`. -/
inductive EAttributeOperation where
  | Add
  | Subtract
  | Multiply
  | Divide
  | Override
deriving DecidableEq

/-- The record `FAttributeModifier`; `Duration` is `-1` for a permanent modifier. -/
structure FAttributeModifier where
  AttributeTag : FGameplayTag
  Value : ℚ
  Duration : ℚ
deriving DecidableEq

/-- One broadcast of one of the component's multicast delegates. -/
inductive Event where
  | OnAttributeChanged (AttributeTag : FGameplayTag) (NewValue : ℚ)
  | OnAttributeAdded (AttributeTag : FGameplayTag) (InitialValue : ℚ)
  | OnAttributeRemoved (AttributeTag : FGameplayTag)
  | OnAttributeThresholdReached (AttributeTag : FGameplayTag) (CurrentValue : ℚ)
  | OnPreAttributeChanged (AttributeTag : FGameplayTag) (NewValue : ℚ)
  | OnInitializeAttributes
  | OnDeath
deriving DecidableEq

/-- The engine container `TMap`, as an association list in insertion order. -/
abbrev TMap (K V : Type) := List (K × V)

namespace TMap

variable {K V : Type} [DecidableEq K]

/-- The lookup `TMap::Find`: the value stored under the key, if any. -/
def Find : TMap K V → K → Option V
  | [], _ => none
  | (k', v) :: m, k => if k' = k then some v else Find m k

/-- The test `TMap::Contains`. -/
def Contains (m : TMap K V) (k : K) : Bool := (Find m k).isSome

/-- The insertion `TMap::Add`: overwrite the value of a present key, append a new key. -/
def Add : TMap K V → K → V → TMap K V
  | [], k, v => [(k, v)]
  | (k', v') :: m, k, v => if k' = k then (k', v) :: m else (k', v') :: Add m k v

/-- The removal `TMap::Remove`: drop what is stored under the key. -/
def Remove (m : TMap K V) (k : K) : TMap K V := m.filter (fun p => decide (p.1 ≠ k))

end TMap

/-- A timer handle with the engine's view of it: `none` is an invalid handle,
`some rate` a running looping timer of period `rate`. -/
abbrev FTimerHandle := Option ℚ

/-- The content of a `UAttributeSaveGame`: the map `SavedAttributes`. -/
abbrev UAttributeSaveGame := TMap FGameplayTag ℚ

/-- The component `UAttributeComponent` with the part of the world it talks to:
its two views of the attributes (the array `Attributes` and the copies held by
`AttributeMap`), the modifier ledger, the regen timer table, the one-shot
modifier timers it has scheduled, the save-game slots, and the log of
delegate broadcasts. -/
structure UAttributeComponent where
  AttributeDataAsset : Option (List FAttribute)
  InitialAttributesBackup : List FAttribute
  Attributes : List FAttribute
  AttributeMap : TMap FGameplayTag FAttribute
  ActiveModifiers : List FAttributeModifier
  RegenTimers : TMap FGameplayTag FTimerHandle
  ModifierTimers : List FAttributeModifier
  SaveSlots : TMap (String × Int) UAttributeSaveGame
  Broadcasts : List Event
deriving DecidableEq

/-! ## Engine helpers -/

/-- The constant `FLT_MAX`. -/
def FLT_MAX : ℚ := 340282346638528859811704183484516925440

namespace FMath

/-- The engine function `FMath::Max`: `(B < A) ? A : B`. -/
def Max (A B : ℚ) : ℚ := if B < A then A else B

/-- The engine function `FMath::Min`: `(A < B) ? A : B`. -/
def Min (A B : ℚ) : ℚ := if A < B then A else B

/-- The engine function `FMath::Clamp`: `Max(Min(X, MaxValue), MinValue)`.  For
`MinValue ≤ MaxValue` this is the value of the older engine formula
`X < Min ? Min : X < Max ? X : Max` as well. -/
def Clamp (X MinValue MaxValue : ℚ) : ℚ := Max (Min X MaxValue) MinValue

end FMath

/-- The engine call `FTimerManager::IsTimerActive`. -/
def IsTimerActive (Handle : FTimerHandle) : Bool := Handle.isSome

/-- The engine call `FTimerManager::SetTimer` for a looping timer: a positive
rate starts a timer and stores its handle, any other rate leaves the handle invalid. -/
def SetTimer (InRate : ℚ) : FTimerHandle := if 0 < InRate then some InRate else none

/-- The tag `FGameplayTag::RequestGameplayTag(FName("Attribute.Health"))`. -/
def HealthTag : FGameplayTag := "Attribute.Health"

namespace UAttributeComponent

/-- One `Broadcast` of a delegate. -/
def Broadcast (s : UAttributeComponent) (e : Event) : UAttributeComponent :=
  { s with Broadcasts := s.Broadcasts ++ [e] }

/-- The component with its broadcast log emptied: everything but the notifications. -/
def Silent (s : UAttributeComponent) : UAttributeComponent :=
  { s with Broadcasts := [] }

/-- The `switch (Operation)` shared by the three setters: the proposed new
value from the old one; a division by zero keeps the old value. -/
def ApplyOperation (Operation : EAttributeOperation) (OldValue Value : ℚ) : ℚ :=
  match Operation with
  | .Add => OldValue + Value
  | .Subtract => OldValue - Value
  | .Multiply => OldValue * Value
  | .Divide => if Value ≠ 0 then OldValue / Value else OldValue
  | .Override => Value

/-- `UAttributeComponent::InitializeAttributeMap`. -/
def InitializeAttributeMap (s : UAttributeComponent) : UAttributeComponent :=
  { s with AttributeMap :=
      s.Attributes.foldl (fun m Attribute => TMap.Add m Attribute.AttributeTag Attribute) [] }

/-- `UAttributeComponent::CheckRegenStatus`. -/
def CheckRegenStatus (s : UAttributeComponent) (AttributeTag : FGameplayTag) :
    UAttributeComponent :=
  match TMap.Find s.AttributeMap AttributeTag with
  | some FoundAttribute =>
    if FoundAttribute.bUseRegen then
      if FoundAttribute.Value < FoundAttribute.MaxValue then
        let TimerHandle : FTimerHandle := (TMap.Find s.RegenTimers AttributeTag).getD none
        if !IsTimerActive TimerHandle then
          { s with RegenTimers :=
              TMap.Add s.RegenTimers AttributeTag (SetTimer FoundAttribute.RegenRate) }
        else
          { s with RegenTimers := TMap.Add s.RegenTimers AttributeTag TimerHandle }
      else
        match TMap.Find s.RegenTimers AttributeTag with
        | some _ => { s with RegenTimers := TMap.Remove s.RegenTimers AttributeTag }
        | none => s
    else s
  | none => s

/-- `UAttributeComponent::SetAttributeValueInternal`. -/
def SetAttributeValueInternal (s : UAttributeComponent) (AttributeTag : FGameplayTag)
    (Value : ℚ) (Operation : EAttributeOperation) : UAttributeComponent :=
  match TMap.Find s.AttributeMap AttributeTag with
  | some FoundAttribute =>
    let OldValue := FoundAttribute.Value
    let NewValue := ApplyOperation Operation OldValue Value
    let s1 := s.Broadcast (.OnPreAttributeChanged AttributeTag NewValue)
    let Committed := FMath.Clamp NewValue FoundAttribute.MinValue FoundAttribute.MaxValue
    let Stored : FAttribute := { FoundAttribute with Value := Committed }
    let s2 := { s1 with AttributeMap := TMap.Add s1.AttributeMap AttributeTag Stored }
    if OldValue ≠ Committed then
      CheckRegenStatus (s2.Broadcast (.OnAttributeChanged AttributeTag Committed)) AttributeTag
    else s2
  | none => s

/-- `UAttributeComponent::SetAttributeValue`. -/
def SetAttributeValue (s : UAttributeComponent) (AttributeTag : FGameplayTag)
    (Value : ℚ) (Operation : EAttributeOperation) : UAttributeComponent :=
  SetAttributeValueInternal s AttributeTag Value Operation

/-- `UAttributeComponent::DecreaseAttributeValue`. -/
def DecreaseAttributeValue (s : UAttributeComponent) (AttributeTag : FGameplayTag)
    (Amount : ℚ) : UAttributeComponent :=
  SetAttributeValueInternal s AttributeTag Amount .Subtract

/-- `UAttributeComponent::IncreaseAttributeValue`. -/
def IncreaseAttributeValue (s : UAttributeComponent) (AttributeTag : FGameplayTag)
    (Amount : ℚ) : UAttributeComponent :=
  SetAttributeValueInternal s AttributeTag Amount .Add

/-- `UAttributeComponent::SetAttributeMinValue`. -/
def SetAttributeMinValue (s : UAttributeComponent) (AttributeTag : FGameplayTag)
    (Value : ℚ) (Operation : EAttributeOperation) : UAttributeComponent :=
  match TMap.Find s.AttributeMap AttributeTag with
  | some FoundAttribute =>
    let OldValue := FoundAttribute.MinValue
    let NewValue := ApplyOperation Operation OldValue Value
    let Committed := FMath.Clamp NewValue 0 FoundAttribute.MaxValue
    let Stored : FAttribute := { FoundAttribute with MinValue := Committed }
    let s1 := { s with AttributeMap := TMap.Add s.AttributeMap AttributeTag Stored }
    if OldValue ≠ Committed then
      CheckRegenStatus (s1.Broadcast (.OnAttributeChanged AttributeTag Committed)) AttributeTag
    else s1
  | none => s

/-- `UAttributeComponent::SetAttributeMaxValue`. -/
def SetAttributeMaxValue (s : UAttributeComponent) (AttributeTag : FGameplayTag)
    (Value : ℚ) (Operation : EAttributeOperation) : UAttributeComponent :=
  match TMap.Find s.AttributeMap AttributeTag with
  | some FoundAttribute =>
    let OldValue := FoundAttribute.MaxValue
    let NewValue := ApplyOperation Operation OldValue Value
    let Committed := FMath.Clamp NewValue FoundAttribute.MinValue FLT_MAX
    let Stored : FAttribute := { FoundAttribute with MaxValue := Committed }
    let s1 := { s with AttributeMap := TMap.Add s.AttributeMap AttributeTag Stored }
    if OldValue ≠ Committed then
      CheckRegenStatus (s1.Broadcast (.OnAttributeChanged AttributeTag Committed)) AttributeTag
    else s1
  | none => s

/-- `UAttributeComponent::GetAttributeValue`. -/
def GetAttributeValue (s : UAttributeComponent) (AttributeTag : FGameplayTag) : ℚ :=
  match TMap.Find s.AttributeMap AttributeTag with
  | some FoundAttribute => FoundAttribute.Value
  | none => 0

/-- `UAttributeComponent::GetAttribute`. -/
def GetAttribute (s : UAttributeComponent) (AttributeTag : FGameplayTag) : FAttribute :=
  match TMap.Find s.AttributeMap AttributeTag with
  | some FoundAttribute => FoundAttribute
  | none => FAttribute.ctor

/-- `UAttributeComponent::GetAllAttributes`. -/
def GetAllAttributes (s : UAttributeComponent) : List FAttribute := s.Attributes

/-- `UAttributeComponent::GetAttributeValues`, the three out-parameters as a triple
`(OutValue, OutMin, OutMax)`. -/
def GetAttributeValues (s : UAttributeComponent) (AttributeTag : FGameplayTag) : ℚ × ℚ × ℚ :=
  match TMap.Find s.AttributeMap AttributeTag with
  | some FoundAttribute =>
    (FoundAttribute.Value, FoundAttribute.MinValue, FoundAttribute.MaxValue)
  | none => (0, 0, 0)

/-- `UAttributeComponent::GetAttributeNormalized`. -/
def GetAttributeNormalized (s : UAttributeComponent) (AttributeTag : FGameplayTag) : ℚ :=
  match TMap.Find s.AttributeMap AttributeTag with
  | some FoundAttribute =>
    if FoundAttribute.MaxValue ≠ FoundAttribute.MinValue then
      (FoundAttribute.Value - FoundAttribute.MinValue) /
        (FoundAttribute.MaxValue - FoundAttribute.MinValue)
    else 0
  | none => 0

/-- `UAttributeComponent::GetAttributeMap`. -/
def GetAttributeMap (s : UAttributeComponent) : TMap FGameplayTag FAttribute := s.AttributeMap

/-- `UAttributeComponent::SetUseRegen`. -/
def SetUseRegen (s : UAttributeComponent) (AttributeTag : FGameplayTag) (bUseRegen : Bool) :
    UAttributeComponent :=
  match TMap.Find s.AttributeMap AttributeTag with
  | some FoundAttribute =>
    let Stored : FAttribute := { FoundAttribute with bUseRegen := bUseRegen }
    CheckRegenStatus { s with AttributeMap := TMap.Add s.AttributeMap AttributeTag Stored }
      AttributeTag
  | none => s

/-- `UAttributeComponent::IsValidAttribute`. -/
def IsValidAttribute (s : UAttributeComponent) (AttributeTag : FGameplayTag) : Bool :=
  TMap.Contains s.AttributeMap AttributeTag

/-- `UAttributeComponent::AddAttribute`. -/
def AddAttribute (s : UAttributeComponent) (NewAttribute : FAttribute) : UAttributeComponent :=
  if !IsValidAttribute s NewAttribute.AttributeTag then
    let s1 := InitializeAttributeMap { s with Attributes := s.Attributes ++ [NewAttribute] }
    let s2 := s1.Broadcast (.OnAttributeChanged NewAttribute.AttributeTag NewAttribute.Value)
    let s3 := s2.Broadcast (.OnAttributeAdded NewAttribute.AttributeTag NewAttribute.Value)
    CheckRegenStatus s3 NewAttribute.AttributeTag
  else s

/-- `UAttributeComponent::RemoveAttribute`. -/
def RemoveAttribute (s : UAttributeComponent) (AttributeTag : FGameplayTag) :
    UAttributeComponent :=
  if IsValidAttribute s AttributeTag then
    let Kept := s.Attributes.filter (fun Attribute => decide (¬ Attribute.AttributeTag = AttributeTag))
    let s1 := InitializeAttributeMap { s with Attributes := Kept }
    let s2 := s1.Broadcast (.OnAttributeChanged AttributeTag 0)
    s2.Broadcast (.OnAttributeRemoved AttributeTag)
  else s

/-- `UAttributeComponent::CheckThresholds`. -/
def CheckThresholds (s : UAttributeComponent) (AttributeTag : FGameplayTag) :
    UAttributeComponent :=
  match TMap.Find s.AttributeMap AttributeTag with
  | some FoundAttribute =>
    if FoundAttribute.Value ≤ FoundAttribute.MinValue then
      s.Broadcast (.OnAttributeThresholdReached AttributeTag FoundAttribute.Value)
    else s
  | none => s

/-- `UAttributeComponent::ApplyModifier`.  A modifier with a positive duration
schedules its own revert, recorded in `ModifierTimers`. -/
def ApplyModifier (s : UAttributeComponent) (Modifier : FAttributeModifier) :
    UAttributeComponent :=
  if IsValidAttribute s Modifier.AttributeTag then
    match TMap.Find s.AttributeMap Modifier.AttributeTag with
    | some FoundAttribute =>
      let Committed := FMath.Clamp (FoundAttribute.Value + Modifier.Value)
        FoundAttribute.MinValue FoundAttribute.MaxValue
      let Stored : FAttribute := { FoundAttribute with Value := Committed }
      let s1 := { s with
        AttributeMap := TMap.Add s.AttributeMap Modifier.AttributeTag Stored,
        ActiveModifiers := s.ActiveModifiers ++ [Modifier] }
      let s2 := s1.Broadcast (.OnAttributeChanged Modifier.AttributeTag Committed)
      if 0 < Modifier.Duration then
        { s2 with ModifierTimers := s2.ModifierTimers ++ [Modifier] }
      else s2
    | none => s
  else s

/-- `UAttributeComponent::RemoveModifier`. -/
def RemoveModifier (s : UAttributeComponent) (AttributeTag : FGameplayTag)
    (ModifierValue : ℚ) : UAttributeComponent :=
  if IsValidAttribute s AttributeTag then
    match TMap.Find s.AttributeMap AttributeTag with
    | some FoundAttribute =>
      let Committed := FMath.Clamp (FoundAttribute.Value - ModifierValue)
        FoundAttribute.MinValue FoundAttribute.MaxValue
      let Stored : FAttribute := { FoundAttribute with Value := Committed }
      let Kept := s.ActiveModifiers.filter (fun Modifier =>
        decide (¬ (Modifier.AttributeTag = AttributeTag ∧ Modifier.Value = ModifierValue)))
      let s1 := { s with
        AttributeMap := TMap.Add s.AttributeMap AttributeTag Stored,
        ActiveModifiers := Kept }
      s1.Broadcast (.OnAttributeChanged AttributeTag Committed)
    | none => s
  else s

/-- `UAttributeComponent::DecreaseHealth`. -/
def DecreaseHealth (s : UAttributeComponent) (Amount : ℚ) : UAttributeComponent :=
  let s1 := SetAttributeValue s HealthTag Amount .Subtract
  let CachedHealth := GetAttributeValue s1 HealthTag
  if CachedHealth ≤ 0 then s1.Broadcast .OnDeath else s1

/-- `UAttributeComponent::IncreaseHealth`. -/
def IncreaseHealth (s : UAttributeComponent) (Amount : ℚ) : UAttributeComponent :=
  SetAttributeValue s HealthTag Amount .Add

/-- The body of the loops of `LoadAttributesFromDataAsset` and `ResetAllAttributes`:
announce the attribute and evaluate its regen eligibility. -/
def AnnounceAttribute (s : UAttributeComponent) (Attribute : FAttribute) :
    UAttributeComponent :=
  CheckRegenStatus (s.Broadcast (.OnAttributeChanged Attribute.AttributeTag Attribute.Value))
    Attribute.AttributeTag

/-- `UAttributeComponent::LoadAttributesFromDataAsset`. -/
def LoadAttributesFromDataAsset (s : UAttributeComponent) : UAttributeComponent :=
  match s.AttributeDataAsset with
  | some Asset =>
    let s1 := InitializeAttributeMap
      { s with InitialAttributesBackup := Asset, Attributes := Asset }
    let s2 := s1.Attributes.foldl AnnounceAttribute s1
    s2.Broadcast .OnInitializeAttributes
  | none => s

/-- `UAttributeComponent::ResetAllAttributes`. -/
def ResetAllAttributes (s : UAttributeComponent) : UAttributeComponent :=
  let s1 := InitializeAttributeMap
    { s with RegenTimers := [], Attributes := s.InitialAttributesBackup }
  s1.Attributes.foldl AnnounceAttribute s1

/-- The body of the loop of `StartRegenTimer`. -/
def StartRegenTimerFor (s : UAttributeComponent) (Attribute : FAttribute) :
    UAttributeComponent :=
  if Attribute.bUseRegen ∧ Attribute.Value < Attribute.MaxValue then
    let TimerHandle : FTimerHandle :=
      (TMap.Find s.RegenTimers Attribute.AttributeTag).getD none
    if !IsTimerActive TimerHandle then
      { s with RegenTimers :=
          TMap.Add s.RegenTimers Attribute.AttributeTag (SetTimer Attribute.RegenRate) }
    else
      { s with RegenTimers := TMap.Add s.RegenTimers Attribute.AttributeTag TimerHandle }
  else s

/-- `UAttributeComponent::StartRegenTimer`. -/
def StartRegenTimer (s : UAttributeComponent) : UAttributeComponent :=
  s.Attributes.foldl StartRegenTimerFor s

/-- `UAttributeComponent::BeginPlay`. -/
def BeginPlay (s : UAttributeComponent) : UAttributeComponent :=
  StartRegenTimer (LoadAttributesFromDataAsset s)

/-- The body of the loop of `RegenerateAttributes` for one key of `RegenTimers`. -/
def RegenerateAttribute (s : UAttributeComponent) (AttributeTag : FGameplayTag) :
    UAttributeComponent :=
  match TMap.Find s.AttributeMap AttributeTag with
  | some Attribute =>
    if Attribute.bUseRegen then
      let OldValue := Attribute.Value
      let NewValue := FMath.Clamp (OldValue + Attribute.RegenValue)
        Attribute.MinValue Attribute.MaxValue
      if OldValue ≠ NewValue then
        let Stored : FAttribute := { Attribute with Value := NewValue }
        let s1 := { s with AttributeMap := TMap.Add s.AttributeMap AttributeTag Stored }
        let s2 := s1.Broadcast (.OnAttributeChanged Attribute.AttributeTag NewValue)
        if Stored.MaxValue ≤ Stored.Value then
          match TMap.Find s2.RegenTimers AttributeTag with
          | some _ => { s2 with RegenTimers := TMap.Add s2.RegenTimers AttributeTag none }
          | none => s2
        else s2
      else s
    else s
  | none => s

/-- `UAttributeComponent::RegenerateAttributes`, the callback of every regen
timer: one pass over the keys of `RegenTimers`. -/
def RegenerateAttributes (s : UAttributeComponent) : UAttributeComponent :=
  (s.RegenTimers.map Prod.fst).foldl RegenerateAttribute s

/-- `UAttributeComponent::SaveAttributes`; `bSaved` is the result of the engine
call `UGameplayStatics::SaveGameToSlot`, and the save-game object is taken to be
created. -/
def SaveAttributes (s : UAttributeComponent) (SlotName : String) (Index : Int)
    (bSaved : Bool) : UAttributeComponent :=
  let SavedAttributes : UAttributeSaveGame :=
    s.AttributeMap.foldl (fun m AttributePair => TMap.Add m AttributePair.1 AttributePair.2.Value) []
  if bSaved then
    { s with SaveSlots := TMap.Add s.SaveSlots (SlotName, Index) SavedAttributes }
  else s

/-- The body of the loop of `LoadAttributes` on one entry of `AttributeMap`:
the entry as it is left. -/
def RestorePair (SavedAttributes : UAttributeSaveGame)
    (AttributePair : FGameplayTag × FAttribute) : FGameplayTag × FAttribute :=
  match TMap.Find SavedAttributes AttributePair.1 with
  | some Saved => (AttributePair.1, { AttributePair.2 with Value := Saved })
  | none => AttributePair

/-- The body of the loop of `LoadAttributes` on one entry of `AttributeMap`:
the broadcast it makes, if any. -/
def RestoreEvent (SavedAttributes : UAttributeSaveGame)
    (AttributePair : FGameplayTag × FAttribute) : Option Event :=
  match TMap.Find SavedAttributes AttributePair.1 with
  | some Saved => some (.OnAttributeChanged AttributePair.1 Saved)
  | none => none

/-- `UAttributeComponent::LoadAttributes`; `bSaved` is the result of the engine
call `UGameplayStatics::SaveGameToSlot`, made when the slot is empty. -/
def LoadAttributes (s : UAttributeComponent) (SlotName : String) (Index : Int)
    (bSaved : Bool) : UAttributeComponent :=
  match TMap.Find s.SaveSlots (SlotName, Index) with
  | some SavedAttributes =>
    { s with
      AttributeMap := s.AttributeMap.map (RestorePair SavedAttributes),
      Broadcasts := s.Broadcasts ++ s.AttributeMap.filterMap (RestoreEvent SavedAttributes) }
  | none => SaveAttributes s SlotName Index bSaved

/-- The component as constructed, before `BeginPlay`, with a data asset assigned. -/
def ctor (Asset : Option (List FAttribute)) : UAttributeComponent :=
  { AttributeDataAsset := Asset, InitialAttributesBackup := [], Attributes := [],
    AttributeMap := [], ActiveModifiers := [], RegenTimers := [],
    ModifierTimers := [], SaveSlots := [], Broadcasts := [] }

end UAttributeComponent

open UAttributeComponent

attribute [local semireducible] Rat.add Rat.sub Rat.mul Rat.inv

/-! ## Mutation sequences and range predicates -/

/-- The public mutations of the attribute values and bounds, with their arguments. -/
inductive Mutation where
  | SetAttributeValue (AttributeTag : FGameplayTag) (Value : ℚ) (Operation : EAttributeOperation)
  | SetAttributeMinValue (AttributeTag : FGameplayTag) (Value : ℚ) (Operation : EAttributeOperation)
  | SetAttributeMaxValue (AttributeTag : FGameplayTag) (Value : ℚ) (Operation : EAttributeOperation)
  | ApplyModifier (Modifier : FAttributeModifier)
  | RemoveModifier (AttributeTag : FGameplayTag) (ModifierValue : ℚ)
  | RegenerateAttributes
  | LoadAttributes (SlotName : String) (Index : Int) (bSaved : Bool)

/-- The component after one mutation. -/
def Mutation.apply (s : UAttributeComponent) : Mutation → UAttributeComponent
  | .SetAttributeValue t v op => s.SetAttributeValue t v op
  | .SetAttributeMinValue t v op => s.SetAttributeMinValue t v op
  | .SetAttributeMaxValue t v op => s.SetAttributeMaxValue t v op
  | .ApplyModifier m => s.ApplyModifier m
  | .RemoveModifier t v => s.RemoveModifier t v
  | .RegenerateAttributes => s.RegenerateAttributes
  | .LoadAttributes n i b => s.LoadAttributes n i b

/-- The component after a sequence of mutations, first to last. -/
def Mutation.run (s : UAttributeComponent) (ms : List Mutation) : UAttributeComponent :=
  ms.foldl Mutation.apply s

/-- The mutations that write the current value through a clamp: the value setter,
the two modifier calls and the regen tick. -/
def Mutation.ClampsValue : Mutation → Bool
  | .SetAttributeValue _ _ _ => true
  | .ApplyModifier _ => true
  | .RemoveModifier _ _ => true
  | .RegenerateAttributes => true
  | _ => false

/-- The bounds of an attribute are ordered: `0 ≤ MinValue ≤ MaxValue`. -/
def FAttribute.BoundsOrdered (a : FAttribute) : Prop :=
  0 ≤ a.MinValue ∧ a.MinValue ≤ a.MaxValue

/-- The value of an attribute lies within its bounds: `MinValue ≤ Value ≤ MaxValue`. -/
def FAttribute.ValueInRange (a : FAttribute) : Prop :=
  a.MinValue ≤ a.Value ∧ a.Value ≤ a.MaxValue

instance (a : FAttribute) : Decidable a.BoundsOrdered := by
  unfold FAttribute.BoundsOrdered; infer_instance

instance (a : FAttribute) : Decidable a.ValueInRange := by
  unfold FAttribute.ValueInRange; infer_instance

/-- Every registered attribute satisfies `0 ≤ MinValue ≤ Value ≤ MaxValue`. -/
def UAttributeComponent.AllInRange (s : UAttributeComponent) : Prop :=
  ∀ p ∈ s.AttributeMap, 0 ≤ p.2.MinValue ∧ p.2.ValueInRange

instance (s : UAttributeComponent) : Decidable s.AllInRange := by
  unfold UAttributeComponent.AllInRange; infer_instance

/-- The component right after `BeginPlay` on a data asset holding `Asset`. -/
def started (Asset : List FAttribute) : UAttributeComponent :=
  BeginPlay (ctor (some Asset))

/-! ## Auxiliary definitions used in the statements -/

/-- The operation table as the specification words it: `old + x`, `old - x`,
`old * x`, `old / x`, `x`. -/
def SpecOperation (Operation : EAttributeOperation) (old x : ℚ) : ℚ :=
  match Operation with
  | .Add => old + x
  | .Subtract => old - x
  | .Multiply => old * x
  | .Divide => old / x
  | .Override => x

/-- The modifier carries this tag and this value: the test of `RemoveModifier`. -/
def FAttributeModifier.Matches (t : FGameplayTag) (v : ℚ) (m : FAttributeModifier) : Bool :=
  decide (m.AttributeTag = t ∧ m.Value = v)

/-- The health attribute used in the examples: value 50 in `[0, 100]`, regenerating
10 every second. -/
def Health50 : FAttribute :=
  { AttributeTag := HealthTag, Value := 50, MinValue := 0, MaxValue := 100,
    bUseRegen := true, RegenRate := 1, RegenValue := 10 }

/-- The health attribute at its ceiling: value 100 in `[0, 100]`. -/
def Health100 : FAttribute :=
  { AttributeTag := HealthTag, Value := 100, MinValue := 0, MaxValue := 100,
    bUseRegen := true, RegenRate := 1, RegenValue := 10 }

/-- The started health-only component next to a save slot whose snapshot stores 150
for the health tag. -/
def startedWithSnapshot : UAttributeComponent :=
  { started [Health50] with
    SaveSlots := [(("AttributeSaveSlot", 0), [(HealthTag, 150)])] }

/-- A regen timer is running for the tag: the table has a handle for it and the
handle is active. -/
def UAttributeComponent.TimerActive (s : UAttributeComponent) (t : FGameplayTag) : Bool :=
  IsTimerActive ((TMap.Find s.RegenTimers t).getD none)

/-- The regen eligibility of a tag has been re-evaluated between `s` and `s'`: in
`s'` a timer runs for the tag exactly when its value is below its ceiling, and a
timer that already ran and is still wanted has left the timer table as it was. -/
def RegenReevaluated (s s' : UAttributeComponent) (t : FGameplayTag) : Prop :=
  (s'.TimerActive t = true ↔ (s'.GetAttribute t).Value < (s'.GetAttribute t).MaxValue) ∧
  (s.TimerActive t = true → (s'.GetAttribute t).Value < (s'.GetAttribute t).MaxValue →
    s'.RegenTimers = s.RegenTimers)

/-- The tag a broadcast is about, if it is about one. -/
def Event.Tag : Event → Option FGameplayTag
  | .OnAttributeChanged t _ => some t
  | .OnAttributeAdded t _ => some t
  | .OnAttributeRemoved t => some t
  | .OnAttributeThresholdReached t _ => some t
  | .OnPreAttributeChanged t _ => some t
  | .OnInitializeAttributes => none
  | .OnDeath => none

/-- The broadcasts of a log that are about one tag, in order. -/
def EventsAbout (t : FGameplayTag) (l : List Event) : List Event :=
  l.filter (fun e => decide (e.Tag = some t))

/-- Every record of the attribute map is stored under its own tag, as
`InitializeAttributeMap` stores it. -/
def UAttributeComponent.TagsAgree (s : UAttributeComponent) : Prop :=
  ∀ p ∈ s.AttributeMap, p.2.AttributeTag = p.1

instance (s : UAttributeComponent) : Decidable s.TagsAgree := by
  unfold UAttributeComponent.TagsAgree; infer_instance

/-- The component after `k` regen ticks. -/
def Ticks : Nat → UAttributeComponent → UAttributeComponent
  | 0, s => s
  | k + 1, s => Ticks k (RegenerateAttributes s)

/-- The value a regen tick proposes and commits for an attribute. -/
def FAttribute.Regenerated (a : FAttribute) : ℚ :=
  FMath.Clamp (a.Value + a.RegenValue) a.MinValue a.MaxValue

/-- Nothing about the tag differs between `s` and `s'`: same record, same timer
handle, same broadcasts about it. -/
def SameFor (s s' : UAttributeComponent) (t : FGameplayTag) : Prop :=
  TMap.Find s'.AttributeMap t = TMap.Find s.AttributeMap t ∧
  TMap.Find s'.RegenTimers t = TMap.Find s.RegenTimers t ∧
  EventsAbout t s'.Broadcasts = EventsAbout t s.Broadcasts

/-- What one regen pass makes of a regenerating attribute `a` stored under `t`, from
`s` to `s'`: the regenerated value is stored, the change is broadcast if there is
one, and the handle is cleared if the changed value has reached the ceiling. -/
def TickOutcome (s s' : UAttributeComponent) (t : FGameplayTag) (a : FAttribute) : Prop :=
  TMap.Find s'.AttributeMap t = some { a with Value := a.Regenerated } ∧
  TMap.Find s'.RegenTimers t =
    (if a.Value ≠ a.Regenerated ∧ a.MaxValue ≤ a.Regenerated then
      (TMap.Find s.RegenTimers t).map (fun _ => none)
     else TMap.Find s.RegenTimers t) ∧
  EventsAbout t s'.Broadcasts = EventsAbout t s.Broadcasts ++
    (if a.Value ≠ a.Regenerated then [Event.OnAttributeChanged t a.Regenerated] else [])

/-- The mana attribute used in the examples: value 30 in `[0, 50]`, no regeneration. -/
def Mana30 : FAttribute :=
  { AttributeTag := "Attribute.Mana", Value := 30, MinValue := 0, MaxValue := 50,
    bUseRegen := false, RegenRate := 0, RegenValue := 0 }

/-- The started component with health and mana, next to a save slot whose snapshot
stores 40 for the health tag only. -/
def startedWithHealth40 : UAttributeComponent :=
  { started [Health50, Mana30] with
    SaveSlots := [(("AttributeSaveSlot", 0), [(HealthTag, 40)])] }

/-- The number of `OnDeath` broadcasts in a log. -/
def Deaths (l : List Event) : Nat := l.count Event.OnDeath

/-- The stamina attribute used in the examples: value 10 in `[0, 40]`, regenerating 5
every 2 seconds. -/
def Stamina10 : FAttribute :=
  { AttributeTag := "Attribute.Stamina", Value := 10, MinValue := 0, MaxValue := 40,
    bUseRegen := true, RegenRate := 2, RegenValue := 5 }

/-- The health attribute with a positive floor: value 50 in `[10, 100]`, no regeneration. -/
def HealthFloor10 : FAttribute :=
  { AttributeTag := HealthTag, Value := 50, MinValue := 10, MaxValue := 100,
    bUseRegen := false, RegenRate := 0, RegenValue := 0 }

/-- The public operations of the component, with their arguments: the mutations of
values and bounds, the registry operations, the flag and threshold calls, the health
wrappers, saving, resetting and loading the data asset again. -/
inductive Operation where
  | Mutate (m : Mutation)
  | AddAttribute (NewAttribute : FAttribute)
  | RemoveAttribute (AttributeTag : FGameplayTag)
  | SetUseRegen (AttributeTag : FGameplayTag) (bUseRegen : Bool)
  | CheckThresholds (AttributeTag : FGameplayTag)
  | DecreaseHealth (Amount : ℚ)
  | IncreaseHealth (Amount : ℚ)
  | SaveAttributes (SlotName : String) (Index : Int) (bSaved : Bool)
  | ResetAllAttributes
  | LoadAttributesFromDataAsset

/-- The component after one public operation. -/
def Operation.apply (s : UAttributeComponent) : Operation → UAttributeComponent
  | .Mutate m => m.apply s
  | .AddAttribute a => s.AddAttribute a
  | .RemoveAttribute t => s.RemoveAttribute t
  | .SetUseRegen t b => s.SetUseRegen t b
  | .CheckThresholds t => s.CheckThresholds t
  | .DecreaseHealth x => s.DecreaseHealth x
  | .IncreaseHealth x => s.IncreaseHealth x
  | .SaveAttributes n i b => s.SaveAttributes n i b
  | .ResetAllAttributes => s.ResetAllAttributes
  | .LoadAttributesFromDataAsset => s.LoadAttributesFromDataAsset

/-- The component after a sequence of public operations, first to last. -/
def Operation.run (s : UAttributeComponent) (ops : List Operation) : UAttributeComponent :=
  ops.foldl Operation.apply s

/-- The definitions a component keeps for `ResetAllAttributes`: the assigned data asset
and the backup taken from it. -/
def UAttributeComponent.Definitions (s : UAttributeComponent) :
    Option (List FAttribute) × List FAttribute :=
  (s.AttributeDataAsset, s.InitialAttributesBackup)

/-- The broadcast that announces a definition on load and on reset. -/
def Announcement (a : FAttribute) : Event :=
  .OnAttributeChanged a.AttributeTag a.Value

/-! ### The binary32 addition of the regen tick

`RegenerateAttributes` forms `OldValue + Attribute->RegenValue` with the addition of
`float`, which rounds the exact sum to the nearest binary32 number, ties to even.
The definitions below follow that rounding for finite values (a sum of magnitude
`2^128` or more is infinite in the code and has no rational rendering). -/

namespace Binary32

/-- The search for the spacing of the binary32 numbers at the magnitude `ax`: the first
of `q, 2q, 4q, ...` for which `ax` is below `2^24` spacings; the fuel bounds the
number of doublings. -/
def SpacingFrom : Nat → ℚ → ℚ → ℚ
  | 0, _, q => q
  | n + 1, ax, q => if ax < 16777216 * q then q else SpacingFrom n ax (2 * q)

/-- The spacing of the binary32 numbers at the magnitude `ax`: `2^-149` up to `2^-125`,
and `2^(e-23)` for `2^e ≤ ax < 2^(e+1)`, up to `2^104` in the highest binade. -/
def Spacing (ax : ℚ) : ℚ :=
  SpacingFrom 253 ax (1 / 713623846352979940529142984724747568191373312)

/-- The nearest integer, ties to the even one. -/
def RoundHalfEven (n : ℚ) : ℤ :=
  if n - Rat.floor n < 1 / 2 then Rat.floor n
  else if 1 / 2 < n - Rat.floor n then Rat.floor n + 1
  else if Rat.floor n % 2 = 0 then Rat.floor n else Rat.floor n + 1

/-- The binary32 number nearest to `x`, ties to even (finite range). -/
def Round (x : ℚ) : ℚ :=
  RoundHalfEven (x / Spacing (if x < 0 then -x else x)) * Spacing (if x < 0 then -x else x)

/-- The addition of two `float`s: the exact sum, rounded. -/
def Add (x y : ℚ) : ℚ := Round (x + y)

end Binary32

/-- The body of the loop of `RegenerateAttributes` for one key of `RegenTimers`, with
the sum `OldValue + Attribute->RegenValue` rounded as the `float` addition rounds it;
everything else is as in `RegenerateAttribute`. -/
def UAttributeComponent.RegenerateAttributeBinary32 (s : UAttributeComponent)
    (AttributeTag : FGameplayTag) : UAttributeComponent :=
  match TMap.Find s.AttributeMap AttributeTag with
  | some Attribute =>
    if Attribute.bUseRegen then
      let OldValue := Attribute.Value
      let NewValue := FMath.Clamp (Binary32.Add OldValue Attribute.RegenValue)
        Attribute.MinValue Attribute.MaxValue
      if OldValue ≠ NewValue then
        let Stored : FAttribute := { Attribute with Value := NewValue }
        let s1 := { s with AttributeMap := TMap.Add s.AttributeMap AttributeTag Stored }
        let s2 := s1.Broadcast (.OnAttributeChanged Attribute.AttributeTag NewValue)
        if Stored.MaxValue ≤ Stored.Value then
          match TMap.Find s2.RegenTimers AttributeTag with
          | some _ => { s2 with RegenTimers := TMap.Add s2.RegenTimers AttributeTag none }
          | none => s2
        else s2
      else s
    else s
  | none => s

/-- `UAttributeComponent::RegenerateAttributes` with the `float` addition: one pass over
the keys of `RegenTimers`. -/
def UAttributeComponent.RegenerateAttributesBinary32 (s : UAttributeComponent) :
    UAttributeComponent :=
  (s.RegenTimers.map Prod.fst).foldl RegenerateAttributeBinary32 s

/-- The component after `k` regen ticks computed with the `float` addition. -/
def TicksBinary32 : Nat → UAttributeComponent → UAttributeComponent
  | 0, s => s
  | k + 1, s => TicksBinary32 k (RegenerateAttributesBinary32 s)

/-- No attribute registered under another tag than `t` regenerates. -/
def UAttributeComponent.OnlyRegen (s : UAttributeComponent) (t : FGameplayTag) : Prop :=
  ∀ p ∈ s.AttributeMap, p.1 ≠ t → p.2.bUseRegen = false

instance (s : UAttributeComponent) (t : FGameplayTag) : Decidable (s.OnlyRegen t) := by
  unfold UAttributeComponent.OnlyRegen; infer_instance

/-- A large health attribute: value `2^24 = 16777216` in `[0, 100000000]`, regenerating
1 every second.  All its numbers are binary32 numbers. -/
def Health16M : FAttribute :=
  { AttributeTag := HealthTag, Value := 16777216, MinValue := 0, MaxValue := 100000000,
    bUseRegen := true, RegenRate := 1, RegenValue := 1 }

/-! ## Lemmas on `TMap` and `FMath::Clamp` -/

section TMapLemmas

variable {K V : Type} [DecidableEq K]

theorem TMap.Find_Add_self (m : TMap K V) (k : K) (v : V) :
    TMap.Find (TMap.Add m k v) k = some v := by
  induction m with
  | nil => simp [TMap.Add, TMap.Find]
  | cons hd tl ih =>
    obtain ⟨k', v'⟩ := hd
    by_cases h : k' = k
    · simp [TMap.Add, TMap.Find, h]
    · simp [TMap.Add, TMap.Find, h, ih]

theorem TMap.Find_Add_ne (m : TMap K V) (k k' : K) (v : V) (hk : k' ≠ k) :
    TMap.Find (TMap.Add m k v) k' = TMap.Find m k' := by
  induction m with
  | nil => simp [TMap.Add, TMap.Find, Ne.symm hk]
  | cons hd tl ih =>
    obtain ⟨k0, v0⟩ := hd
    by_cases h : k0 = k
    · subst h
      simp [TMap.Add, TMap.Find, Ne.symm hk]
    · by_cases h' : k0 = k'
      · subst h'
        simp [TMap.Add, TMap.Find, h]
      · simp [TMap.Add, TMap.Find, h, h', ih]

theorem TMap.Find_mem (m : TMap K V) (k : K) (v : V) (h : TMap.Find m k = some v) :
    (k, v) ∈ m := by
  induction m with
  | nil => simp [TMap.Find] at h
  | cons hd tl ih =>
    obtain ⟨k0, v0⟩ := hd
    by_cases hk : k0 = k
    · simp [TMap.Find, hk] at h
      simp [hk, h]
    · simp [TMap.Find, hk] at h
      exact List.mem_cons_of_mem _ (ih h)

theorem TMap.forall_Add (P : V → Prop) (m : TMap K V) (k : K) (v : V)
    (hm : ∀ p ∈ m, P p.2) (hv : P v) : ∀ p ∈ TMap.Add m k v, P p.2 := by
  induction m with
  | nil =>
    intro p hp
    simp [TMap.Add] at hp
    subst hp
    exact hv
  | cons hd tl ih =>
    obtain ⟨k0, v0⟩ := hd
    intro p hp
    by_cases hk : k0 = k
    · simp [TMap.Add, hk] at hp
      rcases hp with hp | hp
      · subst hp; exact hv
      · exact hm p (List.mem_cons_of_mem _ hp)
    · simp [TMap.Add, hk] at hp
      rcases hp with hp | hp
      · subst hp; exact hm (k0, v0) (List.mem_cons_self _ _)
      · exact ih (fun q hq => hm q (List.mem_cons_of_mem _ hq)) p hp

theorem TMap.Add_Find_self (m : TMap K V) (k : K) (v : V) (h : TMap.Find m k = some v) :
    TMap.Add m k v = m := by
  induction m with
  | nil => simp [TMap.Find] at h
  | cons hd tl ih =>
    obtain ⟨k0, v0⟩ := hd
    by_cases hk : k0 = k
    · simp [TMap.Find, hk] at h
      simp [TMap.Add, hk, h]
    · simp [TMap.Find, hk] at h
      simp [TMap.Add, hk, ih h]

theorem TMap.Add_Add (m : TMap K V) (k : K) (v w : V) :
    TMap.Add (TMap.Add m k v) k w = TMap.Add m k w := by
  induction m with
  | nil => simp [TMap.Add]
  | cons hd tl ih =>
    obtain ⟨k0, v0⟩ := hd
    by_cases hk : k0 = k
    · simp [TMap.Add, hk]
    · simp [TMap.Add, hk, ih]

end TMapLemmas

theorem FMath.Clamp_ge (X lo hi : ℚ) : lo ≤ FMath.Clamp X lo hi := by
  unfold FMath.Clamp FMath.Max FMath.Min
  split_ifs <;> linarith

theorem FMath.Clamp_le (X lo hi : ℚ) (h : lo ≤ hi) : FMath.Clamp X lo hi ≤ hi := by
  unfold FMath.Clamp FMath.Max FMath.Min
  split_ifs <;> linarith

theorem FMath.Clamp_of_mem (X lo hi : ℚ) (h1 : lo ≤ X) (h2 : X ≤ hi) :
    FMath.Clamp X lo hi = X := by
  unfold FMath.Clamp FMath.Max FMath.Min
  split_ifs <;> linarith

/-! ## What each operation does to the attribute map -/

theorem CheckRegenStatus_AttributeMap (s : UAttributeComponent) (t : FGameplayTag) :
    (CheckRegenStatus s t).AttributeMap = s.AttributeMap := by
  unfold CheckRegenStatus
  dsimp only
  repeat' split
  all_goals rfl

theorem CheckRegenStatus_Broadcasts (s : UAttributeComponent) (t : FGameplayTag) :
    (CheckRegenStatus s t).Broadcasts = s.Broadcasts := by
  unfold CheckRegenStatus
  dsimp only
  repeat' split
  all_goals rfl

theorem CheckRegenStatus_ActiveModifiers (s : UAttributeComponent) (t : FGameplayTag) :
    (CheckRegenStatus s t).ActiveModifiers = s.ActiveModifiers := by
  unfold CheckRegenStatus
  dsimp only
  repeat' split
  all_goals rfl

theorem CheckRegenStatus_Attributes (s : UAttributeComponent) (t : FGameplayTag) :
    (CheckRegenStatus s t).Attributes = s.Attributes := by
  unfold CheckRegenStatus
  dsimp only
  repeat' split
  all_goals rfl

theorem SetAttributeValueInternal_none (s : UAttributeComponent) (t : FGameplayTag) (v : ℚ)
    (op : EAttributeOperation) (h : TMap.Find s.AttributeMap t = none) :
    SetAttributeValueInternal s t v op = s := by
  simp [SetAttributeValueInternal, h]

theorem SetAttributeValueInternal_AttributeMap (s : UAttributeComponent) (t : FGameplayTag)
    (v : ℚ) (op : EAttributeOperation) (a : FAttribute)
    (h : TMap.Find s.AttributeMap t = some a) :
    (SetAttributeValueInternal s t v op).AttributeMap =
      TMap.Add s.AttributeMap t
        { a with Value := FMath.Clamp (ApplyOperation op a.Value v) a.MinValue a.MaxValue } := by
  simp only [SetAttributeValueInternal, h]
  split_ifs
  · rw [CheckRegenStatus_AttributeMap]; rfl
  · rfl

theorem SetAttributeMinValue_none (s : UAttributeComponent) (t : FGameplayTag) (v : ℚ)
    (op : EAttributeOperation) (h : TMap.Find s.AttributeMap t = none) :
    SetAttributeMinValue s t v op = s := by
  simp [SetAttributeMinValue, h]

theorem SetAttributeMinValue_AttributeMap (s : UAttributeComponent) (t : FGameplayTag)
    (v : ℚ) (op : EAttributeOperation) (a : FAttribute)
    (h : TMap.Find s.AttributeMap t = some a) :
    (SetAttributeMinValue s t v op).AttributeMap =
      TMap.Add s.AttributeMap t
        { a with MinValue := FMath.Clamp (ApplyOperation op a.MinValue v) 0 a.MaxValue } := by
  simp only [SetAttributeMinValue, h]
  split_ifs
  · rw [CheckRegenStatus_AttributeMap]; rfl
  · rfl

theorem SetAttributeMaxValue_none (s : UAttributeComponent) (t : FGameplayTag) (v : ℚ)
    (op : EAttributeOperation) (h : TMap.Find s.AttributeMap t = none) :
    SetAttributeMaxValue s t v op = s := by
  simp [SetAttributeMaxValue, h]

theorem SetAttributeMaxValue_AttributeMap (s : UAttributeComponent) (t : FGameplayTag)
    (v : ℚ) (op : EAttributeOperation) (a : FAttribute)
    (h : TMap.Find s.AttributeMap t = some a) :
    (SetAttributeMaxValue s t v op).AttributeMap =
      TMap.Add s.AttributeMap t
        { a with MaxValue := FMath.Clamp (ApplyOperation op a.MaxValue v) a.MinValue FLT_MAX } := by
  simp only [SetAttributeMaxValue, h]
  split_ifs
  · rw [CheckRegenStatus_AttributeMap]; rfl
  · rfl

theorem ApplyModifier_none (s : UAttributeComponent) (m : FAttributeModifier)
    (h : TMap.Find s.AttributeMap m.AttributeTag = none) : ApplyModifier s m = s := by
  simp [ApplyModifier, IsValidAttribute, TMap.Contains, h]

theorem ApplyModifier_AttributeMap (s : UAttributeComponent) (m : FAttributeModifier)
    (a : FAttribute) (h : TMap.Find s.AttributeMap m.AttributeTag = some a) :
    (ApplyModifier s m).AttributeMap =
      TMap.Add s.AttributeMap m.AttributeTag
        { a with Value := FMath.Clamp (a.Value + m.Value) a.MinValue a.MaxValue } := by
  simp only [ApplyModifier, IsValidAttribute, TMap.Contains, h]
  split_ifs <;> first | rfl | simp_all

theorem RemoveModifier_none (s : UAttributeComponent) (t : FGameplayTag) (v : ℚ)
    (h : TMap.Find s.AttributeMap t = none) : RemoveModifier s t v = s := by
  simp [RemoveModifier, IsValidAttribute, TMap.Contains, h]

theorem RemoveModifier_AttributeMap (s : UAttributeComponent) (t : FGameplayTag) (v : ℚ)
    (a : FAttribute) (h : TMap.Find s.AttributeMap t = some a) :
    (RemoveModifier s t v).AttributeMap =
      TMap.Add s.AttributeMap t
        { a with Value := FMath.Clamp (a.Value - v) a.MinValue a.MaxValue } := by
  simp only [RemoveModifier, IsValidAttribute, TMap.Contains, h]
  split_ifs <;> first | rfl | simp_all

theorem RegenerateAttribute_AttributeMap (s : UAttributeComponent) (t : FGameplayTag) :
    (RegenerateAttribute s t).AttributeMap = s.AttributeMap ∨
    ∃ a, TMap.Find s.AttributeMap t = some a ∧
      (RegenerateAttribute s t).AttributeMap =
        TMap.Add s.AttributeMap t
          { a with Value := FMath.Clamp (a.Value + a.RegenValue) a.MinValue a.MaxValue } := by
  cases h : TMap.Find s.AttributeMap t with
  | none => left; simp [RegenerateAttribute, h]
  | some a =>
    simp only [RegenerateAttribute, h]
    split_ifs
    · right
      refine ⟨a, rfl, ?_⟩
      split <;> rfl
    · right; exact ⟨a, rfl, rfl⟩
    · left; rfl
    · left; rfl

theorem foldl_preserves {σ α : Type} (f : σ → α → σ) (P : σ → Prop)
    (hstep : ∀ s x, P s → P (f s x)) (l : List α) (s : σ) (h : P s) : P (l.foldl f s) := by
  induction l generalizing s with
  | nil => exact h
  | cons x xs ih => exact ih (f s x) (hstep s x h)

/-! ## Range invariants along mutation sequences -/

theorem forall_Add_of_Find (P : FAttribute → Prop) (m : TMap FGameplayTag FAttribute)
    (t : FGameplayTag) (a b : FAttribute) (hm : ∀ p ∈ m, P p.2)
    (h : TMap.Find m t = some a) (hab : P a → P b) : ∀ p ∈ TMap.Add m t b, P p.2 :=
  TMap.forall_Add P m t b hm (hab (hm (t, a) (TMap.Find_mem m t a h)))

theorem RestorePair_bounds (S : UAttributeSaveGame) (q : FGameplayTag × FAttribute) :
    (RestorePair S q).2.MinValue = q.2.MinValue ∧ (RestorePair S q).2.MaxValue = q.2.MaxValue := by
  unfold RestorePair
  split <;> exact ⟨rfl, rfl⟩

theorem LoadAttributes_BoundsOrdered (s : UAttributeComponent) (n : String) (i : Int) (b : Bool)
    (h : ∀ p ∈ s.AttributeMap, p.2.BoundsOrdered) :
    ∀ p ∈ (LoadAttributes s n i b).AttributeMap, p.2.BoundsOrdered := by
  unfold LoadAttributes
  split
  · rename_i S _
    intro p hp
    obtain ⟨q, hq, rfl⟩ := List.mem_map.mp hp
    have hb := RestorePair_bounds S q
    have := h q hq
    unfold FAttribute.BoundsOrdered at this ⊢
    rw [hb.1, hb.2]
    exact this
  · unfold SaveAttributes
    split <;> exact h

theorem RegenerateAttribute_preserves (P : FAttribute → Prop)
    (hP : ∀ a : FAttribute, P a →
      P { a with Value := FMath.Clamp (a.Value + a.RegenValue) a.MinValue a.MaxValue })
    (s : UAttributeComponent) (t : FGameplayTag) (h : ∀ p ∈ s.AttributeMap, P p.2) :
    ∀ p ∈ (RegenerateAttribute s t).AttributeMap, P p.2 := by
  rcases RegenerateAttribute_AttributeMap s t with h1 | ⟨a, ha, h1⟩
  · rw [h1]; exact h
  · rw [h1]; exact forall_Add_of_Find P _ t a _ h ha (hP a)

theorem RegenerateAttributes_preserves (P : FAttribute → Prop)
    (hP : ∀ a : FAttribute, P a →
      P { a with Value := FMath.Clamp (a.Value + a.RegenValue) a.MinValue a.MaxValue })
    (s : UAttributeComponent) (h : ∀ p ∈ s.AttributeMap, P p.2) :
    ∀ p ∈ (RegenerateAttributes s).AttributeMap, P p.2 :=
  foldl_preserves RegenerateAttribute (fun s => ∀ p ∈ s.AttributeMap, P p.2)
    (fun s t hs => RegenerateAttribute_preserves P hP s t hs) _ s h

theorem Mutation.apply_BoundsOrdered (s : UAttributeComponent) (m : Mutation)
    (h : ∀ p ∈ s.AttributeMap, p.2.BoundsOrdered) :
    ∀ p ∈ (m.apply s).AttributeMap, p.2.BoundsOrdered := by
  cases m with
  | SetAttributeValue t v op =>
    cases hf : TMap.Find s.AttributeMap t with
    | none =>
      simp only [Mutation.apply, UAttributeComponent.SetAttributeValue,
        SetAttributeValueInternal_none s t v op hf]
      exact h
    | some a =>
      simp only [Mutation.apply, UAttributeComponent.SetAttributeValue,
        SetAttributeValueInternal_AttributeMap s t v op a hf]
      exact forall_Add_of_Find _ _ t a _ h hf (fun ha => ha)
  | SetAttributeMinValue t v op =>
    cases hf : TMap.Find s.AttributeMap t with
    | none =>
      simp only [Mutation.apply, SetAttributeMinValue_none s t v op hf]
      exact h
    | some a =>
      simp only [Mutation.apply, SetAttributeMinValue_AttributeMap s t v op a hf]
      refine forall_Add_of_Find _ _ t a _ h hf (fun ha => ?_)
      exact ⟨FMath.Clamp_ge _ _ _, FMath.Clamp_le _ _ _ (le_trans ha.1 ha.2)⟩
  | SetAttributeMaxValue t v op =>
    cases hf : TMap.Find s.AttributeMap t with
    | none =>
      simp only [Mutation.apply, SetAttributeMaxValue_none s t v op hf]
      exact h
    | some a =>
      simp only [Mutation.apply, SetAttributeMaxValue_AttributeMap s t v op a hf]
      refine forall_Add_of_Find _ _ t a _ h hf (fun ha => ?_)
      exact ⟨ha.1, FMath.Clamp_ge _ _ _⟩
  | ApplyModifier md =>
    cases hf : TMap.Find s.AttributeMap md.AttributeTag with
    | none =>
      simp only [Mutation.apply, ApplyModifier_none s md hf]
      exact h
    | some a =>
      simp only [Mutation.apply, ApplyModifier_AttributeMap s md a hf]
      exact forall_Add_of_Find _ _ _ a _ h hf (fun ha => ha)
  | RemoveModifier t v =>
    cases hf : TMap.Find s.AttributeMap t with
    | none =>
      simp only [Mutation.apply, RemoveModifier_none s t v hf]
      exact h
    | some a =>
      simp only [Mutation.apply, RemoveModifier_AttributeMap s t v a hf]
      exact forall_Add_of_Find _ _ t a _ h hf (fun ha => ha)
  | RegenerateAttributes =>
    exact RegenerateAttributes_preserves _ (fun a ha => ha) s h
  | LoadAttributes n i b =>
    exact LoadAttributes_BoundsOrdered s n i b h

theorem Mutation.apply_ValueInRange (s : UAttributeComponent) (m : Mutation)
    (hm : m.ClampsValue = true)
    (h : ∀ p ∈ s.AttributeMap, p.2.BoundsOrdered ∧ p.2.ValueInRange) :
    ∀ p ∈ (m.apply s).AttributeMap, p.2.BoundsOrdered ∧ p.2.ValueInRange := by
  have key : ∀ (a : FAttribute) (x : ℚ), a.BoundsOrdered ∧ a.ValueInRange →
      FAttribute.BoundsOrdered { a with Value := FMath.Clamp x a.MinValue a.MaxValue } ∧
      FAttribute.ValueInRange { a with Value := FMath.Clamp x a.MinValue a.MaxValue } :=
    fun a x ha => ⟨ha.1, FMath.Clamp_ge _ _ _, FMath.Clamp_le _ _ _ ha.1.2⟩
  cases m with
  | SetAttributeValue t v op =>
    cases hf : TMap.Find s.AttributeMap t with
    | none =>
      simp only [Mutation.apply, UAttributeComponent.SetAttributeValue,
        SetAttributeValueInternal_none s t v op hf]
      exact h
    | some a =>
      simp only [Mutation.apply, UAttributeComponent.SetAttributeValue,
        SetAttributeValueInternal_AttributeMap s t v op a hf]
      exact forall_Add_of_Find (fun a => a.BoundsOrdered ∧ a.ValueInRange) _ t a _ h hf (key a _)
  | ApplyModifier md =>
    cases hf : TMap.Find s.AttributeMap md.AttributeTag with
    | none =>
      simp only [Mutation.apply, ApplyModifier_none s md hf]
      exact h
    | some a =>
      simp only [Mutation.apply, ApplyModifier_AttributeMap s md a hf]
      exact forall_Add_of_Find (fun a => a.BoundsOrdered ∧ a.ValueInRange) _ _ a _ h hf (key a _)
  | RemoveModifier t v =>
    cases hf : TMap.Find s.AttributeMap t with
    | none =>
      simp only [Mutation.apply, RemoveModifier_none s t v hf]
      exact h
    | some a =>
      simp only [Mutation.apply, RemoveModifier_AttributeMap s t v a hf]
      exact forall_Add_of_Find (fun a => a.BoundsOrdered ∧ a.ValueInRange) _ t a _ h hf (key a _)
  | RegenerateAttributes =>
    exact RegenerateAttributes_preserves _ (fun a ha => key a _ ha) s h
  | SetAttributeMinValue t v op => simp [Mutation.ClampsValue] at hm
  | SetAttributeMaxValue t v op => simp [Mutation.ClampsValue] at hm
  | LoadAttributes n i b => simp [Mutation.ClampsValue] at hm

/-- C1 (as amended): along every finite sequence of public mutations the bounds
of every registered attribute stay ordered, `0 ≤ MinValue ≤ MaxValue`; and when the
sequence consists of the mutations that write the value through a clamp
(`SetAttributeValue`, `ApplyModifier`, `RemoveModifier`, the regen tick), the
value also stays within the bounds, `MinValue ≤ Value ≤ MaxValue`. -/
theorem C1_range_invariant (s : UAttributeComponent) (ms : List Mutation)
    (hB : ∀ p ∈ s.AttributeMap, p.2.BoundsOrdered) :
    (∀ p ∈ (Mutation.run s ms).AttributeMap, p.2.BoundsOrdered) ∧
    ((∀ p ∈ s.AttributeMap, p.2.ValueInRange) → (∀ m ∈ ms, m.ClampsValue = true) →
      ∀ p ∈ (Mutation.run s ms).AttributeMap, p.2.ValueInRange) := by
  constructor
  · exact foldl_preserves Mutation.apply (fun s => ∀ p ∈ s.AttributeMap, p.2.BoundsOrdered)
      (fun s m hs => Mutation.apply_BoundsOrdered s m hs) ms s hB
  · intro hV hms
    have both : ∀ (l : List Mutation) (s0 : UAttributeComponent),
        (∀ m ∈ l, m.ClampsValue = true) →
        (∀ p ∈ s0.AttributeMap, p.2.BoundsOrdered ∧ p.2.ValueInRange) →
        ∀ p ∈ (Mutation.run s0 l).AttributeMap, p.2.BoundsOrdered ∧ p.2.ValueInRange := by
      intro l
      induction l with
      | nil => intro s0 _ h0; exact h0
      | cons m tl ih =>
        intro s0 hl h0
        exact ih (m.apply s0) (fun m' hm' => hl m' (List.mem_cons_of_mem _ hm'))
          (Mutation.apply_ValueInRange s0 m (hl m (List.mem_cons_self _ _)) h0)
    exact fun p hp => (both ms s hms (fun q hq => ⟨hB q hq, hV q hq⟩) p hp).2

/-- C1 at work on the started component: after raising the floor, lowering the ceiling
and a regen tick the bounds are still ordered, and after a subtraction, a modifier
and a regen tick the value is still within the bounds. -/
theorem C1_range_invariant_witness :
    (∀ p ∈ (started [Health50]).AttributeMap, p.2.BoundsOrdered) ∧
    (∀ p ∈ (Mutation.run (started [Health50])
        [.SetAttributeMinValue HealthTag 80 .Override,
         .SetAttributeMaxValue HealthTag 10 .Override,
         .RegenerateAttributes]).AttributeMap, p.2.BoundsOrdered) ∧
    (∀ p ∈ (Mutation.run (started [Health50])
        [.SetAttributeValue HealthTag 30 .Subtract,
         .ApplyModifier { AttributeTag := HealthTag, Value := 200, Duration := 5 },
         .RegenerateAttributes]).AttributeMap, p.2.ValueInRange) :=
  ⟨by decide, (C1_range_invariant _ _ (by decide)).1,
    (C1_range_invariant (started [Health50])
      [.SetAttributeValue HealthTag 30 .Subtract,
       .ApplyModifier { AttributeTag := HealthTag, Value := 200, Duration := 5 },
       .RegenerateAttributes] (by decide)).2 (by decide) (by decide)⟩

/-- C1 as stated fails.  On the started component, whose only attribute has
`0 ≤ 0 ≤ 50 ≤ 100`: `SetAttributeMinValue(Health, 80, Override)` leaves
`MinValue = 80` above `Value = 50`; `SetAttributeMaxValue(Health, 10, Override)`
leaves `MaxValue = 10` below `Value = 50`; and `LoadAttributes` from a slot whose
snapshot stores 150 leaves `Value = 150` above `MaxValue = 100`. -/
theorem C1_counterexample :
    (started [Health50]).AllInRange ∧
    (Mutation.run (started [Health50])
      [.SetAttributeMinValue HealthTag 80 .Override]).AttributeMap
        = [(HealthTag, { Health50 with MinValue := 80 })] ∧
    ¬ (Mutation.run (started [Health50])
      [.SetAttributeMinValue HealthTag 80 .Override]).AllInRange ∧
    (Mutation.run (started [Health50])
      [.SetAttributeMaxValue HealthTag 10 .Override]).AttributeMap
        = [(HealthTag, { Health50 with MaxValue := 10 })] ∧
    ¬ (Mutation.run (started [Health50])
      [.SetAttributeMaxValue HealthTag 10 .Override]).AllInRange ∧
    startedWithSnapshot.AllInRange ∧
    (Mutation.run startedWithSnapshot
      [.LoadAttributes "AttributeSaveSlot" 0 true]).AttributeMap
        = [(HealthTag, { Health50 with Value := 150 })] ∧
    ¬ (Mutation.run startedWithSnapshot
      [.LoadAttributes "AttributeSaveSlot" 0 true]).AllInRange := by
  decide

/-! ## The value setter -/

theorem ApplyOperation_eq_SpecOperation (op : EAttributeOperation) (old x : ℚ)
    (hx : op = .Divide → x ≠ 0) : ApplyOperation op old x = SpecOperation op old x := by
  cases op <;> simp [ApplyOperation, SpecOperation]
  intro h0
  exact absurd h0 (hx rfl)

theorem FMath.Clamp_eq_max_min (X lo hi : ℚ) : FMath.Clamp X lo hi = max lo (min X hi) := by
  unfold FMath.Clamp FMath.Max FMath.Min
  rcases lt_or_le X hi with h1 | h1
  · rw [if_pos h1, min_eq_left h1.le]
    rcases lt_or_le lo X with h2 | h2
    · rw [if_pos h2, max_eq_right h2.le]
    · rw [if_neg (not_lt.mpr h2), max_eq_left h2]
  · rw [if_neg (not_lt.mpr h1), min_eq_right h1]
    rcases lt_or_le lo hi with h2 | h2
    · rw [if_pos h2, max_eq_right h2.le]
    · rw [if_neg (not_lt.mpr h2), max_eq_left h2]

theorem SetAttributeValueInternal_Broadcasts (s : UAttributeComponent) (t : FGameplayTag)
    (v : ℚ) (op : EAttributeOperation) (a : FAttribute)
    (h : TMap.Find s.AttributeMap t = some a) :
    (SetAttributeValueInternal s t v op).Broadcasts =
      s.Broadcasts ++ Event.OnPreAttributeChanged t (ApplyOperation op a.Value v) ::
        (if a.Value ≠ FMath.Clamp (ApplyOperation op a.Value v) a.MinValue a.MaxValue then
          [Event.OnAttributeChanged t
            (FMath.Clamp (ApplyOperation op a.Value v) a.MinValue a.MaxValue)]
         else []) := by
  simp only [SetAttributeValueInternal, h]
  split_ifs
  · rw [CheckRegenStatus_Broadcasts]; simp [Broadcast]
  · simp [Broadcast]

/-- C2: for a registered tag, `SetAttributeValue(tag, x, op)` (with `x ≠ 0` when
`op` is `Divide`) stores `clamp(op(old, x), MinValue, MaxValue)` as the value and
nothing else in the record, leaves every other tag as it was, and broadcasts
exactly `OnPreAttributeChanged(tag, op(old, x))` with the unclamped proposal,
followed by `OnAttributeChanged(tag, committed)` exactly when the committed
value differs from the old one.  The ordering of the bounds is not needed. -/
theorem C2_SetAttributeValue_commits_clamped (s : UAttributeComponent) (t : FGameplayTag)
    (x : ℚ) (op : EAttributeOperation) (a : FAttribute)
    (h : TMap.Find s.AttributeMap t = some a) (hx : op = .Divide → x ≠ 0) :
    TMap.Find (SetAttributeValue s t x op).AttributeMap t =
      some { a with Value := max a.MinValue (min (SpecOperation op a.Value x) a.MaxValue) } ∧
    (∀ t', t' ≠ t →
      TMap.Find (SetAttributeValue s t x op).AttributeMap t' = TMap.Find s.AttributeMap t') ∧
    (SetAttributeValue s t x op).Broadcasts =
      s.Broadcasts ++ Event.OnPreAttributeChanged t (SpecOperation op a.Value x) ::
        (if max a.MinValue (min (SpecOperation op a.Value x) a.MaxValue) ≠ a.Value then
          [Event.OnAttributeChanged t
            (max a.MinValue (min (SpecOperation op a.Value x) a.MaxValue))]
         else []) := by
  unfold SetAttributeValue
  rw [SetAttributeValueInternal_AttributeMap s t x op a h,
    SetAttributeValueInternal_Broadcasts s t x op a h,
    ApplyOperation_eq_SpecOperation op a.Value x hx, FMath.Clamp_eq_max_min]
  refine ⟨TMap.Find_Add_self _ _ _, fun t' ht' => TMap.Find_Add_ne _ _ _ _ ht', ?_⟩
  by_cases hc : a.Value = max a.MinValue (min (SpecOperation op a.Value x) a.MaxValue)
  · rw [if_neg (not_not.mpr hc), if_neg (not_not.mpr hc.symm)]
  · rw [if_pos hc, if_pos (Ne.symm hc)]

/-- C2 at work: `Subtract 30` on the started health attribute (value 50 in
`[0, 100]`) stores 20 and broadcasts the proposal and the change. -/
theorem C2_SetAttributeValue_commits_clamped_witness :
    TMap.Find (SetAttributeValue (started [Health50]) HealthTag 30 .Subtract).AttributeMap
        HealthTag
      = some { Health50 with
          Value := max Health50.MinValue
            (min (SpecOperation .Subtract Health50.Value 30) Health50.MaxValue) } :=
  (C2_SetAttributeValue_commits_clamped (started [Health50]) HealthTag 30 .Subtract Health50
    (by decide) (by decide)).1

/-! ## The bound setters -/

/-- C3: for a registered attribute with `0 ≤ MinValue ≤ MaxValue`, every operation and
every input, `SetAttributeMinValue` stores `clamp(op(oldMin, x), 0, MaxValue)` as the
floor and `SetAttributeMaxValue` stores `clamp(op(oldMax, x), MinValue, FLT_MAX)` as
the ceiling (a zero divisor proposes the old bound), and both stored records still
have `0 ≤ MinValue ≤ MaxValue`. -/
theorem C3_bound_setters_keep_bounds_ordered (s : UAttributeComponent) (t : FGameplayTag)
    (x : ℚ) (op : EAttributeOperation) (a : FAttribute)
    (h : TMap.Find s.AttributeMap t = some a) (h0 : 0 ≤ a.MinValue)
    (h1 : a.MinValue ≤ a.MaxValue) :
    (∃ b, TMap.Find (SetAttributeMinValue s t x op).AttributeMap t = some b ∧
      b = { a with MinValue := max 0 (min (ApplyOperation op a.MinValue x) a.MaxValue) } ∧
      0 ≤ b.MinValue ∧ b.MinValue ≤ b.MaxValue) ∧
    (∃ b, TMap.Find (SetAttributeMaxValue s t x op).AttributeMap t = some b ∧
      b = { a with MaxValue := max a.MinValue (min (ApplyOperation op a.MaxValue x) FLT_MAX) } ∧
      0 ≤ b.MinValue ∧ b.MinValue ≤ b.MaxValue) := by
  constructor
  · refine ⟨_, ?_, rfl, ?_, ?_⟩
    · rw [SetAttributeMinValue_AttributeMap s t x op a h, FMath.Clamp_eq_max_min]
      exact TMap.Find_Add_self _ _ _
    · exact le_max_left _ _
    · exact max_le (le_trans h0 h1) (min_le_right _ _)
  · refine ⟨_, ?_, rfl, h0, ?_⟩
    · rw [SetAttributeMaxValue_AttributeMap s t x op a h, FMath.Clamp_eq_max_min]
      exact TMap.Find_Add_self _ _ _
    · exact le_max_left _ _

/-- C3 at work on the started health attribute: overriding the floor with 80. -/
theorem C3_bound_setters_keep_bounds_ordered_witness :
    ∃ b, TMap.Find (SetAttributeMinValue (started [Health50]) HealthTag 80 .Override).AttributeMap
        HealthTag = some b ∧
      b = { Health50 with
        MinValue := max 0 (min (ApplyOperation .Override Health50.MinValue 80) Health50.MaxValue) } ∧
      0 ≤ b.MinValue ∧ b.MinValue ≤ b.MaxValue :=
  (C3_bound_setters_keep_bounds_ordered (started [Health50]) HealthTag 80 .Override Health50
    (by decide) (by decide) (by decide)).1

/-! ## Unregistered tags -/

/-- C4: on a tag that is not registered, each of `SetAttributeValue`,
`SetAttributeMinValue`, `SetAttributeMaxValue`, `ApplyModifier`, `RemoveModifier`,
`SetUseRegen` and `CheckThresholds` returns the component as it was: attributes,
modifier list, regen timers and the broadcast log are all unchanged. -/
theorem C4_unregistered_tag_is_noop (s : UAttributeComponent) (t : FGameplayTag)
    (x d : ℚ) (op : EAttributeOperation) (b : Bool) (h : IsValidAttribute s t = false) :
    SetAttributeValue s t x op = s ∧
    SetAttributeMinValue s t x op = s ∧
    SetAttributeMaxValue s t x op = s ∧
    ApplyModifier s { AttributeTag := t, Value := x, Duration := d } = s ∧
    RemoveModifier s t x = s ∧
    SetUseRegen s t b = s ∧
    CheckThresholds s t = s := by
  have hf : TMap.Find s.AttributeMap t = none := by
    simpa [IsValidAttribute, TMap.Contains] using h
  refine ⟨SetAttributeValueInternal_none s t x op hf, SetAttributeMinValue_none s t x op hf,
    SetAttributeMaxValue_none s t x op hf, ApplyModifier_none s _ hf,
    RemoveModifier_none s t x hf, ?_, ?_⟩
  · simp [SetUseRegen, hf]
  · simp [CheckThresholds, hf]

/-- C4 at work: the mana tag is not registered in the started health-only component. -/
theorem C4_unregistered_tag_is_noop_witness :
    IsValidAttribute (started [Health50]) "Attribute.Mana" = false ∧
    SetAttributeValue (started [Health50]) "Attribute.Mana" 5 .Add = started [Health50] :=
  ⟨by decide, (C4_unregistered_tag_is_noop (started [Health50]) "Attribute.Mana" 5 (-1) .Add
    true (by decide)).1⟩

/-! ## Calls that change nothing -/

theorem SetAttributeValueInternal_unchanged (s : UAttributeComponent) (t : FGameplayTag)
    (x : ℚ) (op : EAttributeOperation) (a : FAttribute)
    (h : TMap.Find s.AttributeMap t = some a)
    (hc : FMath.Clamp (ApplyOperation op a.Value x) a.MinValue a.MaxValue = a.Value) :
    SetAttributeValueInternal s t x op =
      s.Broadcast (.OnPreAttributeChanged t (ApplyOperation op a.Value x)) := by
  simp only [SetAttributeValueInternal, h, hc, ne_eq, not_true_eq_false, if_false]
  simp only [Broadcast, TMap.Add_Find_self _ _ _ h]

theorem SetAttributeMinValue_unchanged (s : UAttributeComponent) (t : FGameplayTag)
    (x : ℚ) (op : EAttributeOperation) (a : FAttribute)
    (h : TMap.Find s.AttributeMap t = some a)
    (hc : FMath.Clamp (ApplyOperation op a.MinValue x) 0 a.MaxValue = a.MinValue) :
    SetAttributeMinValue s t x op = s := by
  simp only [SetAttributeMinValue, h, hc, ne_eq, not_true_eq_false, if_false]
  simp only [TMap.Add_Find_self _ _ _ h]

theorem SetAttributeMaxValue_unchanged (s : UAttributeComponent) (t : FGameplayTag)
    (x : ℚ) (op : EAttributeOperation) (a : FAttribute)
    (h : TMap.Find s.AttributeMap t = some a)
    (hc : FMath.Clamp (ApplyOperation op a.MaxValue x) a.MinValue FLT_MAX = a.MaxValue) :
    SetAttributeMaxValue s t x op = s := by
  simp only [SetAttributeMaxValue, h, hc, ne_eq, not_true_eq_false, if_false]
  simp only [TMap.Add_Find_self _ _ _ h]

/-- C5 (as amended): for a registered tag, `Divide` by 0 leaves the targeted field as
it was whenever that field already lies in the range it is clamped to:
`SetAttributeValue(tag, 0, Divide)` only broadcasts the pre-change notification when
`MinValue ≤ Value ≤ MaxValue`, `SetAttributeMinValue(tag, 0, Divide)` changes nothing
when `0 ≤ MinValue ≤ MaxValue`, and `SetAttributeMaxValue(tag, 0, Divide)` changes
nothing when `MinValue ≤ MaxValue ≤ FLT_MAX`. -/
theorem C5_divide_by_zero_keeps_field_in_range (s : UAttributeComponent) (t : FGameplayTag)
    (a : FAttribute) (h : TMap.Find s.AttributeMap t = some a) :
    (a.MinValue ≤ a.Value → a.Value ≤ a.MaxValue →
      SetAttributeValue s t 0 .Divide = s.Broadcast (.OnPreAttributeChanged t a.Value)) ∧
    (0 ≤ a.MinValue → a.MinValue ≤ a.MaxValue → SetAttributeMinValue s t 0 .Divide = s) ∧
    (a.MinValue ≤ a.MaxValue → a.MaxValue ≤ FLT_MAX →
      SetAttributeMaxValue s t 0 .Divide = s) := by
  have hop : ∀ old : ℚ, ApplyOperation .Divide old 0 = old := fun old => by
    simp [ApplyOperation]
  refine ⟨fun h1 h2 => ?_, fun h1 h2 => ?_, fun h1 h2 => ?_⟩
  · have := SetAttributeValueInternal_unchanged s t 0 .Divide a h
      (by rw [hop]; exact FMath.Clamp_of_mem _ _ _ h1 h2)
    rw [hop] at this
    exact this
  · exact SetAttributeMinValue_unchanged s t 0 .Divide a h
      (by rw [hop]; exact FMath.Clamp_of_mem _ _ _ h1 h2)
  · exact SetAttributeMaxValue_unchanged s t 0 .Divide a h
      (by rw [hop]; exact FMath.Clamp_of_mem _ _ _ h1 h2)

/-- C5 at work: dividing the floor of the started health attribute by 0 changes nothing. -/
theorem C5_divide_by_zero_keeps_field_in_range_witness :
    SetAttributeMinValue (started [Health50]) HealthTag 0 .Divide = started [Health50] :=
  (C5_divide_by_zero_keeps_field_in_range (started [Health50]) HealthTag Health50
    (by decide)).2.1 (by decide) (by decide)

/-- C5 as stated fails: after `SetAttributeMinValue(Health, 80, Override)` on the
started component the health value 50 lies below the floor 80, and
`SetAttributeValue(Health, 0, Divide)` then moves the value from 50 to 80 and
broadcasts the change. -/
theorem C5_counterexample :
    GetAttributeValue (SetAttributeMinValue (started [Health50]) HealthTag 80 .Override)
      HealthTag = 50 ∧
    GetAttributeValue
      (SetAttributeValue (SetAttributeMinValue (started [Health50]) HealthTag 80 .Override)
        HealthTag 0 .Divide) HealthTag = 80 ∧
    (SetAttributeValue (SetAttributeMinValue (started [Health50]) HealthTag 80 .Override)
        HealthTag 0 .Divide).Broadcasts =
      (SetAttributeMinValue (started [Health50]) HealthTag 80 .Override).Broadcasts ++
        [.OnPreAttributeChanged HealthTag 50, .OnAttributeChanged HealthTag 80] := by
  decide

/-- C6 (as amended): when the clamped result equals the prior value,
`SetAttributeValue` on a registered tag broadcasts `OnPreAttributeChanged` with the
proposal, once, and nothing else: no `OnAttributeChanged`, and attributes, modifiers
and timers are unchanged. -/
theorem C6_unchanged_value_only_prechange (s : UAttributeComponent) (t : FGameplayTag)
    (x : ℚ) (op : EAttributeOperation) (a : FAttribute)
    (h : TMap.Find s.AttributeMap t = some a)
    (hc : FMath.Clamp (ApplyOperation op a.Value x) a.MinValue a.MaxValue = a.Value) :
    (SetAttributeValue s t x op).Silent = s.Silent ∧
    (SetAttributeValue s t x op).Broadcasts =
      s.Broadcasts ++ [.OnPreAttributeChanged t (ApplyOperation op a.Value x)] := by
  unfold SetAttributeValue
  rw [SetAttributeValueInternal_unchanged s t x op a h hc]
  exact ⟨rfl, rfl⟩

/-- C6 at work: adding 10 to a health of 100 in `[0, 100]`. -/
theorem C6_unchanged_value_only_prechange_witness :
    (SetAttributeValue (started [Health100]) HealthTag 10 .Add).Silent
      = (started [Health100]).Silent :=
  (C6_unchanged_value_only_prechange (started [Health100]) HealthTag 10 .Add Health100
    (by decide) (by decide)).1

/-- C6 as stated fails: adding 10 to a health of 100 in `[0, 100]` leaves the value at
100, yet the call broadcasts `OnPreAttributeChanged(Health, 110)`. -/
theorem C6_counterexample :
    GetAttributeValue (started [Health100]) HealthTag = 100 ∧
    GetAttributeValue (SetAttributeValue (started [Health100]) HealthTag 10 .Add) HealthTag
      = 100 ∧
    (SetAttributeValue (started [Health100]) HealthTag 10 .Add).Broadcasts =
      (started [Health100]).Broadcasts ++ [.OnPreAttributeChanged HealthTag 110] := by
  decide

/-- C7: `Override` is idempotent.  For a registered tag, a second
`SetAttributeValue(tag, x, Override)` right after the first leaves attributes,
modifiers and timers as the first call left them and broadcasts only its pre-change
notification; the first call broadcasts `OnAttributeChanged` exactly when it changes
the value, so the two calls together broadcast it at most once. -/
theorem C7_override_idempotent (s : UAttributeComponent) (t : FGameplayTag) (x : ℚ)
    (a : FAttribute) (h : TMap.Find s.AttributeMap t = some a) :
    (SetAttributeValue (SetAttributeValue s t x .Override) t x .Override).Silent =
      (SetAttributeValue s t x .Override).Silent ∧
    (SetAttributeValue (SetAttributeValue s t x .Override) t x .Override).Broadcasts =
      s.Broadcasts ++
        (Event.OnPreAttributeChanged t x ::
          (if a.Value ≠ FMath.Clamp x a.MinValue a.MaxValue then
            [Event.OnAttributeChanged t (FMath.Clamp x a.MinValue a.MaxValue)]
           else [])) ++
        [Event.OnPreAttributeChanged t x] := by
  have h1 : TMap.Find (SetAttributeValueInternal s t x .Override).AttributeMap t =
      some { a with Value := FMath.Clamp x a.MinValue a.MaxValue } := by
    rw [SetAttributeValueInternal_AttributeMap s t x .Override a h]
    exact TMap.Find_Add_self _ _ _
  have h2 := SetAttributeValueInternal_unchanged (SetAttributeValueInternal s t x .Override)
    t x .Override _ h1 rfl
  have h3 := SetAttributeValueInternal_Broadcasts s t x .Override a h
  simp only [ApplyOperation] at h2 h3
  unfold SetAttributeValue
  rw [h2]
  refine ⟨rfl, ?_⟩
  simp only [Broadcast, h3, List.append_assoc]

/-- C7 at work: overriding the started health attribute with 70, twice. -/
theorem C7_override_idempotent_witness :
    (SetAttributeValue (SetAttributeValue (started [Health50]) HealthTag 70 .Override)
        HealthTag 70 .Override).Silent =
      (SetAttributeValue (started [Health50]) HealthTag 70 .Override).Silent :=
  (C7_override_idempotent (started [Health50]) HealthTag 70 Health50 (by decide)).1

/-! ## The normalised value -/

/-- C8: `GetAttributeNormalized(tag)` is `(Value - MinValue) / (MaxValue - MinValue)`
for a registered tag with `MaxValue ≠ MinValue`, and 0 for an unregistered tag or
when `MaxValue = MinValue`; with `MinValue ≤ Value ≤ MaxValue` and
`MinValue < MaxValue` it lies in `[0, 1]`. -/
theorem C8_GetAttributeNormalized (s : UAttributeComponent) (t : FGameplayTag) :
    (∀ a, TMap.Find s.AttributeMap t = some a → a.MaxValue ≠ a.MinValue →
      GetAttributeNormalized s t = (a.Value - a.MinValue) / (a.MaxValue - a.MinValue)) ∧
    (∀ a, TMap.Find s.AttributeMap t = some a → a.MaxValue = a.MinValue →
      GetAttributeNormalized s t = 0) ∧
    (IsValidAttribute s t = false → GetAttributeNormalized s t = 0) ∧
    (∀ a, TMap.Find s.AttributeMap t = some a → a.MinValue ≤ a.Value →
      a.Value ≤ a.MaxValue → a.MinValue < a.MaxValue →
      0 ≤ GetAttributeNormalized s t ∧ GetAttributeNormalized s t ≤ 1) := by
  refine ⟨fun a h hne => ?_, fun a h he => ?_, fun h => ?_, fun a h h1 h2 h3 => ?_⟩
  · simp [GetAttributeNormalized, h, hne]
  · simp [GetAttributeNormalized, h, he]
  · have hf : TMap.Find s.AttributeMap t = none := by
      simpa [IsValidAttribute, TMap.Contains] using h
    simp [GetAttributeNormalized, hf]
  · have hne : a.MaxValue ≠ a.MinValue := ne_of_gt h3
    have hpos : 0 < a.MaxValue - a.MinValue := sub_pos.mpr h3
    simp only [GetAttributeNormalized, h, hne, ne_eq, not_false_eq_true, if_true]
    constructor
    · exact div_nonneg (sub_nonneg.mpr h1) hpos.le
    · rw [div_le_one hpos]
      linarith

/-- C8 at work on the started health attribute: 50 in `[0, 100]` normalises into `[0, 1]`. -/
theorem C8_GetAttributeNormalized_witness :
    0 ≤ GetAttributeNormalized (started [Health50]) HealthTag ∧
    GetAttributeNormalized (started [Health50]) HealthTag ≤ 1 :=
  (C8_GetAttributeNormalized (started [Health50]) HealthTag).2.2.2 Health50
    (by decide) (by decide) (by decide) (by decide)

/-! ## The modifier ledger -/

theorem ApplyModifier_eq (s : UAttributeComponent) (m : FAttributeModifier) (a : FAttribute)
    (h : TMap.Find s.AttributeMap m.AttributeTag = some a) :
    (ApplyModifier s m).ActiveModifiers = s.ActiveModifiers ++ [m] ∧
    (ApplyModifier s m).Broadcasts = s.Broadcasts ++
      [.OnAttributeChanged m.AttributeTag
        (FMath.Clamp (a.Value + m.Value) a.MinValue a.MaxValue)] ∧
    (ApplyModifier s m).RegenTimers = s.RegenTimers := by
  simp only [ApplyModifier, IsValidAttribute, TMap.Contains, h, Option.isSome_some, if_true,
    Broadcast]
  split_ifs <;> exact ⟨rfl, rfl, rfl⟩

theorem RemoveModifier_eq (s : UAttributeComponent) (t : FGameplayTag) (v : ℚ) (a : FAttribute)
    (h : TMap.Find s.AttributeMap t = some a) :
    (RemoveModifier s t v).ActiveModifiers =
      s.ActiveModifiers.filter (fun m => decide (¬ (m.AttributeTag = t ∧ m.Value = v))) ∧
    (RemoveModifier s t v).Broadcasts = s.Broadcasts ++
      [.OnAttributeChanged t (FMath.Clamp (a.Value - v) a.MinValue a.MaxValue)] ∧
    (RemoveModifier s t v).RegenTimers = s.RegenTimers := by
  simp [RemoveModifier, IsValidAttribute, TMap.Contains, h, Broadcast]

/-- C9 (as amended): for a modifier whose tag is registered, `ApplyModifier` leaves the
same attribute map as `SetAttributeValue(tag, modifier.value, Add)` and appends the
modifier, and `RemoveModifier(tag, amount)` leaves the same attribute map as
`SetAttributeValue(tag, amount, Subtract)`; each of the two modifier calls
broadcasts exactly one `OnAttributeChanged(tag, committed value)`, whether or not
the value changed, broadcasts no `OnPreAttributeChanged`, and leaves the regen
timers as they were. -/
theorem C9_modifiers_commit_like_setter (s : UAttributeComponent) (m : FAttributeModifier)
    (v : ℚ) (a : FAttribute) (h : TMap.Find s.AttributeMap m.AttributeTag = some a) :
    ((ApplyModifier s m).AttributeMap =
        (SetAttributeValue s m.AttributeTag m.Value .Add).AttributeMap ∧
      (ApplyModifier s m).ActiveModifiers = s.ActiveModifiers ++ [m] ∧
      (ApplyModifier s m).Broadcasts = s.Broadcasts ++
        [.OnAttributeChanged m.AttributeTag
          (FMath.Clamp (a.Value + m.Value) a.MinValue a.MaxValue)] ∧
      (ApplyModifier s m).RegenTimers = s.RegenTimers) ∧
    ((RemoveModifier s m.AttributeTag v).AttributeMap =
        (SetAttributeValue s m.AttributeTag v .Subtract).AttributeMap ∧
      (RemoveModifier s m.AttributeTag v).Broadcasts = s.Broadcasts ++
        [.OnAttributeChanged m.AttributeTag
          (FMath.Clamp (a.Value - v) a.MinValue a.MaxValue)] ∧
      (RemoveModifier s m.AttributeTag v).RegenTimers = s.RegenTimers) := by
  refine ⟨⟨?_, ApplyModifier_eq s m a h⟩, ?_, (RemoveModifier_eq s _ v a h).2⟩
  · rw [ApplyModifier_AttributeMap s m a h, SetAttributeValue,
      SetAttributeValueInternal_AttributeMap s _ _ _ a h]
    rfl
  · rw [RemoveModifier_AttributeMap s _ v a h, SetAttributeValue,
      SetAttributeValueInternal_AttributeMap s _ _ _ a h]
    rfl

/-- C9 at work: a permanent modifier of -15 on the health attribute at 100. -/
theorem C9_modifiers_commit_like_setter_witness :
    (ApplyModifier (started [Health100])
        { AttributeTag := HealthTag, Value := -15, Duration := -1 }).AttributeMap =
      (SetAttributeValue (started [Health100]) HealthTag (-15) .Add).AttributeMap :=
  (C9_modifiers_commit_like_setter (started [Health100])
    { AttributeTag := HealthTag, Value := -15, Duration := -1 } 15 Health100
    (by decide)).1.1

/-- C9 as stated fails: on the health attribute at 100 in `[0, 100]` with regeneration
on and no timer running, `ApplyModifier(Health, -15)` broadcasts one
`OnAttributeChanged(Health, 85)` and starts no timer, while
`SetAttributeValue(Health, -15, Add)` broadcasts `OnPreAttributeChanged(Health, 85)`
first and starts the regen timer; `RemoveModifier(Health, 15)` differs from
`SetAttributeValue(Health, 15, Subtract)` in the same two ways. -/
theorem C9_counterexample :
    (started [Health100]).RegenTimers = [] ∧
    (ApplyModifier (started [Health100])
        { AttributeTag := HealthTag, Value := -15, Duration := -1 }).Broadcasts =
      (started [Health100]).Broadcasts ++ [.OnAttributeChanged HealthTag 85] ∧
    (ApplyModifier (started [Health100])
        { AttributeTag := HealthTag, Value := -15, Duration := -1 }).RegenTimers = [] ∧
    (SetAttributeValue (started [Health100]) HealthTag (-15) .Add).Broadcasts =
      (started [Health100]).Broadcasts ++
        [.OnPreAttributeChanged HealthTag 85, .OnAttributeChanged HealthTag 85] ∧
    (SetAttributeValue (started [Health100]) HealthTag (-15) .Add).RegenTimers =
      [(HealthTag, some 1)] ∧
    (RemoveModifier (started [Health100]) HealthTag 15).Broadcasts =
      (started [Health100]).Broadcasts ++ [.OnAttributeChanged HealthTag 85] ∧
    (RemoveModifier (started [Health100]) HealthTag 15).RegenTimers = [] ∧
    (SetAttributeValue (started [Health100]) HealthTag 15 .Subtract).Broadcasts =
      (started [Health100]).Broadcasts ++
        [.OnPreAttributeChanged HealthTag 85, .OnAttributeChanged HealthTag 85] ∧
    (SetAttributeValue (started [Health100]) HealthTag 15 .Subtract).RegenTimers =
      [(HealthTag, some 1)] := by
  decide

theorem filter_not_eq_eraseP {α : Type} (p : α → Bool) (l : List α)
    (h : l.countP p = 1) : l.filter (fun x => !p x) = l.eraseP p := by
  induction l with
  | nil => simp at h
  | cons x xs ih =>
    by_cases hx : p x = true
    · have h0 : xs.countP p = 0 := by
        rw [List.countP_cons_of_pos _ _ hx] at h
        omega
      have hall : ∀ y ∈ xs, (!p y) = true := by
        intro y hy
        have := (List.countP_eq_zero.mp h0) y hy
        simpa using this
      rw [List.eraseP_cons_of_pos hx, List.filter_cons_of_neg (by simp [hx])]
      exact List.filter_eq_self.mpr hall
    · have h1 : xs.countP p = 1 := by
        rw [List.countP_cons_of_neg _ _ hx] at h
        exact h
      rw [List.eraseP_cons_of_neg hx, List.filter_cons_of_pos (by simpa using hx), ih h1]

/-- C10 (as amended): for a registered tag, `RemoveModifier(tag, amount)` removes every
active modifier whose tag and value equal `(tag, amount)`: afterwards no such entry
is left, and the entries that remain are the other entries, unchanged and in their
original order.  With exactly one such entry this is the removal of the first one. -/
theorem C10_RemoveModifier_removes_all_matching (s : UAttributeComponent) (t : FGameplayTag)
    (v : ℚ) (a : FAttribute) (h : TMap.Find s.AttributeMap t = some a) :
    (RemoveModifier s t v).ActiveModifiers.countP (FAttributeModifier.Matches t v) = 0 ∧
    (RemoveModifier s t v).ActiveModifiers =
      s.ActiveModifiers.filter (fun m => !FAttributeModifier.Matches t v m) ∧
    (s.ActiveModifiers.countP (FAttributeModifier.Matches t v) = 1 →
      (RemoveModifier s t v).ActiveModifiers =
        s.ActiveModifiers.eraseP (FAttributeModifier.Matches t v)) := by
  have hf : (RemoveModifier s t v).ActiveModifiers =
      s.ActiveModifiers.filter (fun m => !FAttributeModifier.Matches t v m) := by
    rw [(RemoveModifier_eq s t v a h).1]
    congr 1
    funext m
    simp [FAttributeModifier.Matches]
  refine ⟨?_, hf, fun h1 => ?_⟩
  · rw [hf, List.countP_eq_zero]
    intro m hm
    have := (List.mem_filter.mp hm).2
    simpa using this
  · rw [hf]
    exact filter_not_eq_eraseP _ _ h1

/-- C10 at work: one permanent modifier of 10 on the started health attribute is the
only entry and is removed. -/
theorem C10_RemoveModifier_removes_all_matching_witness :
    (RemoveModifier
        (ApplyModifier (started [Health50])
          { AttributeTag := HealthTag, Value := 10, Duration := -1 })
        HealthTag 10).ActiveModifiers.countP (FAttributeModifier.Matches HealthTag 10) = 0 :=
  (C10_RemoveModifier_removes_all_matching
    (ApplyModifier (started [Health50])
      { AttributeTag := HealthTag, Value := 10, Duration := -1 })
    HealthTag 10 { Health50 with Value := 60 } (by decide)).1

/-- C10 as stated fails: after the same permanent modifier `(Health, 10)` has been
applied twice the ledger holds two matching entries, and one
`RemoveModifier(Health, 10)` leaves none of them instead of one. -/
theorem C10_counterexample :
    (ApplyModifier
        (ApplyModifier (started [Health50])
          { AttributeTag := HealthTag, Value := 10, Duration := -1 })
        { AttributeTag := HealthTag, Value := 10, Duration := -1 }).ActiveModifiers =
      [{ AttributeTag := HealthTag, Value := 10, Duration := -1 },
       { AttributeTag := HealthTag, Value := 10, Duration := -1 }] ∧
    (RemoveModifier
        (ApplyModifier
          (ApplyModifier (started [Health50])
            { AttributeTag := HealthTag, Value := 10, Duration := -1 })
          { AttributeTag := HealthTag, Value := 10, Duration := -1 })
        HealthTag 10).ActiveModifiers = [] := by
  decide

/-! ## Modifier round trip -/

/-- C11: for a registered attribute with `MinValue ≤ Value ≤ MaxValue` and a delta `d`
with `MinValue ≤ Value + d ≤ MaxValue`, `ApplyModifier(tag, d)` sets the value to
`Value + d`, and `RemoveModifier(tag, d)` right after it stores the original record
again, so the original value is restored. -/
theorem C11_apply_then_revert_round_trip (s : UAttributeComponent) (t : FGameplayTag)
    (d dur : ℚ) (a : FAttribute) (h : TMap.Find s.AttributeMap t = some a)
    (h1 : a.MinValue ≤ a.Value) (h2 : a.Value ≤ a.MaxValue)
    (h3 : a.MinValue ≤ a.Value + d) (h4 : a.Value + d ≤ a.MaxValue) :
    GetAttributeValue (ApplyModifier s { AttributeTag := t, Value := d, Duration := dur }) t
      = a.Value + d ∧
    TMap.Find (RemoveModifier
      (ApplyModifier s { AttributeTag := t, Value := d, Duration := dur }) t d).AttributeMap t
      = some a ∧
    GetAttributeValue (RemoveModifier
      (ApplyModifier s { AttributeTag := t, Value := d, Duration := dur }) t d) t = a.Value := by
  have hA : TMap.Find (ApplyModifier s { AttributeTag := t, Value := d, Duration := dur }).AttributeMap t
      = some { a with Value := a.Value + d } := by
    rw [ApplyModifier_AttributeMap s _ a h, FMath.Clamp_of_mem _ _ _ h3 h4]
    exact TMap.Find_Add_self _ _ _
  have hR : TMap.Find (RemoveModifier
      (ApplyModifier s { AttributeTag := t, Value := d, Duration := dur }) t d).AttributeMap t
      = some a := by
    rw [RemoveModifier_AttributeMap _ t d _ hA, TMap.Find_Add_self]
    have hv : a.Value + d - d = a.Value := by ring
    simp only [hv, FMath.Clamp_of_mem _ _ _ h1 h2]
  refine ⟨?_, hR, ?_⟩
  · simp [GetAttributeValue, hA]
  · simp [GetAttributeValue, hR]

/-- C11 at work: the modifier `(Health, -15)` with a duration of 5 seconds on a health
of 100 in `[0, 100]` gives 85, and its revert gives 100 again. -/
theorem C11_apply_then_revert_round_trip_witness :
    (GetAttributeValue (ApplyModifier (started [Health100])
        { AttributeTag := HealthTag, Value := -15, Duration := 5 }) HealthTag = 100 + -15 ∧
      GetAttributeValue (RemoveModifier (ApplyModifier (started [Health100])
        { AttributeTag := HealthTag, Value := -15, Duration := 5 }) HealthTag (-15)) HealthTag
        = 100) ∧
    GetAttributeValue (ApplyModifier (started [Health100])
        { AttributeTag := HealthTag, Value := -15, Duration := 5 }) HealthTag = 85 :=
  ⟨⟨(C11_apply_then_revert_round_trip (started [Health100]) HealthTag (-15) 5 Health100
      (by decide) (by decide) (by decide) (by decide) (by decide)).1,
    (C11_apply_then_revert_round_trip (started [Health100]) HealthTag (-15) 5 Health100
      (by decide) (by decide) (by decide) (by decide) (by decide)).2.2⟩, by decide⟩

/-! ## Regen eligibility after a mutation -/

theorem TMap.Find_Remove_self {K V : Type} [DecidableEq K] (m : TMap K V) (k : K) :
    TMap.Find (TMap.Remove m k) k = none := by
  induction m with
  | nil => rfl
  | cons hd tl ih =>
    obtain ⟨k0, v0⟩ := hd
    by_cases hk : k0 = k
    · simpa [TMap.Remove, List.filter_cons, hk] using ih
    · have : TMap.Remove ((k0, v0) :: tl) k = (k0, v0) :: TMap.Remove tl k := by
        simp [TMap.Remove, List.filter_cons, hk]
      rw [this]
      simp [TMap.Find, hk, ih]

theorem CheckRegenStatus_timer (s : UAttributeComponent) (t : FGameplayTag) (a : FAttribute)
    (h : TMap.Find s.AttributeMap t = some a) (hr : a.bUseRegen = true)
    (hrate : 0 < a.RegenRate) :
    ((CheckRegenStatus s t).TimerActive t = true ↔ a.Value < a.MaxValue) ∧
    (s.TimerActive t = true → a.Value < a.MaxValue →
      (CheckRegenStatus s t).RegenTimers = s.RegenTimers) := by
  by_cases hv : a.Value < a.MaxValue
  · cases hF : TMap.Find s.RegenTimers t with
    | none =>
      simp [CheckRegenStatus, TimerActive, h, hr, hv, hF, IsTimerActive, SetTimer, hrate,
        TMap.Find_Add_self]
    | some hd =>
      cases hd with
      | none =>
        simp [CheckRegenStatus, TimerActive, h, hr, hv, hF, IsTimerActive, SetTimer, hrate,
          TMap.Find_Add_self]
      | some r =>
        simp [CheckRegenStatus, TimerActive, h, hr, hv, hF, IsTimerActive,
          TMap.Find_Add_self, TMap.Add_Find_self _ _ _ hF]
  · cases hF : TMap.Find s.RegenTimers t with
    | none =>
      simp [CheckRegenStatus, TimerActive, h, hr, hv, hF, IsTimerActive]
    | some hd =>
      simp [CheckRegenStatus, TimerActive, h, hr, hv, hF, IsTimerActive,
        TMap.Find_Remove_self]

theorem SetAttributeValueInternal_changed (s : UAttributeComponent) (t : FGameplayTag)
    (x : ℚ) (op : EAttributeOperation) (a : FAttribute)
    (h : TMap.Find s.AttributeMap t = some a)
    (hc : a.Value ≠ FMath.Clamp (ApplyOperation op a.Value x) a.MinValue a.MaxValue) :
    SetAttributeValueInternal s t x op =
      CheckRegenStatus
        { s with
          AttributeMap := TMap.Add s.AttributeMap t
            { a with Value := FMath.Clamp (ApplyOperation op a.Value x) a.MinValue a.MaxValue },
          Broadcasts := s.Broadcasts ++
            [.OnPreAttributeChanged t (ApplyOperation op a.Value x),
             .OnAttributeChanged t
               (FMath.Clamp (ApplyOperation op a.Value x) a.MinValue a.MaxValue)] } t := by
  simp only [SetAttributeValueInternal, h, if_pos hc]
  simp [Broadcast]

theorem SetAttributeMinValue_changed (s : UAttributeComponent) (t : FGameplayTag)
    (x : ℚ) (op : EAttributeOperation) (a : FAttribute)
    (h : TMap.Find s.AttributeMap t = some a)
    (hc : a.MinValue ≠ FMath.Clamp (ApplyOperation op a.MinValue x) 0 a.MaxValue) :
    SetAttributeMinValue s t x op =
      CheckRegenStatus
        { s with
          AttributeMap := TMap.Add s.AttributeMap t
            { a with MinValue := FMath.Clamp (ApplyOperation op a.MinValue x) 0 a.MaxValue },
          Broadcasts := s.Broadcasts ++
            [.OnAttributeChanged t
               (FMath.Clamp (ApplyOperation op a.MinValue x) 0 a.MaxValue)] } t := by
  simp only [SetAttributeMinValue, h, if_pos hc]
  simp [Broadcast]

theorem SetAttributeMaxValue_changed (s : UAttributeComponent) (t : FGameplayTag)
    (x : ℚ) (op : EAttributeOperation) (a : FAttribute)
    (h : TMap.Find s.AttributeMap t = some a)
    (hc : a.MaxValue ≠ FMath.Clamp (ApplyOperation op a.MaxValue x) a.MinValue FLT_MAX) :
    SetAttributeMaxValue s t x op =
      CheckRegenStatus
        { s with
          AttributeMap := TMap.Add s.AttributeMap t
            { a with MaxValue := FMath.Clamp (ApplyOperation op a.MaxValue x) a.MinValue FLT_MAX },
          Broadcasts := s.Broadcasts ++
            [.OnAttributeChanged t
               (FMath.Clamp (ApplyOperation op a.MaxValue x) a.MinValue FLT_MAX)] } t := by
  simp only [SetAttributeMaxValue, h, if_pos hc]
  simp [Broadcast]

theorem RegenReevaluated_of_CheckRegenStatus (s s1 : UAttributeComponent) (t : FGameplayTag)
    (b : FAttribute) (hT : s1.RegenTimers = s.RegenTimers)
    (hb : TMap.Find s1.AttributeMap t = some b) (hr : b.bUseRegen = true)
    (hrate : 0 < b.RegenRate) : RegenReevaluated s (CheckRegenStatus s1 t) t := by
  have key := CheckRegenStatus_timer s1 t b hb hr hrate
  have hg : (CheckRegenStatus s1 t).GetAttribute t = b := by
    simp [GetAttribute, CheckRegenStatus_AttributeMap, hb]
  have ha : s.TimerActive t = s1.TimerActive t := by
    simp [TimerActive, hT]
  unfold RegenReevaluated
  rw [hg, ha, ← hT]
  exact key

/-- C12: for a registered tag with `bUseRegen` set and a positive `RegenRate`, a call of
`SetAttributeValue`, `SetAttributeMinValue` or `SetAttributeMaxValue` that changes
its target field re-evaluates the regen eligibility: afterwards a regen timer
runs for the tag exactly when `Value < MaxValue`, and a timer that already ran
while `Value < MaxValue` holds leaves the timer table untouched (no second timer,
no restart). -/
theorem C12_regen_reevaluated_after_change (s : UAttributeComponent) (t : FGameplayTag)
    (x : ℚ) (op : EAttributeOperation) (a : FAttribute)
    (h : TMap.Find s.AttributeMap t = some a) (hr : a.bUseRegen = true)
    (hrate : 0 < a.RegenRate) :
    ((SetAttributeValue s t x op).GetAttribute t ≠ a →
      RegenReevaluated s (SetAttributeValue s t x op) t) ∧
    ((SetAttributeMinValue s t x op).GetAttribute t ≠ a →
      RegenReevaluated s (SetAttributeMinValue s t x op) t) ∧
    ((SetAttributeMaxValue s t x op).GetAttribute t ≠ a →
      RegenReevaluated s (SetAttributeMaxValue s t x op) t) := by
  refine ⟨fun hne => ?_, fun hne => ?_, fun hne => ?_⟩
  · by_cases hc : a.Value = FMath.Clamp (ApplyOperation op a.Value x) a.MinValue a.MaxValue
    · exfalso
      apply hne
      rw [SetAttributeValue, SetAttributeValueInternal_unchanged s t x op a h hc.symm]
      simp [GetAttribute, Broadcast, h]
    · rw [SetAttributeValue, SetAttributeValueInternal_changed s t x op a h hc]
      exact RegenReevaluated_of_CheckRegenStatus s _ t _ rfl (TMap.Find_Add_self _ _ _) hr hrate
  · by_cases hc : a.MinValue = FMath.Clamp (ApplyOperation op a.MinValue x) 0 a.MaxValue
    · exfalso
      apply hne
      rw [SetAttributeMinValue_unchanged s t x op a h hc.symm]
      simp [GetAttribute, h]
    · rw [SetAttributeMinValue_changed s t x op a h hc]
      exact RegenReevaluated_of_CheckRegenStatus s _ t _ rfl (TMap.Find_Add_self _ _ _) hr hrate
  · by_cases hc : a.MaxValue = FMath.Clamp (ApplyOperation op a.MaxValue x) a.MinValue FLT_MAX
    · exfalso
      apply hne
      rw [SetAttributeMaxValue_unchanged s t x op a h hc.symm]
      simp [GetAttribute, h]
    · rw [SetAttributeMaxValue_changed s t x op a h hc]
      exact RegenReevaluated_of_CheckRegenStatus s _ t _ rfl (TMap.Find_Add_self _ _ _) hr hrate

/-- C12 at work: on a health of 100 in `[0, 100]` with no timer running, subtracting 30
starts the regen timer; on a health of 50 with its timer running, overriding the
ceiling with 40 stops it. -/
theorem C12_regen_reevaluated_after_change_witness :
    (RegenReevaluated (started [Health100])
        (SetAttributeValue (started [Health100]) HealthTag 30 .Subtract) HealthTag ∧
      (started [Health100]).TimerActive HealthTag = false ∧
      (SetAttributeValue (started [Health100]) HealthTag 30 .Subtract).TimerActive HealthTag
        = true) ∧
    (RegenReevaluated (started [Health50])
        (SetAttributeMaxValue (started [Health50]) HealthTag 40 .Override) HealthTag ∧
      (started [Health50]).TimerActive HealthTag = true ∧
      (SetAttributeMaxValue (started [Health50]) HealthTag 40 .Override).TimerActive HealthTag
        = false) :=
  ⟨⟨(C12_regen_reevaluated_after_change (started [Health100]) HealthTag 30 .Subtract Health100
      (by decide) (by decide) (by decide)).1 (by decide), by decide, by decide⟩,
   ⟨(C12_regen_reevaluated_after_change (started [Health50]) HealthTag 40 .Override Health50
      (by decide) (by decide) (by decide)).2.2 (by decide), by decide, by decide⟩⟩

/-! ## The regen tick -/

theorem TMap.mem_Add {K V : Type} [DecidableEq K] (m : TMap K V) (k : K) (v : V)
    (p : K × V) (hp : p ∈ TMap.Add m k v) : p ∈ m ∨ p = (k, v) := by
  induction m with
  | nil =>
    right
    simpa [TMap.Add] using hp
  | cons hd tl ih =>
    obtain ⟨k0, v0⟩ := hd
    by_cases hk : k0 = k
    · simp only [TMap.Add, hk, if_true, List.mem_cons] at hp
      rcases hp with hp | hp
      · right; exact hp
      · left; exact List.mem_cons_of_mem _ hp
    · simp only [TMap.Add, hk, if_false, List.mem_cons] at hp
      rcases hp with hp | hp
      · left; rw [hp]; exact List.mem_cons_self _ _
      · rcases ih hp with h1 | h1
        · left; exact List.mem_cons_of_mem _ h1
        · right; exact h1

theorem TMap.keys_Add_of_Find {K V : Type} [DecidableEq K] (m : TMap K V) (k : K) (v w : V)
    (h : TMap.Find m k = some w) : (TMap.Add m k v).map Prod.fst = m.map Prod.fst := by
  induction m with
  | nil => simp [TMap.Find] at h
  | cons hd tl ih =>
    obtain ⟨k0, v0⟩ := hd
    by_cases hk : k0 = k
    · simp [TMap.Add, hk]
    · simp only [TMap.Find, hk, if_false] at h
      simp [TMap.Add, hk, ih h]

theorem TMap.Find_eq_none_of_not_mem {K V : Type} [DecidableEq K] (m : TMap K V) (k : K)
    (h : k ∉ m.map Prod.fst) : TMap.Find m k = none := by
  induction m with
  | nil => rfl
  | cons hd tl ih =>
    obtain ⟨k0, v0⟩ := hd
    simp only [List.map_cons, List.mem_cons, not_or] at h
    simp [TMap.Find, Ne.symm h.1, ih h.2]

theorem TMap.Find_isSome_of_mem {K V : Type} [DecidableEq K] (m : TMap K V) (k : K)
    (h : k ∈ m.map Prod.fst) : ∃ v, TMap.Find m k = some v := by
  induction m with
  | nil => simp at h
  | cons hd tl ih =>
    obtain ⟨k0, v0⟩ := hd
    by_cases hk : k0 = k
    · exact ⟨v0, by simp [TMap.Find, hk]⟩
    · simp only [List.map_cons, List.mem_cons] at h
      rcases h with h | h
      · exact absurd h.symm hk
      · obtain ⟨v, hv⟩ := ih h
        exact ⟨v, by simp [TMap.Find, hk, hv]⟩

theorem RegenerateAttribute_none (s : UAttributeComponent) (t : FGameplayTag)
    (h : TMap.Find s.AttributeMap t = none) : RegenerateAttribute s t = s := by
  simp [RegenerateAttribute, h]

theorem RegenerateAttribute_noRegen (s : UAttributeComponent) (t : FGameplayTag)
    (a : FAttribute) (h : TMap.Find s.AttributeMap t = some a) (hr : a.bUseRegen = false) :
    RegenerateAttribute s t = s := by
  simp [RegenerateAttribute, h, hr]

theorem RegenerateAttribute_same (s : UAttributeComponent) (t : FGameplayTag)
    (a : FAttribute) (h : TMap.Find s.AttributeMap t = some a)
    (hc : a.Value = a.Regenerated) : RegenerateAttribute s t = s := by
  unfold FAttribute.Regenerated at hc
  simp only [RegenerateAttribute, h]
  rw [if_neg (not_not.mpr hc)]
  split_ifs <;> rfl

theorem RegenerateAttribute_changed (s : UAttributeComponent) (t : FGameplayTag)
    (a : FAttribute) (h : TMap.Find s.AttributeMap t = some a) (hr : a.bUseRegen = true)
    (hc : a.Value ≠ a.Regenerated) :
    (RegenerateAttribute s t).AttributeMap =
      TMap.Add s.AttributeMap t { a with Value := a.Regenerated } ∧
    (RegenerateAttribute s t).Broadcasts =
      s.Broadcasts ++ [.OnAttributeChanged a.AttributeTag a.Regenerated] ∧
    (RegenerateAttribute s t).RegenTimers =
      (if a.MaxValue ≤ a.Regenerated then
        (match TMap.Find s.RegenTimers t with
          | some _ => TMap.Add s.RegenTimers t none
          | none => s.RegenTimers)
       else s.RegenTimers) := by
  unfold FAttribute.Regenerated at hc ⊢
  simp only [RegenerateAttribute, h, hr, if_true, if_pos hc, Broadcast]
  split_ifs with h1
  · cases hF : TMap.Find s.RegenTimers t <;> simp
  · simp

theorem TagsAgree_of_Find (s : UAttributeComponent) (hT : s.TagsAgree) (t : FGameplayTag)
    (a : FAttribute) (h : TMap.Find s.AttributeMap t = some a) : a.AttributeTag = t :=
  hT (t, a) (TMap.Find_mem _ _ _ h)

theorem EventsAbout_append (t : FGameplayTag) (l l' : List Event) :
    EventsAbout t (l ++ l') = EventsAbout t l ++ EventsAbout t l' := by
  simp [EventsAbout]

theorem RegenerateAttribute_other (s : UAttributeComponent) (t t' : FGameplayTag)
    (hne : t' ≠ t) (hT : s.TagsAgree) : SameFor s (RegenerateAttribute s t') t := by
  cases h : TMap.Find s.AttributeMap t' with
  | none => rw [RegenerateAttribute_none s t' h]; exact ⟨rfl, rfl, rfl⟩
  | some a =>
    by_cases hr : a.bUseRegen = true
    · by_cases hc : a.Value = a.Regenerated
      · rw [RegenerateAttribute_same s t' a h hc]; exact ⟨rfl, rfl, rfl⟩
      · obtain ⟨h1, h2, h3⟩ := RegenerateAttribute_changed s t' a h hr hc
        refine ⟨?_, ?_, ?_⟩
        · rw [h1]; exact TMap.Find_Add_ne _ _ _ _ (Ne.symm hne)
        · rw [h3]
          split_ifs
          · cases hF : TMap.Find s.RegenTimers t' with
            | none => rfl
            | some hd => exact TMap.Find_Add_ne _ _ _ _ (Ne.symm hne)
          · rfl
        · rw [h2, EventsAbout_append, TagsAgree_of_Find s hT t' a h]
          simp [EventsAbout, Event.Tag, hne]
    · rw [RegenerateAttribute_noRegen s t' a h (by simpa using hr)]
      exact ⟨rfl, rfl, rfl⟩

theorem RegenerateAttribute_TagsAgree (s : UAttributeComponent) (t' : FGameplayTag)
    (hT : s.TagsAgree) : (RegenerateAttribute s t').TagsAgree := by
  rcases RegenerateAttribute_AttributeMap s t' with h1 | ⟨a, ha, h1⟩
  · unfold TagsAgree; rw [h1]; exact hT
  · unfold TagsAgree
    rw [h1]
    intro p hp
    rcases TMap.mem_Add _ _ _ p hp with hp | hp
    · exact hT p hp
    · rw [hp]
      exact TagsAgree_of_Find s hT t' a ha

theorem RegenerateAttribute_own (s : UAttributeComponent) (t : FGameplayTag) (a : FAttribute)
    (h : TMap.Find s.AttributeMap t = some a) (hr : a.bUseRegen = true)
    (htag : a.AttributeTag = t) : TickOutcome s (RegenerateAttribute s t) t a := by
  by_cases hc : a.Value = a.Regenerated
  · rw [RegenerateAttribute_same s t a h hc]
    refine ⟨?_, ?_, ?_⟩
    · rw [h, ← hc]
    · rw [if_neg (fun hh => hh.1 hc)]
    · rw [if_neg (not_not.mpr hc), List.append_nil]
  · obtain ⟨h1, h2, h3⟩ := RegenerateAttribute_changed s t a h hr hc
    refine ⟨?_, ?_, ?_⟩
    · rw [h1]; exact TMap.Find_Add_self _ _ _
    · rw [h3]
      by_cases hm : a.MaxValue ≤ a.Regenerated
      · rw [if_pos hm, if_pos ⟨hc, hm⟩]
        cases hF : TMap.Find s.RegenTimers t with
        | none => simpa using hF
        | some hd => simpa using TMap.Find_Add_self _ _ _
      · rw [if_neg hm, if_neg (fun hh => hm hh.2)]
    · rw [h2, EventsAbout_append, if_pos hc, htag]
      simp [EventsAbout, Event.Tag]

theorem RegenerateAttribute_foldl_other (l : List FGameplayTag) (t : FGameplayTag)
    (hl : t ∉ l) (s : UAttributeComponent) (hT : s.TagsAgree) :
    SameFor s (l.foldl RegenerateAttribute s) t ∧ (l.foldl RegenerateAttribute s).TagsAgree := by
  induction l generalizing s with
  | nil => exact ⟨⟨rfl, rfl, rfl⟩, hT⟩
  | cons x tl ih =>
    simp only [List.mem_cons, not_or] at hl
    obtain ⟨h1, h2, h3⟩ := RegenerateAttribute_other s t x (Ne.symm hl.1) hT
    obtain ⟨⟨g1, g2, g3⟩, gT⟩ := ih hl.2 (RegenerateAttribute s x)
      (RegenerateAttribute_TagsAgree s x hT)
    exact ⟨⟨g1.trans h1, g2.trans h2, g3.trans h3⟩, gT⟩

theorem RegenerateAttribute_foldl_own (l : List FGameplayTag) (t : FGameplayTag)
    (hn : l.Nodup) (hl : t ∈ l) (s : UAttributeComponent) (hT : s.TagsAgree) (a : FAttribute)
    (h : TMap.Find s.AttributeMap t = some a) (hr : a.bUseRegen = true) :
    TickOutcome s (l.foldl RegenerateAttribute s) t a := by
  induction l generalizing s with
  | nil => simp at hl
  | cons x tl ih =>
    have hn' := List.nodup_cons.mp hn
    by_cases hx : x = t
    · subst hx
      obtain ⟨⟨g1, g2, g3⟩, _⟩ := RegenerateAttribute_foldl_other tl x hn'.1
        (RegenerateAttribute s x) (RegenerateAttribute_TagsAgree s x hT)
      obtain ⟨o1, o2, o3⟩ := RegenerateAttribute_own s x a h hr (TagsAgree_of_Find s hT x a h)
      exact ⟨g1.trans o1, g2.trans o2, g3.trans o3⟩
    · have ht : t ∈ tl := by
        rcases List.mem_cons.mp hl with h0 | h0
        · exact absurd h0.symm hx
        · exact h0
      obtain ⟨h1, h2, h3⟩ := RegenerateAttribute_other s t x hx hT
      obtain ⟨o1, o2, o3⟩ := ih hn'.2 ht (RegenerateAttribute s x)
        (RegenerateAttribute_TagsAgree s x hT) (h1.trans h)
      refine ⟨o1, ?_, ?_⟩
      · rw [← h2]; exact o2
      · rw [← h3]; exact o3

theorem RegenerateAttributes_TagsAgree (s : UAttributeComponent) (hT : s.TagsAgree) :
    (RegenerateAttributes s).TagsAgree :=
  foldl_preserves RegenerateAttribute (fun s => s.TagsAgree)
    (fun s t hs => RegenerateAttribute_TagsAgree s t hs) _ s hT

/-- C14: one regen tick, for a tag of the timer table (whose keys are distinct, the
records being stored under their own tags).  If the tag is registered with
`bUseRegen` set, the tick stores `clamp(Value + RegenValue, MinValue, MaxValue)`;
it broadcasts `OnAttributeChanged(tag, new value)` exactly when the value changed;
it cancels the tag's timer when the value changed and the new value has reached
`MaxValue`, and in every other case, a tick without change included, leaves the
tag's handle as it was.  If the tag is no longer registered the tick skips it:
no record, the same handle, no broadcast about it. -/
theorem C14_regen_tick_postcondition (s : UAttributeComponent) (t : FGameplayTag)
    (hn : (s.RegenTimers.map Prod.fst).Nodup) (hT : s.TagsAgree)
    (hin : t ∈ s.RegenTimers.map Prod.fst) :
    (∀ a, TMap.Find s.AttributeMap t = some a → a.bUseRegen = true →
      TMap.Find (RegenerateAttributes s).AttributeMap t =
        some { a with Value := FMath.Clamp (a.Value + a.RegenValue) a.MinValue a.MaxValue } ∧
      EventsAbout t (RegenerateAttributes s).Broadcasts =
        EventsAbout t s.Broadcasts ++
          (if FMath.Clamp (a.Value + a.RegenValue) a.MinValue a.MaxValue ≠ a.Value then
            [Event.OnAttributeChanged t
              (FMath.Clamp (a.Value + a.RegenValue) a.MinValue a.MaxValue)]
           else []) ∧
      (FMath.Clamp (a.Value + a.RegenValue) a.MinValue a.MaxValue ≠ a.Value ∧
        a.MaxValue ≤ FMath.Clamp (a.Value + a.RegenValue) a.MinValue a.MaxValue →
          (RegenerateAttributes s).TimerActive t = false) ∧
      (¬ (FMath.Clamp (a.Value + a.RegenValue) a.MinValue a.MaxValue ≠ a.Value ∧
        a.MaxValue ≤ FMath.Clamp (a.Value + a.RegenValue) a.MinValue a.MaxValue) →
          TMap.Find (RegenerateAttributes s).RegenTimers t = TMap.Find s.RegenTimers t)) ∧
    (TMap.Find s.AttributeMap t = none →
      RegenerateAttribute s t = s ∧
      TMap.Find (RegenerateAttributes s).AttributeMap t = none ∧
      TMap.Find (RegenerateAttributes s).RegenTimers t = TMap.Find s.RegenTimers t ∧
      EventsAbout t (RegenerateAttributes s).Broadcasts = EventsAbout t s.Broadcasts) := by
  constructor
  · intro a h hr
    obtain ⟨o1, o2, o3⟩ := RegenerateAttribute_foldl_own _ t hn hin s hT a h hr
    simp only [FAttribute.Regenerated] at o1 o2 o3
    refine ⟨o1, ?_, ?_, ?_⟩
    · rw [show RegenerateAttributes s = (s.RegenTimers.map Prod.fst).foldl RegenerateAttribute s
        from rfl, o3]
      by_cases hc : a.Value = FMath.Clamp (a.Value + a.RegenValue) a.MinValue a.MaxValue
      · rw [if_neg (not_not.mpr hc), if_neg (not_not.mpr hc.symm)]
      · rw [if_pos hc, if_pos (Ne.symm hc)]
    · intro hh
      have : TMap.Find (RegenerateAttributes s).RegenTimers t =
          (TMap.Find s.RegenTimers t).map (fun _ => none) := by
        rw [show RegenerateAttributes s =
          (s.RegenTimers.map Prod.fst).foldl RegenerateAttribute s from rfl, o2,
          if_pos ⟨Ne.symm hh.1, hh.2⟩]
      unfold TimerActive
      rw [this]
      cases TMap.Find s.RegenTimers t <;> rfl
    · intro hh
      rw [show RegenerateAttributes s = (s.RegenTimers.map Prod.fst).foldl RegenerateAttribute s
        from rfl, o2, if_neg (fun h2 => hh ⟨Ne.symm h2.1, h2.2⟩)]
  · intro h
    refine ⟨RegenerateAttribute_none s t h, ?_⟩
    have key : ∀ (l : List FGameplayTag) (s0 : UAttributeComponent), s0.TagsAgree →
        TMap.Find s0.AttributeMap t = none →
        SameFor s0 (l.foldl RegenerateAttribute s0) t := by
      intro l
      induction l with
      | nil => intro s0 _ _; exact ⟨rfl, rfl, rfl⟩
      | cons x tl ih =>
        intro s0 hT0 h0
        by_cases hx : x = t
        · subst hx
          rw [List.foldl_cons, RegenerateAttribute_none s0 x h0]
          exact ih s0 hT0 h0
        · obtain ⟨h1, h2, h3⟩ := RegenerateAttribute_other s0 t x hx hT0
          obtain ⟨g1, g2, g3⟩ := ih (RegenerateAttribute s0 x)
            (RegenerateAttribute_TagsAgree s0 x hT0) (h1.trans h0)
          exact ⟨g1.trans h1, g2.trans h2, g3.trans h3⟩
    obtain ⟨k1, k2, k3⟩ := key (s.RegenTimers.map Prod.fst) s hT h
    exact ⟨k1.trans h, k2, k3⟩

/-- C14 at work: one tick on the started health attribute (50 in `[0, 100]`,
regenerating 10) stores 60. -/
theorem C14_regen_tick_postcondition_witness :
    TMap.Find (RegenerateAttributes (started [Health50])).AttributeMap HealthTag =
      some { Health50 with
        Value := FMath.Clamp (Health50.Value + Health50.RegenValue)
          Health50.MinValue Health50.MaxValue } ∧
    GetAttributeValue (RegenerateAttributes (started [Health50])) HealthTag = 60 :=
  ⟨((C14_regen_tick_postcondition (started [Health50]) HealthTag (by decide) (by decide)
      (by decide)).1 Health50 (by decide) (by decide)).1, by decide⟩

/-! ## Regeneration up to the ceiling -/

theorem RegenerateAttribute_keys (s : UAttributeComponent) (t : FGameplayTag) :
    (RegenerateAttribute s t).RegenTimers.map Prod.fst = s.RegenTimers.map Prod.fst := by
  cases h : TMap.Find s.AttributeMap t with
  | none => rw [RegenerateAttribute_none s t h]
  | some a =>
    by_cases hr : a.bUseRegen = true
    · by_cases hc : a.Value = a.Regenerated
      · rw [RegenerateAttribute_same s t a h hc]
      · rw [(RegenerateAttribute_changed s t a h hr hc).2.2]
        split_ifs
        · cases hF : TMap.Find s.RegenTimers t with
          | none => rfl
          | some hd => exact TMap.keys_Add_of_Find _ _ _ _ hF
        · rfl
    · rw [RegenerateAttribute_noRegen s t a h (by simpa using hr)]

theorem RegenerateAttributes_keys (s : UAttributeComponent) :
    (RegenerateAttributes s).RegenTimers.map Prod.fst = s.RegenTimers.map Prod.fst :=
  foldl_preserves RegenerateAttribute
    (fun s' => s'.RegenTimers.map Prod.fst = s.RegenTimers.map Prod.fst)
    (fun s' t hs => (RegenerateAttribute_keys s' t).trans hs) _ s rfl

theorem Regenerated_eq_min (a : FAttribute) (h1 : a.MinValue ≤ a.Value)
    (h2 : a.Value ≤ a.MaxValue) (hr : 0 < a.RegenValue) :
    a.Regenerated = min a.MaxValue (a.Value + a.RegenValue) := by
  unfold FAttribute.Regenerated
  rw [FMath.Clamp_eq_max_min, min_comm]
  exact max_eq_right (le_min (le_trans h1 h2) (by linarith))

theorem min_step (M v r : ℚ) (k : ℕ) (hr : 0 < r) :
    min M (min M (v + r) + (k : ℚ) * r) = min M (v + ((k + 1 : ℕ) : ℚ) * r) := by
  have hk : (0 : ℚ) ≤ (k : ℚ) * r := mul_nonneg (Nat.cast_nonneg k) hr.le
  push_cast
  rcases le_or_lt (v + r) M with h | h
  · rw [min_eq_right h]
    congr 1
    ring
  · rw [min_eq_left h.le, min_eq_left (by linarith), min_eq_left]
    have : v + (↑k + 1) * r = v + r + ↑k * r := by ring
    rw [this]
    linarith

theorem Ticks_regen (t : FGameplayTag) (k : ℕ) :
    ∀ (s : UAttributeComponent) (a : FAttribute),
      (s.RegenTimers.map Prod.fst).Nodup → s.TagsAgree → t ∈ s.RegenTimers.map Prod.fst →
      TMap.Find s.AttributeMap t = some a → a.bUseRegen = true →
      a.MinValue ≤ a.Value → a.Value ≤ a.MaxValue → 0 < a.RegenValue →
      (s.TimerActive t = true ↔ a.Value < a.MaxValue) →
      TMap.Find (Ticks k s).AttributeMap t =
        some { a with Value := min a.MaxValue (a.Value + (k : ℚ) * a.RegenValue) } ∧
      ((Ticks k s).TimerActive t = true ↔
        min a.MaxValue (a.Value + (k : ℚ) * a.RegenValue) < a.MaxValue) := by
  induction k with
  | zero =>
    intro s a _ _ _ h _ _ h2 _ hact
    have hv : min a.MaxValue (a.Value + ((0 : ℕ) : ℚ) * a.RegenValue) = a.Value := by
      simp [h2]
    rw [hv]
    exact ⟨h, hact⟩
  | succ k ih =>
    intro s a hn hT hin h hr h1 h2 hpos hact
    obtain ⟨o1, o2, _⟩ := RegenerateAttribute_foldl_own _ t hn hin s hT a h hr
    have hreg := Regenerated_eq_min a h1 h2 hpos
    have hle : a.Regenerated ≤ a.MaxValue := by rw [hreg]; exact min_le_left _ _
    have hge : a.MinValue ≤ a.Regenerated := by
      rw [hreg]; exact le_min (le_trans h1 h2) (by linarith)
    have hact' : (RegenerateAttributes s).TimerActive t = true ↔
        a.Regenerated < a.MaxValue := by
      have hF : TMap.Find (RegenerateAttributes s).RegenTimers t =
          (if a.Value ≠ a.Regenerated ∧ a.MaxValue ≤ a.Regenerated then
            (TMap.Find s.RegenTimers t).map (fun _ => none)
           else TMap.Find s.RegenTimers t) := o2
      unfold TimerActive at hact ⊢
      rw [hF]
      by_cases hc : a.Value ≠ a.Regenerated ∧ a.MaxValue ≤ a.Regenerated
      · rw [if_pos hc]
        have : ¬ a.Regenerated < a.MaxValue := not_lt.mpr hc.2
        cases TMap.Find s.RegenTimers t <;> simp [IsTimerActive, this]
      · rw [if_neg hc, hact]
        rcases lt_or_eq_of_le h2 with hlt | heq
        · have hne : a.Value ≠ a.Regenerated := by
            rw [hreg]
            intro he
            have := lt_min hlt (show a.Value < a.Value + a.RegenValue by linarith)
            rw [← he] at this
            exact lt_irrefl _ this
          have hlt2 : a.Regenerated < a.MaxValue :=
            lt_of_not_le (fun hm => hc ⟨hne, hm⟩)
          exact ⟨fun _ => hlt2, fun _ => hlt⟩
        · have hM : a.Regenerated = a.MaxValue := by
            rw [hreg, heq]; exact min_eq_left (by linarith)
          rw [hM, heq]
    have key := ih (RegenerateAttributes s) { a with Value := a.Regenerated }
      (by rw [RegenerateAttributes_keys]; exact hn) (RegenerateAttributes_TagsAgree s hT)
      (by rw [RegenerateAttributes_keys]; exact hin) o1 hr hge hle hpos hact'
    have hstep := min_step a.MaxValue a.Value a.RegenValue k hpos
    simp only [hreg] at key
    rw [hstep] at key
    exact key

set_option maxRecDepth 100000

/-- With exact sums: for a registered tag with `bUseRegen` set,
`MinValue ≤ Value < MaxValue`, `RegenValue > 0` and a running regen timer (the keys
of the timer table being distinct and the records stored under their own tags),
after `k` passes of `RegenerateAttributes` the value is
`min(MaxValue, Value + k * RegenValue)`, and the timer runs exactly when that value
is still below `MaxValue`. -/
theorem Ticks_converges_exact (s : UAttributeComponent) (t : FGameplayTag) (a : FAttribute)
    (k : ℕ) (hn : (s.RegenTimers.map Prod.fst).Nodup) (hT : s.TagsAgree)
    (h : TMap.Find s.AttributeMap t = some a) (hr : a.bUseRegen = true)
    (h1 : a.MinValue ≤ a.Value) (h2 : a.Value < a.MaxValue) (hpos : 0 < a.RegenValue)
    (hact : s.TimerActive t = true) :
    GetAttributeValue (Ticks k s) t = min a.MaxValue (a.Value + (k : ℚ) * a.RegenValue) ∧
    TMap.Find (Ticks k s).AttributeMap t =
      some { a with Value := min a.MaxValue (a.Value + (k : ℚ) * a.RegenValue) } ∧
    ((Ticks k s).TimerActive t = true ↔ GetAttributeValue (Ticks k s) t < a.MaxValue) := by
  have hin : t ∈ s.RegenTimers.map Prod.fst := by
    by_contra hc
    have := TMap.Find_eq_none_of_not_mem _ _ hc
    simp [TimerActive, this, IsTimerActive] at hact
  obtain ⟨g1, g2⟩ := Ticks_regen t k s a hn hT hin h hr h1 h2.le hpos
    ⟨fun _ => h2, fun _ => hact⟩
  have hv : GetAttributeValue (Ticks k s) t =
      min a.MaxValue (a.Value + (k : ℚ) * a.RegenValue) := by
    simp [GetAttributeValue, g1]
  exact ⟨hv, g1, by rw [hv]; exact g2⟩

theorem RegenerateAttributeBinary32_of_exact (s : UAttributeComponent) (t : FGameplayTag)
    (hex : ∀ a, TMap.Find s.AttributeMap t = some a → a.bUseRegen = true →
      Binary32.Add a.Value a.RegenValue = a.Value + a.RegenValue) :
    RegenerateAttributeBinary32 s t = RegenerateAttribute s t := by
  cases h : TMap.Find s.AttributeMap t with
  | none => simp [RegenerateAttributeBinary32, RegenerateAttribute, h]
  | some a =>
    by_cases hr : a.bUseRegen = true
    · simp only [RegenerateAttributeBinary32, RegenerateAttribute, h, hex a h hr]
    · simp [RegenerateAttributeBinary32, RegenerateAttribute, h, hr]

theorem RegenerateAttribute_of_OnlyRegen (s : UAttributeComponent) (t x : FGameplayTag)
    (ho : s.OnlyRegen t) (hx : x ≠ t) :
    RegenerateAttributeBinary32 s x = s ∧ RegenerateAttribute s x = s := by
  cases h : TMap.Find s.AttributeMap x with
  | none => simp [RegenerateAttributeBinary32, RegenerateAttribute, h]
  | some a =>
    have hr : a.bUseRegen = false := ho (x, a) (TMap.Find_mem _ _ _ h) hx
    simp [RegenerateAttributeBinary32, RegenerateAttribute, h, hr]

theorem RegenerateAttribute_OnlyRegen (s : UAttributeComponent) (t x : FGameplayTag)
    (ho : s.OnlyRegen t) : (RegenerateAttribute s x).OnlyRegen t := by
  by_cases hx : x = t
  · subst hx
    rcases RegenerateAttribute_AttributeMap s x with h1 | ⟨a, _, h1⟩
    · unfold OnlyRegen; rw [h1]; exact ho
    · unfold OnlyRegen
      rw [h1]
      intro p hp hne
      rcases TMap.mem_Add _ _ _ p hp with hp | hp
      · exact ho p hp hne
      · rw [hp] at hne
        exact absurd rfl hne
  · rw [(RegenerateAttribute_of_OnlyRegen s t x ho hx).2]
    exact ho

theorem RegenerateAttributes_OnlyRegen (s : UAttributeComponent) (t : FGameplayTag)
    (ho : s.OnlyRegen t) : (RegenerateAttributes s).OnlyRegen t :=
  foldl_preserves RegenerateAttribute (fun s' => s'.OnlyRegen t)
    (fun s' x hs => RegenerateAttribute_OnlyRegen s' t x hs) _ s ho

theorem foldl_of_OnlyRegen (l : List FGameplayTag) (t : FGameplayTag) (hl : t ∉ l)
    (s : UAttributeComponent) (ho : s.OnlyRegen t) :
    l.foldl RegenerateAttributeBinary32 s = s ∧ l.foldl RegenerateAttribute s = s := by
  induction l with
  | nil => exact ⟨rfl, rfl⟩
  | cons x tl ih =>
    simp only [List.mem_cons, not_or] at hl
    obtain ⟨e1, e2⟩ := RegenerateAttribute_of_OnlyRegen s t x ho (Ne.symm hl.1)
    rw [List.foldl_cons, List.foldl_cons, e1, e2]
    exact ih hl.2

theorem foldl_Binary32_eq (l : List FGameplayTag) (t : FGameplayTag) (hn : l.Nodup)
    (s : UAttributeComponent) (ho : s.OnlyRegen t)
    (hex : ∀ a, TMap.Find s.AttributeMap t = some a → a.bUseRegen = true →
      Binary32.Add a.Value a.RegenValue = a.Value + a.RegenValue) :
    l.foldl RegenerateAttributeBinary32 s = l.foldl RegenerateAttribute s := by
  induction l with
  | nil => rfl
  | cons x tl ih =>
    have hn' := List.nodup_cons.mp hn
    by_cases hx : x = t
    · subst hx
      rw [List.foldl_cons, List.foldl_cons, RegenerateAttributeBinary32_of_exact s x hex]
      obtain ⟨e1, e2⟩ := foldl_of_OnlyRegen tl x hn'.1 (RegenerateAttribute s x)
        (RegenerateAttribute_OnlyRegen s x x ho)
      rw [e1, e2]
    · obtain ⟨e1, e2⟩ := RegenerateAttribute_of_OnlyRegen s t x ho hx
      rw [List.foldl_cons, List.foldl_cons, e1, e2]
      exact ih hn'.2

theorem TicksBinary32_eq_Ticks (t : FGameplayTag) (k : ℕ) :
    ∀ (s : UAttributeComponent) (a : FAttribute),
      (s.RegenTimers.map Prod.fst).Nodup → s.TagsAgree → t ∈ s.RegenTimers.map Prod.fst →
      TMap.Find s.AttributeMap t = some a → a.bUseRegen = true →
      a.MinValue ≤ a.Value → a.Value ≤ a.MaxValue → 0 < a.RegenValue → s.OnlyRegen t →
      (∀ j : ℕ, j < k →
        Binary32.Add (min a.MaxValue (a.Value + (j : ℚ) * a.RegenValue)) a.RegenValue =
          min a.MaxValue (a.Value + (j : ℚ) * a.RegenValue) + a.RegenValue) →
      TicksBinary32 k s = Ticks k s := by
  induction k with
  | zero => intro s a _ _ _ _ _ _ _ _ _ _; rfl
  | succ k ih =>
    intro s a hn hT hin h hr h1 h2 hpos ho hex
    have h0 : Binary32.Add a.Value a.RegenValue = a.Value + a.RegenValue := by
      have := hex 0 (Nat.succ_pos k)
      simpa [h2] using this
    have hpass : RegenerateAttributesBinary32 s = RegenerateAttributes s := by
      refine foldl_Binary32_eq _ t hn s ho ?_
      intro a' ha' _
      rw [h] at ha'
      cases ha'
      exact h0
    obtain ⟨o1, _, _⟩ := RegenerateAttribute_foldl_own _ t hn hin s hT a h hr
    have hreg := Regenerated_eq_min a h1 h2 hpos
    have hle : a.Regenerated ≤ a.MaxValue := by rw [hreg]; exact min_le_left _ _
    have hge : a.MinValue ≤ a.Regenerated := by
      rw [hreg]; exact le_min (le_trans h1 h2) (by linarith)
    show TicksBinary32 k (RegenerateAttributesBinary32 s) = Ticks k (RegenerateAttributes s)
    rw [hpass]
    refine ih (RegenerateAttributes s) { a with Value := a.Regenerated }
      (by rw [RegenerateAttributes_keys]; exact hn) (RegenerateAttributes_TagsAgree s hT)
      (by rw [RegenerateAttributes_keys]; exact hin) o1 hr hge hle hpos
      (RegenerateAttributes_OnlyRegen s t ho) ?_
    intro j hj
    have hs := min_step a.MaxValue a.Value a.RegenValue j hpos
    have := hex (j + 1) (Nat.succ_lt_succ hj)
    simp only [hreg]
    rw [hs]
    exact this

/-- C15 (as amended): regeneration converges to the ceiling and then stops as long as
the sums are exact.  For a registered tag, the only regenerating one, with
`MinValue ≤ Value < MaxValue`, `RegenValue > 0` and a running regen timer (the keys of
the timer table being distinct and the records stored under their own tags): if
each sum `min(MaxValue, Value + j * RegenValue) + RegenValue` with `j < k` is a `float`
sum without rounding, then after `k` ticks computed with the `float` addition the
value is `min(MaxValue, Value + k * RegenValue)`, and the timer runs after `k` ticks
exactly when that value is still below `MaxValue`: it is inactive from the first
tick at which the value equals `MaxValue`. -/
theorem C15_regen_converges_when_sums_exact (s : UAttributeComponent) (t : FGameplayTag)
    (a : FAttribute) (k : ℕ) (hn : (s.RegenTimers.map Prod.fst).Nodup) (hT : s.TagsAgree)
    (h : TMap.Find s.AttributeMap t = some a) (hr : a.bUseRegen = true)
    (h1 : a.MinValue ≤ a.Value) (h2 : a.Value < a.MaxValue) (hpos : 0 < a.RegenValue)
    (hact : s.TimerActive t = true) (ho : s.OnlyRegen t)
    (hex : ∀ j : ℕ, j < k →
      Binary32.Add (min a.MaxValue (a.Value + (j : ℚ) * a.RegenValue)) a.RegenValue =
        min a.MaxValue (a.Value + (j : ℚ) * a.RegenValue) + a.RegenValue) :
    GetAttributeValue (TicksBinary32 k s) t =
      min a.MaxValue (a.Value + (k : ℚ) * a.RegenValue) ∧
    TMap.Find (TicksBinary32 k s).AttributeMap t =
      some { a with Value := min a.MaxValue (a.Value + (k : ℚ) * a.RegenValue) } ∧
    ((TicksBinary32 k s).TimerActive t = true ↔
      GetAttributeValue (TicksBinary32 k s) t < a.MaxValue) := by
  have hin : t ∈ s.RegenTimers.map Prod.fst := by
    by_contra hc
    have := TMap.Find_eq_none_of_not_mem _ _ hc
    simp [TimerActive, this, IsTimerActive] at hact
  rw [TicksBinary32_eq_Ticks t k s a hn hT hin h hr h1 h2.le hpos ho hex]
  exact Ticks_converges_exact s t a k hn hT h hr h1 h2 hpos hact

/-- C15 at work, the scenario of the specification: on a health of 50 in `[0, 100]`
regenerating 10, `Subtract 30` yields 20, broadcasts `OnAttributeChanged(Health, 20)`
and leaves the timer running; one tick gives 30; the eight sums 20 + 10, ...,
90 + 10 are exact, and eight ticks give `min(100, 20 + 8 * 10) = 100` with the timer
inactive. -/
theorem C15_regen_converges_when_sums_exact_witness :
    (GetAttributeValue (SetAttributeValue (started [Health50]) HealthTag 30 .Subtract) HealthTag
        = 20 ∧
      (SetAttributeValue (started [Health50]) HealthTag 30 .Subtract).Broadcasts =
        (started [Health50]).Broadcasts ++
          [.OnPreAttributeChanged HealthTag 20, .OnAttributeChanged HealthTag 20] ∧
      (SetAttributeValue (started [Health50]) HealthTag 30 .Subtract).TimerActive HealthTag
        = true) ∧
    GetAttributeValue
      (TicksBinary32 1 (SetAttributeValue (started [Health50]) HealthTag 30 .Subtract))
      HealthTag = 30 ∧
    GetAttributeValue
      (TicksBinary32 8 (SetAttributeValue (started [Health50]) HealthTag 30 .Subtract))
      HealthTag = min 100 (20 + ((8 : ℕ) : ℚ) * 10) ∧
    GetAttributeValue
      (TicksBinary32 8 (SetAttributeValue (started [Health50]) HealthTag 30 .Subtract))
      HealthTag = 100 ∧
    (TicksBinary32 8
      (SetAttributeValue (started [Health50]) HealthTag 30 .Subtract)).TimerActive
      HealthTag = false :=
  ⟨by decide, by decide,
    (C15_regen_converges_when_sums_exact
      (SetAttributeValue (started [Health50]) HealthTag 30 .Subtract)
      HealthTag { Health50 with Value := 20 } 8 (by decide) (by decide) (by decide)
      (by decide) (by decide) (by decide) (by decide) (by decide) (by decide)
      (by decide)).1,
    by decide, by decide⟩

/-- C15 as stated fails.  The started component with the health attribute
`Value = 16777216`, `MinValue = 0`, `MaxValue = 100000000`, `RegenValue = 1`,
`RegenRate = 1` (all binary32 numbers) meets every condition of the claim: the only
attribute, regenerating, `MinValue ≤ Value < MaxValue`, a running timer.  The `float`
sum `16777216 + 1` is `16777216`, so a tick changes nothing: after one tick the value
is still 16777216 and not `min(100000000, 16777216 + 1) = 16777217`, and no number
of ticks changes the component, so the value never reaches `MaxValue` and the timer
never stops. -/
theorem C15_counterexample :
    (TMap.Find (started [Health16M]).AttributeMap HealthTag = some Health16M ∧
      (started [Health16M]).OnlyRegen HealthTag ∧
      Health16M.bUseRegen = true ∧ Health16M.MinValue ≤ Health16M.Value ∧
      Health16M.Value < Health16M.MaxValue ∧ 0 < Health16M.RegenValue ∧
      0 < Health16M.RegenRate ∧ (started [Health16M]).TimerActive HealthTag = true) ∧
    (Binary32.Round Health16M.Value = Health16M.Value ∧
      Binary32.Round Health16M.MinValue = Health16M.MinValue ∧
      Binary32.Round Health16M.MaxValue = Health16M.MaxValue ∧
      Binary32.Round Health16M.RegenValue = Health16M.RegenValue) ∧
    Binary32.Add 16777216 1 = 16777216 ∧
    RegenerateAttributesBinary32 (started [Health16M]) = started [Health16M] ∧
    GetAttributeValue (TicksBinary32 1 (started [Health16M])) HealthTag = 16777216 ∧
    min Health16M.MaxValue (Health16M.Value + ((1 : ℕ) : ℚ) * Health16M.RegenValue)
      = 16777217 ∧
    (∀ k : ℕ, TicksBinary32 k (started [Health16M]) = started [Health16M]) := by
  have hpass : RegenerateAttributesBinary32 (started [Health16M]) = started [Health16M] := by
    decide
  refine ⟨by decide, by decide, by decide, hpass, by decide, by decide, ?_⟩
  intro k
  induction k with
  | zero => rfl
  | succ k ih =>
    show TicksBinary32 k (RegenerateAttributesBinary32 (started [Health16M])) = _
    rw [hpass]
    exact ih

/-! ## Turning regeneration off -/

/-- C13, the code at the failing input: on the started health attribute (50 in
`[0, 100]`, regenerating) a regen timer runs; `SetUseRegen(Health, false)` clears
the flag but leaves the timer table as it was, so the timer still runs. -/
theorem C13_SetUseRegen_false_keeps_timer :
    (started [Health50]).TimerActive HealthTag = true ∧
    ((SetUseRegen (started [Health50]) HealthTag false).GetAttribute HealthTag).bUseRegen
      = false ∧
    (SetUseRegen (started [Health50]) HealthTag false).RegenTimers =
      (started [Health50]).RegenTimers ∧
    (SetUseRegen (started [Health50]) HealthTag false).RegenTimers = [(HealthTag, some 1)] ∧
    (SetUseRegen (started [Health50]) HealthTag false).TimerActive HealthTag = true := by
  decide

/-! ## Adding and removing attributes -/

/-- C18: `AddAttribute` with a tag that is already registered and `RemoveAttribute` with
a tag that is not registered return the component as it was: attribute list, tag
index, modifier list, regen timers and the broadcast log are all unchanged. -/
theorem C18_failing_registry_operations_are_noops (s : UAttributeComponent) :
    (∀ NewAttribute : FAttribute, IsValidAttribute s NewAttribute.AttributeTag = true →
      AddAttribute s NewAttribute = s) ∧
    (∀ t : FGameplayTag, IsValidAttribute s t = false → RemoveAttribute s t = s) := by
  constructor
  · intro a h
    simp [AddAttribute, h]
  · intro t h
    simp [RemoveAttribute, h]

/-- C18 at work: adding a second health attribute to, and removing the mana attribute
from, the started health-only component. -/
theorem C18_failing_registry_operations_are_noops_witness :
    AddAttribute (started [Health50]) Health100 = started [Health50] ∧
    RemoveAttribute (started [Health50]) "Attribute.Mana" = started [Health50] :=
  ⟨(C18_failing_registry_operations_are_noops (started [Health50])).1 Health100 (by decide),
   (C18_failing_registry_operations_are_noops (started [Health50])).2 "Attribute.Mana"
     (by decide)⟩

/-- C19, the code at the failing input: after `SetAttributeValue(Health, 30, Subtract)`
the health value read by `GetAttribute` is 20; adding the mana attribute rebuilds
the tag index from the attribute array, which still holds 50, and so does removing
the mana attribute from a component that has both. -/
theorem C19_add_remove_reset_other_attributes :
    ((SetAttributeValue (started [Health50]) HealthTag 30 .Subtract).GetAttribute
        HealthTag).Value = 20 ∧
    IsValidAttribute (SetAttributeValue (started [Health50]) HealthTag 30 .Subtract)
      Mana30.AttributeTag = false ∧
    ((AddAttribute (SetAttributeValue (started [Health50]) HealthTag 30 .Subtract)
        Mana30).GetAttribute HealthTag).Value = 50 ∧
    ((SetAttributeValue (started [Health50, Mana30]) HealthTag 30 .Subtract).GetAttribute
        HealthTag).Value = 20 ∧
    IsValidAttribute (SetAttributeValue (started [Health50, Mana30]) HealthTag 30 .Subtract)
      Mana30.AttributeTag = true ∧
    ((RemoveAttribute (SetAttributeValue (started [Health50, Mana30]) HealthTag 30 .Subtract)
        Mana30.AttributeTag).GetAttribute HealthTag).Value = 50 := by
  decide

theorem InitializeAttributeMap_Find_none (l : List FAttribute) (t : FGameplayTag)
    (hl : ∀ a ∈ l, a.AttributeTag ≠ t) (acc : TMap FGameplayTag FAttribute)
    (hacc : TMap.Find acc t = none) :
    TMap.Find (l.foldl (fun m Attribute => TMap.Add m Attribute.AttributeTag Attribute) acc) t
      = none := by
  induction l generalizing acc with
  | nil => exact hacc
  | cons x tl ih =>
    rw [List.foldl_cons]
    apply ih (fun a ha => hl a (List.mem_cons_of_mem _ ha))
    rw [TMap.Find_Add_ne _ _ _ _ (Ne.symm (hl x (List.mem_cons_self _ _)))]
    exact hacc

/-- C20: after `RemoveAttribute(T)` of a registered tag, `IsValidAttribute(T)` is false,
`GetAttributeValue(T)` is 0, the enumeration `GetAllAttributes` holds no entry with
tag `T`, and the call has broadcast exactly `OnAttributeChanged(T, 0)` followed by
`OnAttributeRemoved(T)`. -/
theorem C20_RemoveAttribute_unregisters (s : UAttributeComponent) (t : FGameplayTag)
    (h : IsValidAttribute s t = true) :
    IsValidAttribute (RemoveAttribute s t) t = false ∧
    GetAttributeValue (RemoveAttribute s t) t = 0 ∧
    (∀ a ∈ GetAllAttributes (RemoveAttribute s t), a.AttributeTag ≠ t) ∧
    (RemoveAttribute s t).Broadcasts =
      s.Broadcasts ++ [.OnAttributeChanged t 0, .OnAttributeRemoved t] := by
  have hkept : ∀ a ∈ s.Attributes.filter (fun Attribute =>
      decide (¬ Attribute.AttributeTag = t)), a.AttributeTag ≠ t := by
    intro a ha
    simpa using (List.mem_filter.mp ha).2
  have hF : TMap.Find (RemoveAttribute s t).AttributeMap t = none := by
    simp only [RemoveAttribute, h, if_true, Broadcast, InitializeAttributeMap]
    exact InitializeAttributeMap_Find_none _ t hkept [] rfl
  refine ⟨?_, ?_, ?_, ?_⟩
  · simp [IsValidAttribute, TMap.Contains, hF]
  · simp [GetAttributeValue, hF]
  · simp only [RemoveAttribute, h, if_true, Broadcast, InitializeAttributeMap,
      GetAllAttributes]
    exact hkept
  · simp [RemoveAttribute, h, Broadcast, InitializeAttributeMap]

/-- C20 at work: removing the mana attribute from the started component with health
and mana. -/
theorem C20_RemoveAttribute_unregisters_witness :
    IsValidAttribute (RemoveAttribute (started [Health50, Mana30]) "Attribute.Mana")
      "Attribute.Mana" = false ∧
    GetAllAttributes (RemoveAttribute (started [Health50, Mana30]) "Attribute.Mana")
      = [Health50] :=
  ⟨(C20_RemoveAttribute_unregisters (started [Health50, Mana30]) "Attribute.Mana"
      (by decide)).1, by decide⟩

/-! ## Restore -/

theorem RestorePair_fst (P : UAttributeSaveGame) (q : FGameplayTag × FAttribute) :
    (RestorePair P q).1 = q.1 := by
  unfold RestorePair
  split <;> rfl

theorem Find_map_RestorePair (P : UAttributeSaveGame) (m : TMap FGameplayTag FAttribute)
    (t : FGameplayTag) :
    TMap.Find (m.map (RestorePair P)) t =
      (TMap.Find m t).map (fun a => (RestorePair P (t, a)).2) := by
  induction m with
  | nil => rfl
  | cons hd tl ih =>
    obtain ⟨k, a⟩ := hd
    have h1 : RestorePair P (k, a) = (k, (RestorePair P (k, a)).2) :=
      Prod.ext (RestorePair_fst P (k, a)) rfl
    rw [List.map_cons, h1]
    by_cases hk : k = t
    · subst hk
      simp [TMap.Find]
    · simp [TMap.Find, hk, ih]

theorem keys_map_RestorePair (P : UAttributeSaveGame) (m : TMap FGameplayTag FAttribute) :
    (m.map (RestorePair P)).map Prod.fst = m.map Prod.fst := by
  rw [List.map_map]
  apply List.map_congr_left
  intro q _
  exact RestorePair_fst P q

theorem filterMap_RestoreEvent (P : UAttributeSaveGame) (m : TMap FGameplayTag FAttribute) :
    m.filterMap (RestoreEvent P) =
      (m.map Prod.fst).filterMap (fun t => (TMap.Find P t).map (Event.OnAttributeChanged t)) := by
  rw [List.filterMap_map]
  apply List.filterMap_congr
  intro q _
  unfold RestoreEvent
  cases hq : TMap.Find P q.1 <;> simp [hq]

theorem EventsAbout_restore (P : UAttributeSaveGame) (t : FGameplayTag)
    (l : List FGameplayTag) (hl : l.Nodup) :
    EventsAbout t (l.filterMap (fun t' => (TMap.Find P t').map (Event.OnAttributeChanged t'))) =
      (if t ∈ l then
        (match TMap.Find P t with
          | some v => [Event.OnAttributeChanged t v]
          | none => [])
       else []) := by
  induction l with
  | nil => rfl
  | cons x tl ih =>
    have hn := List.nodup_cons.mp hl
    by_cases hx : x = t
    · subst hx
      have htl : EventsAbout x
          (tl.filterMap (fun t' => (TMap.Find P t').map (Event.OnAttributeChanged t'))) = [] := by
        rw [ih hn.2, if_neg hn.1]
      rw [if_pos (List.mem_cons_self _ _)]
      cases hP : TMap.Find P x with
      | none =>
        rw [List.filterMap_cons_none (by simp [hP])]
        exact htl
      | some v =>
        rw [List.filterMap_cons_some (by simp [hP] : _ = some (Event.OnAttributeChanged x v))]
        have : EventsAbout x (Event.OnAttributeChanged x v ::
            tl.filterMap (fun t' => (TMap.Find P t').map (Event.OnAttributeChanged t'))) =
            Event.OnAttributeChanged x v :: EventsAbout x
              (tl.filterMap (fun t' => (TMap.Find P t').map (Event.OnAttributeChanged t'))) := by
          simp [EventsAbout, Event.Tag]
        rw [this, htl]
    · have hmem : (t ∈ x :: tl) ↔ t ∈ tl := by
        simp [Ne.symm hx]
      have hrest := ih hn.2
      cases hP : TMap.Find P x with
      | none =>
        rw [List.filterMap_cons_none (by simp [hP]), hrest]
        simp only [hmem]
      | some v =>
        rw [List.filterMap_cons_some (by simp [hP] : _ = some (Event.OnAttributeChanged x v))]
        have : EventsAbout t (Event.OnAttributeChanged x v ::
            tl.filterMap (fun t' => (TMap.Find P t').map (Event.OnAttributeChanged t'))) =
            EventsAbout t
              (tl.filterMap (fun t' => (TMap.Find P t').map (Event.OnAttributeChanged t'))) := by
          simp [EventsAbout, Event.Tag, hx]
        rw [this, hrest]
        simp only [hmem]

theorem LoadAttributes_Find_updated (s : UAttributeComponent) (n : String) (i : Int)
    (b : Bool) (P : UAttributeSaveGame) (h : TMap.Find s.SaveSlots (n, i) = some P)
    (t : FGameplayTag) (a : FAttribute) (v : ℚ) (ha : TMap.Find s.AttributeMap t = some a)
    (hv : TMap.Find P t = some v) :
    TMap.Find (LoadAttributes s n i b).AttributeMap t = some { a with Value := v } := by
  have hA : (LoadAttributes s n i b).AttributeMap = s.AttributeMap.map (RestorePair P) := by
    simp [LoadAttributes, h]
  rw [hA, Find_map_RestorePair, ha]
  simp [RestorePair, hv]

/-- C16: `LoadAttributes` from a slot holding the snapshot `P` merges by tag.  A
registered tag present in `P` gets its value overwritten by `P[t]` and nothing else
in its record; a registered tag absent from `P` keeps its record; snapshot tags
that are not registered stay unregistered and the registered tags are the same as
before; the attribute array, the modifiers, the timers and the slots are
unchanged.  The broadcasts are one `OnAttributeChanged(t, P[t])` for each registered
tag present in `P`, in enumeration order, and nothing else: when the registered
tags are distinct, exactly one broadcast about each updated tag and none about
any other tag. -/
theorem C16_LoadAttributes_merges_by_tag (s : UAttributeComponent) (n : String) (i : Int)
    (b : Bool) (P : UAttributeSaveGame) (h : TMap.Find s.SaveSlots (n, i) = some P) :
    (∀ t a v, TMap.Find s.AttributeMap t = some a → TMap.Find P t = some v →
      TMap.Find (LoadAttributes s n i b).AttributeMap t = some { a with Value := v }) ∧
    (∀ t, TMap.Find P t = none →
      TMap.Find (LoadAttributes s n i b).AttributeMap t = TMap.Find s.AttributeMap t) ∧
    (∀ t, TMap.Find s.AttributeMap t = none →
      TMap.Find (LoadAttributes s n i b).AttributeMap t = none) ∧
    (LoadAttributes s n i b).AttributeMap.map Prod.fst = s.AttributeMap.map Prod.fst ∧
    ((LoadAttributes s n i b).Attributes = s.Attributes ∧
      (LoadAttributes s n i b).ActiveModifiers = s.ActiveModifiers ∧
      (LoadAttributes s n i b).RegenTimers = s.RegenTimers ∧
      (LoadAttributes s n i b).SaveSlots = s.SaveSlots) ∧
    (LoadAttributes s n i b).Broadcasts = s.Broadcasts ++
      (s.AttributeMap.map Prod.fst).filterMap
        (fun t => (TMap.Find P t).map (Event.OnAttributeChanged t)) ∧
    ((s.AttributeMap.map Prod.fst).Nodup → ∀ t,
      EventsAbout t (LoadAttributes s n i b).Broadcasts = EventsAbout t s.Broadcasts ++
        (if IsValidAttribute s t = true then
          (match TMap.Find P t with
            | some v => [Event.OnAttributeChanged t v]
            | none => [])
         else [])) := by
  have hA : (LoadAttributes s n i b).AttributeMap = s.AttributeMap.map (RestorePair P) := by
    simp [LoadAttributes, h]
  have hB : (LoadAttributes s n i b).Broadcasts = s.Broadcasts ++
      (s.AttributeMap.map Prod.fst).filterMap
        (fun t => (TMap.Find P t).map (Event.OnAttributeChanged t)) := by
    simp [LoadAttributes, h, filterMap_RestoreEvent]
  refine ⟨?_, ?_, ?_, ?_, ?_, hB, ?_⟩
  · intro t a v ha hv
    rw [hA, Find_map_RestorePair, ha]
    simp [RestorePair, hv]
  · intro t hv
    rw [hA, Find_map_RestorePair]
    cases ha : TMap.Find s.AttributeMap t with
    | none => rfl
    | some a => simp [RestorePair, hv]
  · intro t ha
    rw [hA, Find_map_RestorePair, ha]
    rfl
  · rw [hA]; exact keys_map_RestorePair P _
  · simp [LoadAttributes, h]
  · intro hn t
    rw [hB, EventsAbout_append, EventsAbout_restore P t _ hn]
    congr 1
    by_cases hm : t ∈ s.AttributeMap.map Prod.fst
    · obtain ⟨v, hv⟩ := TMap.Find_isSome_of_mem _ _ hm
      simp [hm, IsValidAttribute, TMap.Contains, hv]
    · have := TMap.Find_eq_none_of_not_mem _ _ hm
      simp [hm, IsValidAttribute, TMap.Contains, this]

/-- C16 at work, the scenario of the specification: restoring `{Health: 40}` into a
registry with health (50) and mana (30) stores 40 for health, leaves mana alone and
broadcasts one `OnAttributeChanged(Health, 40)`. -/
theorem C16_LoadAttributes_merges_by_tag_witness :
    TMap.Find (LoadAttributes startedWithHealth40 "AttributeSaveSlot" 0 true).AttributeMap
        HealthTag = some { Health50 with Value := 40 } ∧
    TMap.Find (LoadAttributes startedWithHealth40 "AttributeSaveSlot" 0 true).AttributeMap
        "Attribute.Mana" = some Mana30 ∧
    (LoadAttributes startedWithHealth40 "AttributeSaveSlot" 0 true).Broadcasts =
      startedWithHealth40.Broadcasts ++ [.OnAttributeChanged HealthTag 40] :=
  ⟨(C16_LoadAttributes_merges_by_tag startedWithHealth40 "AttributeSaveSlot" 0 true
      [(HealthTag, 40)] (by decide)).1 HealthTag Health50 40 (by decide) (by decide),
    by decide, by decide⟩

/-! ## Snapshot and restore -/

theorem snapshot_Find (m : TMap FGameplayTag FAttribute) (t : FGameplayTag)
    (hn : (m.map Prod.fst).Nodup) (acc : UAttributeSaveGame) :
    TMap.Find (m.foldl (fun M AttributePair =>
        TMap.Add M AttributePair.1 AttributePair.2.Value) acc) t =
      (match TMap.Find m t with
        | some a => some a.Value
        | none => TMap.Find acc t) := by
  induction m generalizing acc with
  | nil => rfl
  | cons hd tl ih =>
    obtain ⟨k, a⟩ := hd
    have hn' := List.nodup_cons.mp hn
    rw [List.foldl_cons, ih hn'.2]
    by_cases hk : k = t
    · subst hk
      have : TMap.Find tl k = none := TMap.Find_eq_none_of_not_mem _ _ hn'.1
      simp [TMap.Find, this, TMap.Find_Add_self]
    · simp only [TMap.Find, hk, if_false]
      rw [TMap.Find_Add_ne _ _ _ _ (Ne.symm hk)]

theorem CheckRegenStatus_SaveSlots (s : UAttributeComponent) (t : FGameplayTag) :
    (CheckRegenStatus s t).SaveSlots = s.SaveSlots := by
  unfold CheckRegenStatus
  dsimp only
  repeat' split
  all_goals rfl

theorem RegenerateAttribute_SaveSlots (s : UAttributeComponent) (t : FGameplayTag) :
    (RegenerateAttribute s t).SaveSlots = s.SaveSlots := by
  unfold RegenerateAttribute
  dsimp only
  repeat' split
  all_goals rfl

theorem Mutation.apply_SaveSlots (s : UAttributeComponent) (m : Mutation)
    (k : String × Int) (P : UAttributeSaveGame) (h : TMap.Find s.SaveSlots k = some P) :
    TMap.Find (m.apply s).SaveSlots k = some P := by
  cases m with
  | SetAttributeValue t v op =>
    have : (UAttributeComponent.SetAttributeValue s t v op).SaveSlots = s.SaveSlots := by
      unfold UAttributeComponent.SetAttributeValue SetAttributeValueInternal
      split
      · dsimp only
        split
        · rw [CheckRegenStatus_SaveSlots]; rfl
        · rfl
      · rfl
    simp only [Mutation.apply, this, h]
  | SetAttributeMinValue t v op =>
    have : (UAttributeComponent.SetAttributeMinValue s t v op).SaveSlots = s.SaveSlots := by
      unfold UAttributeComponent.SetAttributeMinValue
      split
      · dsimp only
        split
        · rw [CheckRegenStatus_SaveSlots]; rfl
        · rfl
      · rfl
    simp only [Mutation.apply, this, h]
  | SetAttributeMaxValue t v op =>
    have : (UAttributeComponent.SetAttributeMaxValue s t v op).SaveSlots = s.SaveSlots := by
      unfold UAttributeComponent.SetAttributeMaxValue
      split
      · dsimp only
        split
        · rw [CheckRegenStatus_SaveSlots]; rfl
        · rfl
      · rfl
    simp only [Mutation.apply, this, h]
  | ApplyModifier md =>
    have : (UAttributeComponent.ApplyModifier s md).SaveSlots = s.SaveSlots := by
      unfold UAttributeComponent.ApplyModifier
      dsimp only
      repeat' split
      all_goals rfl
    simp only [Mutation.apply, this, h]
  | RemoveModifier t v =>
    have : (UAttributeComponent.RemoveModifier s t v).SaveSlots = s.SaveSlots := by
      unfold UAttributeComponent.RemoveModifier
      dsimp only
      repeat' split
      all_goals rfl
    simp only [Mutation.apply, this, h]
  | RegenerateAttributes =>
    have : (UAttributeComponent.RegenerateAttributes s).SaveSlots = s.SaveSlots :=
      foldl_preserves RegenerateAttribute (fun s' => s'.SaveSlots = s.SaveSlots)
        (fun s' t hs => (RegenerateAttribute_SaveSlots s' t).trans hs) _ s rfl
    simp only [Mutation.apply, this, h]
  | LoadAttributes n i b =>
    simp only [Mutation.apply, UAttributeComponent.LoadAttributes]
    cases hF : TMap.Find s.SaveSlots (n, i) with
    | some Q => exact h
    | none =>
      simp only [SaveAttributes]
      split
      · have hne : k ≠ (n, i) := by
          intro he
          rw [he, hF] at h
          exact Option.noConfusion h
        simp only [TMap.Find_Add_ne _ _ _ _ hne, h]
      · exact h

theorem Mutation.apply_keys (s : UAttributeComponent) (m : Mutation) :
    (m.apply s).AttributeMap.map Prod.fst = s.AttributeMap.map Prod.fst := by
  cases m with
  | SetAttributeValue t v op =>
    cases hf : TMap.Find s.AttributeMap t with
    | none =>
      simp only [Mutation.apply, UAttributeComponent.SetAttributeValue,
        SetAttributeValueInternal_none s t v op hf]
    | some a =>
      simp only [Mutation.apply, UAttributeComponent.SetAttributeValue,
        SetAttributeValueInternal_AttributeMap s t v op a hf]
      exact TMap.keys_Add_of_Find _ _ _ _ hf
  | SetAttributeMinValue t v op =>
    cases hf : TMap.Find s.AttributeMap t with
    | none => simp only [Mutation.apply, SetAttributeMinValue_none s t v op hf]
    | some a =>
      simp only [Mutation.apply, SetAttributeMinValue_AttributeMap s t v op a hf]
      exact TMap.keys_Add_of_Find _ _ _ _ hf
  | SetAttributeMaxValue t v op =>
    cases hf : TMap.Find s.AttributeMap t with
    | none => simp only [Mutation.apply, SetAttributeMaxValue_none s t v op hf]
    | some a =>
      simp only [Mutation.apply, SetAttributeMaxValue_AttributeMap s t v op a hf]
      exact TMap.keys_Add_of_Find _ _ _ _ hf
  | ApplyModifier md =>
    cases hf : TMap.Find s.AttributeMap md.AttributeTag with
    | none => simp only [Mutation.apply, ApplyModifier_none s md hf]
    | some a =>
      simp only [Mutation.apply, ApplyModifier_AttributeMap s md a hf]
      exact TMap.keys_Add_of_Find _ _ _ _ hf
  | RemoveModifier t v =>
    cases hf : TMap.Find s.AttributeMap t with
    | none => simp only [Mutation.apply, RemoveModifier_none s t v hf]
    | some a =>
      simp only [Mutation.apply, RemoveModifier_AttributeMap s t v a hf]
      exact TMap.keys_Add_of_Find _ _ _ _ hf
  | RegenerateAttributes =>
    refine foldl_preserves RegenerateAttribute
      (fun s' => s'.AttributeMap.map Prod.fst = s.AttributeMap.map Prod.fst) ?_ _ s rfl
    intro s' t hs
    rcases RegenerateAttribute_AttributeMap s' t with h1 | ⟨a, ha, h1⟩
    · rw [h1]; exact hs
    · rw [h1, TMap.keys_Add_of_Find _ _ _ _ ha]; exact hs
  | LoadAttributes n i b =>
    simp only [Mutation.apply, UAttributeComponent.LoadAttributes]
    cases hF : TMap.Find s.SaveSlots (n, i) with
    | some Q => exact keys_map_RestorePair Q _
    | none =>
      simp only [SaveAttributes]
      split <;> rfl

theorem Mutation.run_SaveSlots_keys (ms : List Mutation) (s : UAttributeComponent)
    (k : String × Int) (P : UAttributeSaveGame) (h : TMap.Find s.SaveSlots k = some P) :
    TMap.Find (Mutation.run s ms).SaveSlots k = some P ∧
    (Mutation.run s ms).AttributeMap.map Prod.fst = s.AttributeMap.map Prod.fst := by
  induction ms generalizing s with
  | nil => exact ⟨h, rfl⟩
  | cons m tl ih =>
    obtain ⟨g1, g2⟩ := ih (m.apply s) (Mutation.apply_SaveSlots s m k P h)
    exact ⟨g1, g2.trans (Mutation.apply_keys s m)⟩

/-- C17: snapshot and restore round trip, for a registry with distinct tags.  A
successful `SaveAttributes` stores under its slot a snapshot that maps every
registered tag to its current value (and no other tag); after any sequence of
mutations that follows, and more generally in any later state whose slot still
holds that snapshot, `LoadAttributes` from the same slot gives every tag that was
registered when saving and is still registered the value it had when saving. -/
theorem C17_snapshot_restore_round_trip (S : UAttributeComponent) (n : String) (i : Int)
    (hN : (S.AttributeMap.map Prod.fst).Nodup) :
    (∃ P, TMap.Find (SaveAttributes S n i true).SaveSlots (n, i) = some P ∧
      ∀ t, TMap.Find P t = (TMap.Find S.AttributeMap t).map (fun a => a.Value)) ∧
    (∀ (ms : List Mutation) (b : Bool) (t : FGameplayTag) (a : FAttribute),
      TMap.Find S.AttributeMap t = some a →
      IsValidAttribute
        (LoadAttributes (Mutation.run (SaveAttributes S n i true) ms) n i b) t = true ∧
      GetAttributeValue
        (LoadAttributes (Mutation.run (SaveAttributes S n i true) ms) n i b) t = a.Value) ∧
    (∀ (s1 : UAttributeComponent) (b : Bool) (t : FGameplayTag) (a : FAttribute),
      TMap.Find s1.SaveSlots (n, i) = TMap.Find (SaveAttributes S n i true).SaveSlots (n, i) →
      TMap.Find S.AttributeMap t = some a → IsValidAttribute s1 t = true →
      GetAttributeValue (LoadAttributes s1 n i b) t = a.Value) := by
  have hsnap : ∀ t, TMap.Find (S.AttributeMap.foldl (fun M AttributePair =>
      TMap.Add M AttributePair.1 AttributePair.2.Value) ([] : UAttributeSaveGame)) t =
      (TMap.Find S.AttributeMap t).map (fun a => a.Value) := by
    intro t
    rw [snapshot_Find _ t hN]
    cases TMap.Find S.AttributeMap t <;> rfl
  have hslot : TMap.Find (SaveAttributes S n i true).SaveSlots (n, i) =
      some (S.AttributeMap.foldl (fun M AttributePair =>
        TMap.Add M AttributePair.1 AttributePair.2.Value) ([] : UAttributeSaveGame)) := by
    simp [SaveAttributes, TMap.Find_Add_self]
  have general : ∀ (s1 : UAttributeComponent) (b : Bool) (t : FGameplayTag) (a : FAttribute),
      TMap.Find s1.SaveSlots (n, i) = TMap.Find (SaveAttributes S n i true).SaveSlots (n, i) →
      TMap.Find S.AttributeMap t = some a → IsValidAttribute s1 t = true →
      GetAttributeValue (LoadAttributes s1 n i b) t = a.Value := by
    intro s1 b t a h1 ha hv
    rw [hslot] at h1
    obtain ⟨a1, ha1⟩ : ∃ a1, TMap.Find s1.AttributeMap t = some a1 := by
      cases hq : TMap.Find s1.AttributeMap t with
      | none => simp [IsValidAttribute, TMap.Contains, hq] at hv
      | some a1 => exact ⟨a1, rfl⟩
    have hP := hsnap t
    rw [ha] at hP
    have := (LoadAttributes_Find_updated s1 n i b _ h1 t a1 a.Value ha1 hP)
    simp [GetAttributeValue, this]
  refine ⟨⟨_, hslot, hsnap⟩, ?_, general⟩
  intro ms b t a ha
  obtain ⟨g1, g2⟩ := Mutation.run_SaveSlots_keys ms (SaveAttributes S n i true) (n, i) _ hslot
  have hkeys : (Mutation.run (SaveAttributes S n i true) ms).AttributeMap.map Prod.fst =
      S.AttributeMap.map Prod.fst := by
    rw [g2]
    simp only [SaveAttributes, if_true]
  have hmem : t ∈ S.AttributeMap.map Prod.fst :=
    List.mem_map.mpr ⟨(t, a), TMap.Find_mem _ _ _ ha, rfl⟩
  obtain ⟨a1, ha1⟩ := TMap.Find_isSome_of_mem
    (Mutation.run (SaveAttributes S n i true) ms).AttributeMap t (by rw [hkeys]; exact hmem)
  have hreg : IsValidAttribute (Mutation.run (SaveAttributes S n i true) ms) t = true := by
    simp [IsValidAttribute, TMap.Contains, ha1]
  refine ⟨?_, general _ b t a (g1.trans hslot.symm) ha hreg⟩
  have hP := hsnap t
  rw [ha] at hP
  have := LoadAttributes_Find_updated (Mutation.run (SaveAttributes S n i true) ms) n i b _ g1 t a1 a.Value ha1 hP
  simp [IsValidAttribute, TMap.Contains, this]

/-- C17 at work: the started component with health (50) and mana is saved, health is
then lowered by 30 and regenerates once (to 30), and loading the slot gives health
its saved value 50 again. -/
theorem C17_snapshot_restore_round_trip_witness :
    GetAttributeValue
      (Mutation.run (SaveAttributes (started [Health50, Mana30]) "AttributeSaveSlot" 0 true)
        [.SetAttributeValue HealthTag 30 .Subtract, .RegenerateAttributes]) HealthTag = 30 ∧
    GetAttributeValue
      (LoadAttributes
        (Mutation.run (SaveAttributes (started [Health50, Mana30]) "AttributeSaveSlot" 0 true)
          [.SetAttributeValue HealthTag 30 .Subtract, .RegenerateAttributes])
        "AttributeSaveSlot" 0 true) HealthTag = Health50.Value :=
  ⟨by decide,
    ((C17_snapshot_restore_round_trip (started [Health50, Mana30]) "AttributeSaveSlot" 0
      (by decide)).2.1 [.SetAttributeValue HealthTag 30 .Subtract, .RegenerateAttributes] true
      HealthTag Health50 (by decide)).2⟩

/-! ## The health wrappers -/

theorem SetAttributeValueInternal_Deaths (s : UAttributeComponent) (t : FGameplayTag) (v : ℚ)
    (op : EAttributeOperation) :
    Deaths (SetAttributeValueInternal s t v op).Broadcasts = Deaths s.Broadcasts := by
  cases h : TMap.Find s.AttributeMap t with
  | none => rw [SetAttributeValueInternal_none s t v op h]
  | some a =>
    rw [SetAttributeValueInternal_Broadcasts s t v op a h]
    unfold Deaths
    split_ifs <;> simp [List.count_append, List.count_cons]

theorem DecreaseHealth_registered (s : UAttributeComponent) (x : ℚ) (a : FAttribute)
    (h : TMap.Find s.AttributeMap HealthTag = some a) :
    TMap.Find (DecreaseHealth s x).AttributeMap HealthTag =
      some { a with Value := FMath.Clamp (a.Value - x) a.MinValue a.MaxValue } ∧
    Deaths (DecreaseHealth s x).Broadcasts = Deaths s.Broadcasts +
      (if FMath.Clamp (a.Value - x) a.MinValue a.MaxValue ≤ 0 then 1 else 0) := by
  have hF : TMap.Find (SetAttributeValueInternal s HealthTag x .Subtract).AttributeMap HealthTag =
      some { a with Value := FMath.Clamp (a.Value - x) a.MinValue a.MaxValue } := by
    rw [SetAttributeValueInternal_AttributeMap s HealthTag x .Subtract a h]
    exact TMap.Find_Add_self _ _ _
  have hD := SetAttributeValueInternal_Deaths s HealthTag x .Subtract
  simp only [DecreaseHealth, SetAttributeValue, GetAttributeValue, hF]
  split_ifs with hc
  · refine ⟨hF, ?_⟩
    simp [Broadcast, Deaths, List.count_append] at hD ⊢
    exact hD
  · exact ⟨hF, by simpa using hD⟩

/-- C22 (as amended): a `DecreaseHealth` call on a registered health attribute stores
`clamp(Value - Amount, MinValue, MaxValue)` and broadcasts `OnDeath` once exactly when
that stored value is at or below 0: the call that takes the value from above 0 to
at or below 0 broadcasts it, and so does every further call that leaves the value
at or below 0. -/
theorem C22_OnDeath_whenever_health_not_positive (s : UAttributeComponent) (x : ℚ)
    (a : FAttribute) (h : TMap.Find s.AttributeMap HealthTag = some a) :
    GetAttributeValue (DecreaseHealth s x) HealthTag =
      FMath.Clamp (a.Value - x) a.MinValue a.MaxValue ∧
    Deaths (DecreaseHealth s x).Broadcasts = Deaths s.Broadcasts +
      (if GetAttributeValue (DecreaseHealth s x) HealthTag ≤ 0 then 1 else 0) := by
  obtain ⟨h1, h2⟩ := DecreaseHealth_registered s x a h
  have hv : GetAttributeValue (DecreaseHealth s x) HealthTag =
      FMath.Clamp (a.Value - x) a.MinValue a.MaxValue := by
    simp [GetAttributeValue, h1]
  exact ⟨hv, by rw [hv]; exact h2⟩

/-- C22 at work: decreasing the started health (50 in `[0, 100]`) by 60 stores 0 and
broadcasts `OnDeath` once. -/
theorem C22_OnDeath_whenever_health_not_positive_witness :
    Deaths (DecreaseHealth (started [Health50]) 60).Broadcasts =
      Deaths (started [Health50]).Broadcasts +
        (if GetAttributeValue (DecreaseHealth (started [Health50]) 60) HealthTag ≤ 0
          then 1 else 0) ∧
    GetAttributeValue (DecreaseHealth (started [Health50]) 60) HealthTag = 0 ∧
    Deaths (DecreaseHealth (started [Health50]) 60).Broadcasts = 1 :=
  ⟨(C22_OnDeath_whenever_health_not_positive (started [Health50]) 60 Health50
    (by decide)).2, by decide, by decide⟩

/-- C22 as stated fails: on the started health (50 in `[0, 100]`), `DecreaseHealth(60)`
takes the value to 0 and broadcasts `OnDeath`; a further `DecreaseHealth(10)`, made
while the value is already 0, leaves it at 0 and broadcasts `OnDeath` a second time. -/
theorem C22_counterexample :
    Deaths (started [Health50]).Broadcasts = 0 ∧
    GetAttributeValue (DecreaseHealth (started [Health50]) 60) HealthTag = 0 ∧
    Deaths (DecreaseHealth (started [Health50]) 60).Broadcasts = 1 ∧
    GetAttributeValue (DecreaseHealth (DecreaseHealth (started [Health50]) 60) 10) HealthTag
      = 0 ∧
    Deaths (DecreaseHealth (DecreaseHealth (started [Health50]) 60) 10).Broadcasts = 2 := by
  decide

/-- C23, the code at the failing input: in the started mana-only component the health
tag is not registered; `DecreaseHealth(10)` changes no attribute, reads the default 0
from `GetAttributeValue` and broadcasts `OnDeath`. -/
theorem C23_DecreaseHealth_unregistered_broadcasts_OnDeath :
    IsValidAttribute (started [Mana30]) HealthTag = false ∧
    (DecreaseHealth (started [Mana30]) 10).Silent = (started [Mana30]).Silent ∧
    GetAttributeValue (started [Mana30]) HealthTag = 0 ∧
    (DecreaseHealth (started [Mana30]) 10).Broadcasts =
      (started [Mana30]).Broadcasts ++ [.OnDeath] ∧
    DecreaseHealth (started [Mana30]) 10 ≠ started [Mana30] := by
  decide

/-! ## Lookups on a missing tag -/

/-- C24 (as amended): for a tag that is not registered, `GetAttributeValue` returns 0,
`GetAttributeValues` returns `(0, 0, 0)`, `IsValidAttribute` returns false, and
`GetAttribute` returns the default record `FAttribute()`, whose value and floor
are 0 and whose ceiling is 100.  The lookups are functions of the component and
return no component: they change nothing. -/
theorem C24_lookups_on_missing_tag (s : UAttributeComponent) (t : FGameplayTag)
    (h : IsValidAttribute s t = false) :
    GetAttributeValue s t = 0 ∧
    GetAttributeValues s t = (0, 0, 0) ∧
    GetAttribute s t = FAttribute.ctor ∧
    ((GetAttribute s t).Value = 0 ∧ (GetAttribute s t).MinValue = 0 ∧
      (GetAttribute s t).MaxValue = 100) := by
  have hf : TMap.Find s.AttributeMap t = none := by
    simpa [IsValidAttribute, TMap.Contains] using h
  simp [GetAttributeValue, GetAttributeValues, GetAttribute, hf, FAttribute.ctor]

/-- C24 at work: the mana tag in the started health-only component. -/
theorem C24_lookups_on_missing_tag_witness :
    IsValidAttribute (started [Health50]) "Attribute.Mana" = false ∧
    GetAttributeValues (started [Health50]) "Attribute.Mana" = (0, 0, 0) ∧
    GetAttribute (started [Health50]) "Attribute.Mana" = FAttribute.ctor :=
  ⟨by decide,
    (C24_lookups_on_missing_tag (started [Health50]) "Attribute.Mana" (by decide)).2.1,
    (C24_lookups_on_missing_tag (started [Health50]) "Attribute.Mana" (by decide)).2.2.1⟩

/-- C24 as stated fails: for the unregistered mana tag `GetAttributeValues` returns the
ceiling 0 while the record returned by `GetAttribute` has the ceiling 100. -/
theorem C24_counterexample :
    IsValidAttribute (started [Health50]) "Attribute.Mana" = false ∧
    (GetAttributeValues (started [Health50]) "Attribute.Mana").2.2 = 0 ∧
    (GetAttribute (started [Health50]) "Attribute.Mana").MaxValue = 100 ∧
    (GetAttribute (started [Health50]) "Attribute.Mana").MaxValue ≠
      (GetAttributeValues (started [Health50]) "Attribute.Mana").2.2 := by
  decide

/-! ## Threshold check and health depletion -/

theorem DecreaseHealth_foldl_Deaths (amounts : List ℚ) :
    ∀ (s : UAttributeComponent) (a : FAttribute),
      TMap.Find s.AttributeMap HealthTag = some a → 0 < a.MinValue →
      Deaths (amounts.foldl DecreaseHealth s).Broadcasts = Deaths s.Broadcasts := by
  induction amounts with
  | nil => intro s a _ _; rfl
  | cons x tl ih =>
    intro s a h hpos
    obtain ⟨h1, h2⟩ := DecreaseHealth_registered s x a h
    have hgt : ¬ FMath.Clamp (a.Value - x) a.MinValue a.MaxValue ≤ 0 :=
      not_le.mpr (lt_of_lt_of_le hpos (FMath.Clamp_ge _ _ _))
    rw [if_neg hgt, Nat.add_zero] at h2
    rw [List.foldl_cons, ih (DecreaseHealth s x) _ h1 hpos, h2]

/-- C27: the two depletion checks are distinct.  `CheckThresholds(tag)` changes nothing
but the log and broadcasts `OnAttributeThresholdReached(tag, Value)` exactly when the
tag is registered with `Value ≤ MinValue`.  `DecreaseHealth` compares with the
literal 0: for a registered health attribute with `0 < MinValue` no sequence of
`DecreaseHealth` calls, whatever the amounts, broadcasts `OnDeath`; and when a call
drives the value down to `MinValue` (with `MinValue ≤ MaxValue`), it broadcasts no
`OnDeath` while `CheckThresholds` right after it does fire, with `MinValue`. -/
theorem C27_threshold_and_depletion_checks_differ (s : UAttributeComponent) :
    (∀ t, (CheckThresholds s t).Silent = s.Silent ∧
      (CheckThresholds s t).Broadcasts = s.Broadcasts ++
        (match TMap.Find s.AttributeMap t with
          | some a =>
            if a.Value ≤ a.MinValue then [Event.OnAttributeThresholdReached t a.Value] else []
          | none => [])) ∧
    (∀ a, TMap.Find s.AttributeMap HealthTag = some a → 0 < a.MinValue →
      ∀ amounts : List ℚ,
        Deaths (amounts.foldl DecreaseHealth s).Broadcasts = Deaths s.Broadcasts) ∧
    (∀ a x, TMap.Find s.AttributeMap HealthTag = some a → 0 < a.MinValue →
      a.MinValue ≤ a.MaxValue → a.Value - x ≤ a.MinValue →
      GetAttributeValue (DecreaseHealth s x) HealthTag = a.MinValue ∧
      Deaths (DecreaseHealth s x).Broadcasts = Deaths s.Broadcasts ∧
      (CheckThresholds (DecreaseHealth s x) HealthTag).Broadcasts =
        (DecreaseHealth s x).Broadcasts ++
          [Event.OnAttributeThresholdReached HealthTag a.MinValue]) := by
  refine ⟨fun t => ?_, fun a h hpos amounts => DecreaseHealth_foldl_Deaths amounts s a h hpos,
    fun a x h hpos hle hx => ?_⟩
  · cases hf : TMap.Find s.AttributeMap t with
    | none => simp [CheckThresholds, hf]
    | some a =>
      by_cases hc : a.Value ≤ a.MinValue
      · simp [CheckThresholds, hf, hc, Broadcast, Silent]
      · simp [CheckThresholds, hf, hc]
  · obtain ⟨h1, h2⟩ := DecreaseHealth_registered s x a h
    have hclamp : FMath.Clamp (a.Value - x) a.MinValue a.MaxValue = a.MinValue := by
      rw [FMath.Clamp_eq_max_min]
      exact max_eq_left (le_trans (min_le_left _ _) hx)
    rw [hclamp] at h1 h2
    rw [if_neg (not_le.mpr hpos), Nat.add_zero] at h2
    refine ⟨by simp [GetAttributeValue, h1], h2, ?_⟩
    simp [CheckThresholds, h1, Broadcast]

/-- C27 at work: a health of 50 in `[10, 100]` decreased by 70 stops at the floor 10
without `OnDeath`, and `CheckThresholds` then fires. -/
theorem C27_threshold_and_depletion_checks_differ_witness :
    GetAttributeValue (DecreaseHealth (started [HealthFloor10]) 70) HealthTag
      = HealthFloor10.MinValue ∧
    Deaths (DecreaseHealth (started [HealthFloor10]) 70).Broadcasts
      = Deaths (started [HealthFloor10]).Broadcasts ∧
    (CheckThresholds (DecreaseHealth (started [HealthFloor10]) 70) HealthTag).Broadcasts =
      (DecreaseHealth (started [HealthFloor10]) 70).Broadcasts ++
        [Event.OnAttributeThresholdReached HealthTag HealthFloor10.MinValue] :=
  (C27_threshold_and_depletion_checks_differ (started [HealthFloor10])).2.2 HealthFloor10 70
    (by decide) (by decide) (by decide) (by decide)

/-! ## A clamped modifier and its revert -/

/-- C28: a modifier that is clamped on application is not undone by its revert.  For a
registered attribute with `MinValue ≤ Value ≤ MaxValue` and a delta `d` with
`Value + d > MaxValue` and `MinValue ≤ MaxValue - d`, `ApplyModifier(tag, d)` stores
`MaxValue` and `RemoveModifier(tag, d)` right after it stores `MaxValue - d`, which
is below the original value: the revert subtracts the full `d`.  Such an attribute
exists: a health of 100 in `[0, 100]` with `d = 15` gives 100, then 85. -/
theorem C28_clamped_modifier_not_undone :
    (∀ (s : UAttributeComponent) (t : FGameplayTag) (d dur : ℚ) (a : FAttribute),
      TMap.Find s.AttributeMap t = some a → a.MinValue ≤ a.Value → a.Value ≤ a.MaxValue →
      a.MaxValue < a.Value + d → a.MinValue ≤ a.MaxValue - d →
      GetAttributeValue (ApplyModifier s { AttributeTag := t, Value := d, Duration := dur }) t
        = a.MaxValue ∧
      GetAttributeValue (RemoveModifier
        (ApplyModifier s { AttributeTag := t, Value := d, Duration := dur }) t d) t
        = a.MaxValue - d ∧
      GetAttributeValue (RemoveModifier
        (ApplyModifier s { AttributeTag := t, Value := d, Duration := dur }) t d) t
        ≠ a.Value) ∧
    (∃ (s : UAttributeComponent) (t : FGameplayTag) (d : ℚ) (a : FAttribute),
      TMap.Find s.AttributeMap t = some a ∧ a.MinValue ≤ a.Value ∧ a.Value ≤ a.MaxValue ∧
      a.Value = 100 ∧ a.MaxValue = 100 ∧ d = 15 ∧
      GetAttributeValue (ApplyModifier s { AttributeTag := t, Value := d, Duration := -1 }) t
        = 100 ∧
      GetAttributeValue (RemoveModifier
        (ApplyModifier s { AttributeTag := t, Value := d, Duration := -1 }) t d) t = 85 ∧
      GetAttributeValue (RemoveModifier
        (ApplyModifier s { AttributeTag := t, Value := d, Duration := -1 }) t d) t
        ≠ a.Value) := by
  constructor
  · intro s t d dur a h h1 h2 h3 h4
    have hc1 : FMath.Clamp (a.Value + d) a.MinValue a.MaxValue = a.MaxValue := by
      rw [FMath.Clamp_eq_max_min, min_eq_right h3.le]
      exact max_eq_right (le_trans h1 h2)
    have hA : TMap.Find
        (ApplyModifier s { AttributeTag := t, Value := d, Duration := dur }).AttributeMap t
        = some { a with Value := a.MaxValue } := by
      rw [ApplyModifier_AttributeMap s _ a h, hc1]
      exact TMap.Find_Add_self _ _ _
    have hR : TMap.Find (RemoveModifier
        (ApplyModifier s { AttributeTag := t, Value := d, Duration := dur }) t d).AttributeMap t
        = some { a with Value := a.MaxValue - d } := by
      rw [RemoveModifier_AttributeMap _ t d _ hA, TMap.Find_Add_self]
      have hd : a.MaxValue - d ≤ a.MaxValue := by linarith
      simp only [FMath.Clamp_of_mem _ _ _ h4 hd]
    refine ⟨by simp [GetAttributeValue, hA], by simp [GetAttributeValue, hR], ?_⟩
    simp only [GetAttributeValue, hR]
    intro he
    linarith
  · exact ⟨started [Health100], HealthTag, 15, Health100, by decide⟩

/-- C28 at work on the health of 100 in `[0, 100]` with `d = 15`. -/
theorem C28_clamped_modifier_not_undone_witness :
    GetAttributeValue (RemoveModifier
      (ApplyModifier (started [Health100])
        { AttributeTag := HealthTag, Value := 15, Duration := -1 }) HealthTag 15) HealthTag
      ≠ Health100.Value :=
  (C28_clamped_modifier_not_undone.1 (started [Health100]) HealthTag 15 (-1) Health100
    (by decide) (by decide) (by decide) (by decide) (by decide)).2.2

/-! ## One callback for every regen timer; two copies of the attributes -/

/-- C25, the code at the failing input: the started component with health (50,
regenerating 10 every second) and stamina (10, regenerating 5 every 2 seconds) has
one timer per tag; the callback that runs when the health timer elapses is
`RegenerateAttributes`, and one call of it raises health to 60 and stamina to 15
and broadcasts `OnAttributeChanged` for both. -/
theorem C25_one_tick_regenerates_every_tag :
    (started [Health50, Stamina10]).RegenTimers =
      [(HealthTag, some 1), ("Attribute.Stamina", some 2)] ∧
    GetAttributeValue (started [Health50, Stamina10]) "Attribute.Stamina" = 10 ∧
    GetAttributeValue (RegenerateAttributes (started [Health50, Stamina10])) HealthTag = 60 ∧
    GetAttributeValue (RegenerateAttributes (started [Health50, Stamina10]))
      "Attribute.Stamina" = 15 ∧
    (RegenerateAttributes (started [Health50, Stamina10])).Broadcasts =
      (started [Health50, Stamina10]).Broadcasts ++
        [.OnAttributeChanged HealthTag 60, .OnAttributeChanged "Attribute.Stamina" 15] := by
  decide

/-- C26, the code at the failing input: after `SetAttributeValue(Health, 30, Subtract)`
on the started component `GetAttribute(Health)` returns the value 20, while
`GetAllAttributes` still lists the health attribute with the value 50. -/
theorem C26_enumeration_is_stale :
    (GetAttribute (SetAttributeValue (started [Health50]) HealthTag 30 .Subtract)
      HealthTag).Value = 20 ∧
    GetAllAttributes (SetAttributeValue (started [Health50]) HealthTag 30 .Subtract)
      = [Health50] ∧
    Health50.Value = 50 ∧
    (GetAllAttributes (SetAttributeValue (started [Health50]) HealthTag 30 .Subtract)).map
        (fun a => (a.AttributeTag, a.Value)) ≠
      (GetAllAttributes (SetAttributeValue (started [Health50]) HealthTag 30 .Subtract)).map
        (fun a => (a.AttributeTag,
          (GetAttribute (SetAttributeValue (started [Health50]) HealthTag 30 .Subtract)
            a.AttributeTag).Value)) := by
  decide

/-! ## Reset -/

theorem CheckRegenStatus_Definitions (s : UAttributeComponent) (t : FGameplayTag) :
    (CheckRegenStatus s t).Definitions = s.Definitions := by
  unfold CheckRegenStatus Definitions
  dsimp only
  repeat' split
  all_goals rfl

theorem CheckRegenStatus_ModifierTimers (s : UAttributeComponent) (t : FGameplayTag) :
    (CheckRegenStatus s t).ModifierTimers = s.ModifierTimers := by
  unfold CheckRegenStatus
  dsimp only
  repeat' split
  all_goals rfl

theorem CheckRegenStatus_congr (s1 s2 : UAttributeComponent) (t : FGameplayTag)
    (hA : s1.AttributeMap = s2.AttributeMap) (hT : s1.RegenTimers = s2.RegenTimers) :
    (CheckRegenStatus s1 t).RegenTimers = (CheckRegenStatus s2 t).RegenTimers := by
  unfold CheckRegenStatus
  rw [hA, hT]
  cases TMap.Find s2.AttributeMap t with
  | none => exact hT
  | some a =>
    dsimp only
    split
    · split
      · split <;> rfl
      · cases TMap.Find s2.RegenTimers t with
        | none => exact hT
        | some hd => rfl
    · exact hT

theorem AnnounceAttribute_foldl (l : List FAttribute) (s : UAttributeComponent) :
    (l.foldl AnnounceAttribute s).Definitions = s.Definitions ∧
    (l.foldl AnnounceAttribute s).Attributes = s.Attributes ∧
    (l.foldl AnnounceAttribute s).AttributeMap = s.AttributeMap ∧
    (l.foldl AnnounceAttribute s).ActiveModifiers = s.ActiveModifiers ∧
    (l.foldl AnnounceAttribute s).ModifierTimers = s.ModifierTimers ∧
    (l.foldl AnnounceAttribute s).SaveSlots = s.SaveSlots ∧
    (l.foldl AnnounceAttribute s).Broadcasts = s.Broadcasts ++ l.map Announcement := by
  induction l generalizing s with
  | nil => simp
  | cons a tl ih =>
    obtain ⟨h1, h2, h3, h4, h5, h6, h7⟩ := ih (AnnounceAttribute s a)
    rw [List.foldl_cons]
    refine ⟨h1.trans ?_, h2.trans ?_, h3.trans ?_, h4.trans ?_, h5.trans ?_, h6.trans ?_, ?_⟩
    · unfold AnnounceAttribute; rw [CheckRegenStatus_Definitions]; rfl
    · unfold AnnounceAttribute; rw [CheckRegenStatus_Attributes]; rfl
    · unfold AnnounceAttribute; rw [CheckRegenStatus_AttributeMap]; rfl
    · unfold AnnounceAttribute; rw [CheckRegenStatus_ActiveModifiers]; rfl
    · unfold AnnounceAttribute; rw [CheckRegenStatus_ModifierTimers]; rfl
    · unfold AnnounceAttribute; rw [CheckRegenStatus_SaveSlots]; rfl
    · rw [h7]
      unfold AnnounceAttribute
      rw [CheckRegenStatus_Broadcasts]
      simp [Broadcast, Announcement]

theorem AnnounceAttribute_foldl_congr (l : List FAttribute) (s1 s2 : UAttributeComponent)
    (hA : s1.AttributeMap = s2.AttributeMap) (hT : s1.RegenTimers = s2.RegenTimers) :
    (l.foldl AnnounceAttribute s1).RegenTimers = (l.foldl AnnounceAttribute s2).RegenTimers := by
  induction l generalizing s1 s2 with
  | nil => exact hT
  | cons a tl ih =>
    rw [List.foldl_cons, List.foldl_cons]
    apply ih
    · unfold AnnounceAttribute
      rw [CheckRegenStatus_AttributeMap, CheckRegenStatus_AttributeMap]
      exact hA
    · unfold AnnounceAttribute
      exact CheckRegenStatus_congr _ _ _ hA hT

theorem UAttributeComponent.eq_of_fields (s s' : UAttributeComponent)
    (h1 : s.Definitions = s'.Definitions) (h2 : s.Attributes = s'.Attributes)
    (h3 : s.AttributeMap = s'.AttributeMap) (h4 : s.ActiveModifiers = s'.ActiveModifiers)
    (h5 : s.RegenTimers = s'.RegenTimers) (h6 : s.ModifierTimers = s'.ModifierTimers)
    (h7 : s.SaveSlots = s'.SaveSlots) (h8 : s.Broadcasts = s'.Broadcasts) : s = s' := by
  cases s
  cases s'
  simp only [Definitions, Prod.mk.injEq] at h1
  simp_all

theorem ResetAllAttributes_fields (s : UAttributeComponent) :
    (ResetAllAttributes s).Definitions = s.Definitions ∧
    (ResetAllAttributes s).Attributes = s.InitialAttributesBackup ∧
    (ResetAllAttributes s).AttributeMap =
      s.InitialAttributesBackup.foldl
        (fun m Attribute => TMap.Add m Attribute.AttributeTag Attribute) [] ∧
    (ResetAllAttributes s).ActiveModifiers = s.ActiveModifiers ∧
    (ResetAllAttributes s).ModifierTimers = s.ModifierTimers ∧
    (ResetAllAttributes s).SaveSlots = s.SaveSlots ∧
    (ResetAllAttributes s).Broadcasts =
      s.Broadcasts ++ s.InitialAttributesBackup.map Announcement := by
  unfold ResetAllAttributes
  dsimp only
  obtain ⟨h1, h2, h3, h4, h5, h6, h7⟩ := AnnounceAttribute_foldl
    (InitializeAttributeMap
      { s with RegenTimers := [], Attributes := s.InitialAttributesBackup }).Attributes
    (InitializeAttributeMap
      { s with RegenTimers := [], Attributes := s.InitialAttributesBackup })
  exact ⟨h1, h2, h3, h4, h5, h6, h7⟩

theorem ResetAllAttributes_RegenTimers (s : UAttributeComponent) :
    (ResetAllAttributes s).RegenTimers =
      (LoadAttributesFromDataAsset (ctor (some s.InitialAttributesBackup))).RegenTimers := by
  unfold ResetAllAttributes LoadAttributesFromDataAsset
  simp only [ctor, Broadcast]
  exact AnnounceAttribute_foldl_congr _ _ _ rfl rfl

theorem SetAttributeValueInternal_Definitions (s : UAttributeComponent) (t : FGameplayTag)
    (v : ℚ) (op : EAttributeOperation) :
    (SetAttributeValueInternal s t v op).Definitions = s.Definitions := by
  unfold SetAttributeValueInternal
  dsimp only
  repeat' split
  all_goals first | rfl | exact CheckRegenStatus_Definitions _ _

theorem SetAttributeMinValue_Definitions (s : UAttributeComponent) (t : FGameplayTag)
    (v : ℚ) (op : EAttributeOperation) :
    (SetAttributeMinValue s t v op).Definitions = s.Definitions := by
  unfold SetAttributeMinValue
  dsimp only
  repeat' split
  all_goals first | rfl | exact CheckRegenStatus_Definitions _ _

theorem SetAttributeMaxValue_Definitions (s : UAttributeComponent) (t : FGameplayTag)
    (v : ℚ) (op : EAttributeOperation) :
    (SetAttributeMaxValue s t v op).Definitions = s.Definitions := by
  unfold SetAttributeMaxValue
  dsimp only
  repeat' split
  all_goals first | rfl | exact CheckRegenStatus_Definitions _ _

theorem ApplyModifier_Definitions (s : UAttributeComponent) (m : FAttributeModifier) :
    (ApplyModifier s m).Definitions = s.Definitions := by
  unfold ApplyModifier
  dsimp only
  repeat' split
  all_goals rfl

theorem RemoveModifier_Definitions (s : UAttributeComponent) (t : FGameplayTag) (v : ℚ) :
    (RemoveModifier s t v).Definitions = s.Definitions := by
  unfold RemoveModifier
  dsimp only
  repeat' split
  all_goals rfl

theorem RegenerateAttributes_Definitions (s : UAttributeComponent) :
    (RegenerateAttributes s).Definitions = s.Definitions := by
  refine foldl_preserves RegenerateAttribute (fun s' => s'.Definitions = s.Definitions)
    ?_ _ s rfl
  intro s' t hs
  refine Eq.trans ?_ hs
  unfold RegenerateAttribute
  dsimp only
  repeat' split
  all_goals rfl

theorem SaveAttributes_Definitions (s : UAttributeComponent) (n : String) (i : Int)
    (b : Bool) : (SaveAttributes s n i b).Definitions = s.Definitions := by
  unfold SaveAttributes
  dsimp only
  split <;> rfl

theorem LoadAttributes_Definitions (s : UAttributeComponent) (n : String) (i : Int)
    (b : Bool) : (LoadAttributes s n i b).Definitions = s.Definitions := by
  unfold LoadAttributes
  split
  · rfl
  · exact SaveAttributes_Definitions s n i b

theorem Mutation.apply_Definitions (s : UAttributeComponent) (m : Mutation) :
    (m.apply s).Definitions = s.Definitions := by
  cases m with
  | SetAttributeValue t v op => exact SetAttributeValueInternal_Definitions s t v op
  | SetAttributeMinValue t v op => exact SetAttributeMinValue_Definitions s t v op
  | SetAttributeMaxValue t v op => exact SetAttributeMaxValue_Definitions s t v op
  | ApplyModifier md => exact ApplyModifier_Definitions s md
  | RemoveModifier t v => exact RemoveModifier_Definitions s t v
  | RegenerateAttributes => exact RegenerateAttributes_Definitions s
  | LoadAttributes n i b => exact LoadAttributes_Definitions s n i b

theorem Operation.apply_keeps_Definitions (s : UAttributeComponent) (op : Operation)
    (defs : List FAttribute) (h : s.Definitions = (some defs, defs)) :
    (op.apply s).Definitions = (some defs, defs) := by
  cases op with
  | Mutate m => exact (Mutation.apply_Definitions s m).trans h
  | AddAttribute a =>
    refine Eq.trans ?_ h
    simp only [Operation.apply, UAttributeComponent.AddAttribute]
    split
    · exact CheckRegenStatus_Definitions _ _
    · rfl
  | RemoveAttribute t =>
    refine Eq.trans ?_ h
    simp only [Operation.apply, UAttributeComponent.RemoveAttribute]
    split <;> rfl
  | SetUseRegen t b =>
    refine Eq.trans ?_ h
    simp only [Operation.apply, UAttributeComponent.SetUseRegen]
    split
    · exact CheckRegenStatus_Definitions _ _
    · rfl
  | CheckThresholds t =>
    refine Eq.trans ?_ h
    simp only [Operation.apply, UAttributeComponent.CheckThresholds]
    repeat' split
    all_goals rfl
  | DecreaseHealth x =>
    refine Eq.trans ?_ h
    simp only [Operation.apply, UAttributeComponent.DecreaseHealth,
      UAttributeComponent.SetAttributeValue]
    split
    · exact SetAttributeValueInternal_Definitions s HealthTag x .Subtract
    · exact SetAttributeValueInternal_Definitions s HealthTag x .Subtract
  | IncreaseHealth x =>
    exact (SetAttributeValueInternal_Definitions s HealthTag x .Add).trans h
  | SaveAttributes n i b => exact (SaveAttributes_Definitions s n i b).trans h
  | ResetAllAttributes => exact (ResetAllAttributes_fields s).1.trans h
  | LoadAttributesFromDataAsset =>
    have hA : s.AttributeDataAsset = some defs := congrArg Prod.fst h
    simp only [Operation.apply, UAttributeComponent.LoadAttributesFromDataAsset, hA]
    exact (AnnounceAttribute_foldl _ _).1

theorem Operation.run_Definitions (ops : List Operation) (s : UAttributeComponent)
    (defs : List FAttribute) (h : s.Definitions = (some defs, defs)) :
    (Operation.run s ops).Definitions = (some defs, defs) := by
  induction ops generalizing s with
  | nil => exact h
  | cons op tl ih => exact ih (op.apply s) (Operation.apply_keeps_Definitions s op defs h)

theorem LoadAttributesFromDataAsset_Definitions (s0 : UAttributeComponent)
    (defs : List FAttribute) (h0 : s0.AttributeDataAsset = some defs) :
    (LoadAttributesFromDataAsset s0).Definitions = (some defs, defs) := by
  simp only [LoadAttributesFromDataAsset, h0]
  refine Eq.trans (AnnounceAttribute_foldl _ _).1 ?_
  simp [Definitions, InitializeAttributeMap, h0]

/-- C21: reset restores the loaded definitions.  After `LoadAttributesFromDataAsset` on
an asset holding `defs` and any sequence of public operations, `ResetAllAttributes`
leaves the enumeration equal to `defs` in their order and the tag index equal to the
index built from `defs`; the timers that ran before play no role, the timer table is
the one a fresh component has right after loading `defs`; the call broadcasts one
`OnAttributeChanged(tag, initial value)` per definition, in that order, and nothing
else; and a second reset changes nothing but the log. -/
theorem C21_reset_restores_loaded_definitions (s0 : UAttributeComponent)
    (defs : List FAttribute) (ops : List Operation) (h0 : s0.AttributeDataAsset = some defs) :
    GetAllAttributes
      (ResetAllAttributes (Operation.run (LoadAttributesFromDataAsset s0) ops)) = defs ∧
    (ResetAllAttributes (Operation.run (LoadAttributesFromDataAsset s0) ops)).AttributeMap =
      defs.foldl (fun m Attribute => TMap.Add m Attribute.AttributeTag Attribute) [] ∧
    ((ResetAllAttributes (Operation.run (LoadAttributesFromDataAsset s0) ops)).RegenTimers =
        (ResetAllAttributes
          { Operation.run (LoadAttributesFromDataAsset s0) ops with RegenTimers := [] }).RegenTimers ∧
      (ResetAllAttributes (Operation.run (LoadAttributesFromDataAsset s0) ops)).RegenTimers =
        (LoadAttributesFromDataAsset (ctor (some defs))).RegenTimers) ∧
    (ResetAllAttributes (Operation.run (LoadAttributesFromDataAsset s0) ops)).Broadcasts =
      (Operation.run (LoadAttributesFromDataAsset s0) ops).Broadcasts ++
        defs.map (fun a => Event.OnAttributeChanged a.AttributeTag a.Value) ∧
    (ResetAllAttributes
        (ResetAllAttributes (Operation.run (LoadAttributesFromDataAsset s0) ops))).Silent =
      (ResetAllAttributes (Operation.run (LoadAttributesFromDataAsset s0) ops)).Silent := by
  have hD : (Operation.run (LoadAttributesFromDataAsset s0) ops).Definitions =
      (some defs, defs) :=
    Operation.run_Definitions ops _ defs (LoadAttributesFromDataAsset_Definitions s0 defs h0)
  have hB : (Operation.run (LoadAttributesFromDataAsset s0) ops).InitialAttributesBackup
      = defs := congrArg Prod.snd hD
  generalize Operation.run (LoadAttributesFromDataAsset s0) ops = s at hD hB ⊢
  obtain ⟨f1, f2, f3, f4, f5, f6, f7⟩ := ResetAllAttributes_fields s
  obtain ⟨g1, g2, g3, g4, g5, g6, _⟩ := ResetAllAttributes_fields (ResetAllAttributes s)
  have hB' : (ResetAllAttributes s).InitialAttributesBackup = s.InitialAttributesBackup :=
    congrArg Prod.snd f1
  refine ⟨?_, ?_, ⟨rfl, ?_⟩, ?_, ?_⟩
  · rw [GetAllAttributes, f2, hB]
  · rw [f3, hB]
  · rw [ResetAllAttributes_RegenTimers, hB]
  · rw [f7, hB]
    rfl
  · apply UAttributeComponent.eq_of_fields
    · exact g1
    · exact (g2.trans hB').trans f2.symm
    · show (ResetAllAttributes (ResetAllAttributes s)).AttributeMap =
        (ResetAllAttributes s).AttributeMap
      rw [g3, hB', f3]
    · exact g4
    · show (ResetAllAttributes (ResetAllAttributes s)).RegenTimers =
        (ResetAllAttributes s).RegenTimers
      rw [ResetAllAttributes_RegenTimers, ResetAllAttributes_RegenTimers, hB']
    · exact g5
    · exact g6
    · rfl

/-- C21 at work: health and stamina are loaded, health is lowered, mana is added, a
regen tick runs and stamina is removed; the enumeration then lists health and mana,
and after the reset it lists health and stamina as loaded. -/
theorem C21_reset_restores_loaded_definitions_witness :
    GetAllAttributes
      (Operation.run (LoadAttributesFromDataAsset (ctor (some [Health50, Stamina10])))
        [.Mutate (.SetAttributeValue HealthTag 30 .Subtract), .AddAttribute Mana30,
         .Mutate .RegenerateAttributes, .RemoveAttribute "Attribute.Stamina"])
      = [Health50, Mana30] ∧
    GetAllAttributes
      (ResetAllAttributes
        (Operation.run (LoadAttributesFromDataAsset (ctor (some [Health50, Stamina10])))
          [.Mutate (.SetAttributeValue HealthTag 30 .Subtract), .AddAttribute Mana30,
           .Mutate .RegenerateAttributes, .RemoveAttribute "Attribute.Stamina"]))
      = [Health50, Stamina10] :=
  ⟨by decide,
    (C21_reset_restores_loaded_definitions (ctor (some [Health50, Stamina10]))
      [Health50, Stamina10]
      [.Mutate (.SetAttributeValue HealthTag 30 .Subtract), .AddAttribute Mana30,
       .Mutate .RegenerateAttributes, .RemoveAttribute "Attribute.Stamina"] (by decide)).1⟩

end AttributeSystem
